import Mathlib

/-! # AXI4-Lite Trivium core: driver, bare-metal helpers and their test

A shallow embedding of `sw/linux_driver/axi_trivium.{h,c}` (the /proc driver that
multiplexes several software instances onto the single hardware core), of
`sw/bare_metal_test/trivium_helpers.c` (the polling helpers of the bare-metal test) and
of `sw/basic_test/axi_trivium_test_main.c` (the test that drives them).

Conventions of the embedding.

* Bytes and 32-bit words are natural numbers; every place where C truncates to
  `unsigned int` or `unsigned char` carries an explicit `%`.
* The target is the 32-bit little-endian ARM of the Zynq (the module imports
  `__arm_ioremap`), so `size_t` and `unsigned int` are both 32 bits wide and a word is
  read from a byte buffer least significant byte first.
* A pointer to a heap buffer is an `Option (List Nat)`: `none` is `NULL`.
* The memory-mapped core behind `p_base_addr` is a state of an arbitrary type `σ`
  together with the two bus primitives `ioread32`/`iowrite32` (`Device σ`).  Every bus
  access is appended to a trace, so that statements of the form "no register is
  touched" can be expressed.
* `while (0 == reg_get(..));` is a polling loop without a bound in the source; the
  embedding gives it `fuel` iterations and reports `Outcome.spinning` when they are
  used up.
* `mutex_lock` on a mutex that is already held never returns in a sequential run; this
  is `Outcome.blocked`.
* A call of a handler is one function application from the state before to the state
  after.  What other threads do while a call runs is not represented; between two
  calls the globals may be changed arbitrarily.
* What the kernel does around a call (whether `kzalloc` succeeds, whether the user
  buffer can be copied) is an argument of the call (`Env`).

The properties of the driver that do not depend on what the core computes are proved
for every `Device`.  Where the ciphertext itself matters, the device is the simulated
core `Engine`, which follows the register file contract and leaves the cipher abstract
(`Cipher`).
-/

namespace Trivium

/-! ## Constants of `errno.h` and of `axi_trivium.h` -/

/-- I/O error. -/
def EIO : Int := 5

/-- Exec format error. -/
def ENOEXEC : Int := 8

/-- Out of memory. -/
def ENOMEM : Int := 12

/-- Bad address. -/
def EFAULT : Int := 14

/-- Invalid argument. -/
def EINVAL : Int := 22

/-- Configuration register. -/
def REG_CONFIG : Nat := 0

/-- Register for lowest 32 bits of key. -/
def REG_KEY_LO : Nat := 1

/-- Register for middle 32 bits of key. -/
def REG_KEY_MID : Nat := 2

/-- Register for highest 16 bits of key. -/
def REG_KEY_HI : Nat := 3

/-- Register for lowest 32 bits of IV. -/
def REG_IV_LO : Nat := 4

/-- Register for middle 32 bits of IV. -/
def REG_IV_MID : Nat := 5

/-- Register for highest 16 bits of IV. -/
def REG_IV_HI : Nat := 6

/-- Input data register. -/
def REG_DAT_I : Nat := 7

/-- Cipher output data register. -/
def REG_DAT_O : Nat := 8

/-- Initialize the core after specifying key and IV. -/
def REG_CONFIG_BIT_INIT : Nat := 0

/-- Stop the core and reset the instance. -/
def REG_CONFIG_BIT_STOP : Nat := 1

/-- Start processing input data. -/
def REG_CONFIG_BIT_PROC : Nat := 2

/-- Read-only bit indicating whether the core is currently busy. -/
def REG_CONFIG_BIT_BUSY : Nat := 8

/-- Read-only bit indicating whether the initialization phase has completed. -/
def REG_CONFIG_BIT_IDONE : Nat := 9

/-- Read-only bit indicating whether the output computation has completed. -/
def REG_CONFIG_BIT_OVAL : Nat := 10

/-- Number of key bytes. -/
def KEY_LEN : Nat := 10

/-- Number of IV bytes. -/
def IV_LEN : Nat := 10

/-- Data on write must be a multiple of this number of bytes. -/
def DAT_LEN_MUL : Nat := 4

/-- Range of `unsigned int` (and of `size_t`) on the target. -/
def U32 : Nat := 4294967296

/-! ## The register port -/

/-- One access on the bus: the register index and the 32-bit value read or written. -/
inductive Access where
  | rd (reg val : Nat)
  | wr (reg val : Nat)
  deriving DecidableEq, Repr

/-- The memory-mapped core as seen from the bus.  A read may change the state of the
core (time passes between two polls). -/
structure Device (σ : Type) where
  ioread32 : σ → Nat → Nat × σ
  iowrite32 : σ → Nat → Nat → σ

/-- The mapped core behind `struct core_info` (`p_base_addr`): the state of the core
and the trace of all bus accesses made so far, oldest first.  The resource fields of
the C structure are only used by probe/remove and are not modelled. -/
structure core_info (σ : Type) where
  dev : σ
  trace : List Access

/-- Result of a call that may fail to return. -/
inductive Outcome (α : Type) where
  /-- The call returned. -/
  | ret (a : α)
  /-- A polling loop was still spinning when the fuel ran out. -/
  | spinning
  /-- The call sleeps in `mutex_lock` on a mutex that is held and never released. -/
  | blocked
  /-- The kernel dereferenced a `NULL` buffer. -/
  | oops
  deriving DecidableEq, Repr

/-- Sequencing of calls that may fail to return. -/
def Outcome.bind {α β : Type} (x : Outcome α) (f : α → Outcome β) : Outcome β :=
  match x with
  | Outcome.ret a => f a
  | Outcome.spinning => Outcome.spinning
  | Outcome.blocked => Outcome.blocked
  | Outcome.oops => Outcome.oops

variable {σ : Type}

/-- Logged `ioread32(p_base_addr + reg)`; the value is an `unsigned int`. -/
def bus_rd (D : Device σ) (c : core_info σ) (reg : Nat) : Nat × core_info σ :=
  let r := D.ioread32 c.dev reg
  (r.1 % U32, { dev := r.2, trace := c.trace ++ [Access.rd reg (r.1 % U32)] })

/-- Logged `iowrite32(dat, p_base_addr + reg)`; the value is an `unsigned int`. -/
def bus_wr (D : Device σ) (c : core_info σ) (reg dat : Nat) : core_info σ :=
  { dev := D.iowrite32 c.dev reg (dat % U32), trace := c.trace ++ [Access.wr reg (dat % U32)] }

/-- Inline helper `reg_wr` (`p_ip_info` is `&ip_info`, never `NULL`). -/
def reg_wr (D : Device σ) (c : core_info σ) (reg dat : Nat) : core_info σ :=
  bus_wr D c reg dat

/-- Inline helper `reg_rd`. -/
def reg_rd (D : Device σ) (c : core_info σ) (reg : Nat) : Nat × core_info σ :=
  bus_rd D c reg

/-- Inline helper `reg_set`: `iowrite32(ioread32(a) | (1 << bit_pos), a)`. -/
def reg_set (D : Device σ) (c : core_info σ) (reg bit_pos : Nat) : core_info σ :=
  let r := bus_rd D c reg
  bus_wr D r.2 reg (r.1 ||| (1 <<< bit_pos))

/-- Inline helper `reg_get`:
`(unsigned char)((ioread32(a) & (1 << bit_pos)) >> bit_pos)`. -/
def reg_get (D : Device σ) (c : core_info σ) (reg bit_pos : Nat) : Nat × core_info σ :=
  let r := bus_rd D c reg
  (((r.1 &&& (1 <<< bit_pos)) >>> bit_pos) % 256, r.2)

/-- The loop `while (0 == reg_get(p_ip_info, REG_CONFIG, bit));` with `fuel`
iterations: `none` when the bit was not seen within the fuel. -/
def wait_bit (D : Device σ) (bit : Nat) : Nat → core_info σ → Option (core_info σ)
  | 0, _ => none
  | fuel + 1, c =>
    let r := reg_get D c REG_CONFIG bit
    if r.1 = 0 then wait_bit D bit fuel r.2 else some r.2

/-! ## Byte buffers, allocation and user copies -/

/-- The four bytes of a 32-bit word, least significant first. -/
def le_bytes (w : Nat) : List Nat :=
  [w % 256, w / 256 % 256, w / 65536 % 256, w / 16777216 % 256]

/-- Read `*(((unsigned int *)buf) + i)`. -/
def load32 (buf : List Nat) (i : Nat) : Nat :=
  buf.getD (4 * i) 0 + 256 * buf.getD (4 * i + 1) 0 + 65536 * buf.getD (4 * i + 2) 0
    + 16777216 * buf.getD (4 * i + 3) 0

/-- Write `*(((unsigned int *)buf) + i) = w`. -/
def store32 (buf : List Nat) (i w : Nat) : List Nat :=
  buf.take (4 * i) ++ le_bytes w ++ buf.drop (4 * i + 4)

/-- Allocation `kzalloc(n, GFP_KERNEL)`: zeroed memory, `NULL` when the allocator fails
(`ok = false`).  A request of zero bytes never fails: the kernel hands out the
non-`NULL` `ZERO_SIZE_PTR`. -/
def kzalloc (ok : Bool) (n : Nat) : Option (List Nat) :=
  if n = 0 then some [] else if ok then some (List.replicate n 0) else none

/-- Copy `copy_from_user(dst, src, n)`: the first component tells whether bytes were
left uncopied (the C call then returns non-zero).  A copy of zero bytes leaves nothing
uncopied.  A failed copy is modelled as copying nothing, so `dst` keeps its zeroes. -/
def copy_from_user (ok : Bool) (dst src : List Nat) (n : Nat) : Bool × List Nat :=
  if n = 0 then (false, dst)
  else if ok then (false, src.take n ++ dst.drop n)
  else (true, dst)

/-- Copy `copy_to_user(p_buf, src, n)`: whether bytes were left uncopied, and the bytes
that reached the user buffer. -/
def copy_to_user (ok : Bool) (src : List Nat) (n : Nat) : Bool × List Nat :=
  if n = 0 then (false, [])
  else if ok then (false, src.take n)
  else (true, [])

/-- Subtraction of two `unsigned int`. -/
def u32_sub (a b : Nat) : Nat := (a + U32 - b % U32) % U32

/-! ## Driver state -/

/-- Represents a user instance of the AXI4-Lite Trivium core. -/
structure axi_trivium_inst where
  /-- Key used in this instance. -/
  p_key : Option (List Nat)
  /-- IV used in this instance. -/
  p_iv : Option (List Nat)
  /-- Plaintext buffer. -/
  p_pt : Option (List Nat)
  /-- Ciphertext buffer. -/
  p_ct : Option (List Nat)
  /-- PT/CT buffer size. -/
  buf_sz : Nat
  /-- Index into CT buffer. -/
  ct_idx : Nat
  deriving DecidableEq, Repr

/-- The instance created by `proc_axi_trivium_open`: `kzalloc` zeroes every field. -/
def proc_axi_trivium_open : axi_trivium_inst :=
  { p_key := none, p_iv := none, p_pt := none, p_ct := none, buf_sz := 0, ct_idx := 0 }

/-- The two globals of the driver: the IP core info and the core mutex
(`true` = held). -/
structure Global (σ : Type) where
  ip_info : core_info σ
  ip_mtx : Bool

/-- What the surroundings of one `write` call do: whether the first and the second
`kzalloc` of the call succeed and whether the user buffer can be read. -/
structure Env where
  alloc1 : Bool
  alloc2 : Bool
  user_ok : Bool
  deriving DecidableEq, Repr

/-- The surroundings in which every allocation and every user copy succeeds. -/
def Env.nominal : Env := { alloc1 := true, alloc2 := true, user_ok := true }

/-- The surroundings of a `write` call whose user buffer cannot be read: allocations
succeed, `copy_from_user` leaves bytes uncopied. -/
def Env.bad_buffer : Env := { alloc1 := true, alloc2 := true, user_ok := false }

/-! ## `context_swap` and `encrypt` -/

/-- Swap the current instance in hardware with a specified one (`context_swap`).
Returns the C return value and the core afterwards.  Both pointer arguments are
addresses of existing objects (`&ip_info`, the instance of the open file), so of the
`-EINVAL` guards only the one on the key and IV buffers is modelled. -/
def context_swap (D : Device σ) (fuel : Nat) (c : core_info σ) (p_new_inst : axi_trivium_inst) :
    Outcome (Int × core_info σ) :=
  match p_new_inst.p_key, p_new_inst.p_iv with
  | some key, some iv =>
    -- Stop the core
    let c1 := reg_set D c REG_CONFIG REG_CONFIG_BIT_STOP
    -- Check if core is ready
    let b := reg_get D c1 REG_CONFIG REG_CONFIG_BIT_BUSY
    if b.1 = 1 then Outcome.ret (- EIO, b.2)
    else
      -- Set key and IV
      let c2 := reg_wr D b.2 REG_KEY_LO (load32 key 0)
      let c3 := reg_wr D c2 REG_KEY_MID (load32 key 1)
      let c4 := reg_wr D c3 REG_KEY_HI (load32 key 2)
      let c5 := reg_wr D c4 REG_IV_LO (load32 iv 0)
      let c6 := reg_wr D c5 REG_IV_MID (load32 iv 1)
      let c7 := reg_wr D c6 REG_IV_HI (load32 iv 2)
      -- Initialize and wait for completion
      let c8 := reg_set D c7 REG_CONFIG REG_CONFIG_BIT_INIT
      match wait_bit D REG_CONFIG_BIT_IDONE fuel c8 with
      | none => Outcome.spinning
      | some c9 => Outcome.ret (0, c9)
  | _, _ => Outcome.ret (- EINVAL, c)

/-- The loop of `encrypt`: `todo` iterations are left, the next word index is `i`.
Returns the C return value, the core and the ciphertext buffer. -/
def encrypt_loop (D : Device σ) (fuel : Nat) (pt : List Nat) :
    Nat → Nat → core_info σ → List Nat → Outcome (Int × core_info σ × List Nat)
  | 0, _, c, ct => Outcome.ret (0, c, ct)
  | todo + 1, i, c, ct =>
    -- Make sure the core is ready
    let b := reg_get D c REG_CONFIG REG_CONFIG_BIT_BUSY
    if b.1 = 1 then Outcome.ret (- EIO, b.2, ct)
    else
      -- Write plaintext to core
      let c1 := reg_wr D b.2 REG_DAT_I (load32 pt i)
      -- Start computation and wait until output valid
      let c2 := reg_set D c1 REG_CONFIG REG_CONFIG_BIT_PROC
      match wait_bit D REG_CONFIG_BIT_OVAL fuel c2 with
      | none => Outcome.spinning
      | some c3 =>
        -- Read result into output buffer
        let o := reg_rd D c3 REG_DAT_O
        encrypt_loop D fuel pt todo (i + 1) o.2 (store32 ct i o.1)

/-- Encrypt current plaintext buffer (`encrypt`).  Returns the C return value, the core
and the instance (whose ciphertext buffer is written in place).  Of the `-EINVAL`
guards only the one on the plaintext and ciphertext buffers is modelled, as in
`context_swap`. -/
def encrypt (D : Device σ) (fuel : Nat) (c : core_info σ) (p_inst : axi_trivium_inst) :
    Outcome (Int × core_info σ × axi_trivium_inst) :=
  match p_inst.p_pt, p_inst.p_ct with
  | some pt, some ct =>
    match encrypt_loop D fuel pt (p_inst.buf_sz / DAT_LEN_MUL) 0 c ct with
    | Outcome.ret (r, c1, ct1) => Outcome.ret (r, c1, { p_inst with p_ct := some ct1 })
    | Outcome.spinning => Outcome.spinning
    | Outcome.blocked => Outcome.blocked
    | Outcome.oops => Outcome.oops
  | _, _ => Outcome.ret (- EINVAL, c, p_inst)

/-! ## File operation handlers

The count `sz` of a `write` is the length of the user buffer `p_buf`.  The VFS caps the
count of every read and write at `MAX_RW_COUNT < 2^31`, so the conversions of `sz` to
`unsigned int` (`buf_sz = sz`) and to `ssize_t` (`return sz`) keep its value. -/

/-- Handler for write operation on /proc entry (`proc_axi_trivium_write`).  Returns the
C return value, the globals and the instance after the call. -/
def proc_axi_trivium_write (D : Device σ) (fuel : Nat) (e : Env) (g : Global σ)
    (p_inst : axi_trivium_inst) (p_buf : List Nat) :
    Outcome (Int × Global σ × axi_trivium_inst) :=
  let sz := p_buf.length
  match p_inst.p_key, p_inst.p_iv with
  | none, _ =>
    -- Key data expected, check format
    if sz ≠ KEY_LEN then Outcome.ret (- ENOEXEC, g, p_inst)
    else
      match kzalloc e.alloc1 ((sz / 3) * 4) with
      | none => Outcome.ret (- ENOMEM, g, p_inst)
      | some key =>
        let cp := copy_from_user e.user_ok key p_buf sz
        if cp.1 then Outcome.ret (- EFAULT, g, { p_inst with p_key := some cp.2 })
        else Outcome.ret ((sz : Int), g, { p_inst with p_key := some cp.2 })
  | some _, none =>
    -- IV data expected, check format
    if sz ≠ IV_LEN then Outcome.ret (- ENOEXEC, g, p_inst)
    else
      match kzalloc e.alloc1 ((sz / 3) * 4) with
      | none => Outcome.ret (- ENOMEM, g, p_inst)
      | some iv =>
        let cp := copy_from_user e.user_ok iv p_buf sz
        if cp.1 then Outcome.ret (- EFAULT, g, { p_inst with p_iv := some cp.2 })
        else Outcome.ret ((sz : Int), g, { p_inst with p_iv := some cp.2 })
  | some _, some _ =>
    -- Plaintext data is expected to be multiple of input register size
    if sz % DAT_LEN_MUL ≠ 0 then Outcome.ret (- ENOEXEC, g, p_inst)
    else
      -- Allocate buffers, note that unread CT data will be lost
      let i1 := { p_inst with p_pt := kzalloc e.alloc1 sz }
      let i2 := if i1.p_ct.isSome then { i1 with p_ct := none, ct_idx := 0 } else i1
      let i3 := { i2 with p_ct := kzalloc e.alloc2 sz, buf_sz := sz }
      match i3.p_pt with
      | none => Outcome.oops
      | some pt =>
        let cp := copy_from_user e.user_ok pt p_buf sz
        let i4 := { i3 with p_pt := some cp.2 }
        if cp.1 then Outcome.ret (- EFAULT, g, i4)
        -- This case denotes the actual encryption request, obtain access to IP
        else if g.ip_mtx then Outcome.blocked
        else
          (context_swap D fuel g.ip_info i4).bind fun r1 =>
            if r1.1 ≠ 0 then Outcome.ret (r1.1, { ip_info := r1.2, ip_mtx := true }, i4)
            else
              (encrypt D fuel r1.2 i4).bind fun r2 =>
                if r2.1 ≠ 0 then
                  Outcome.ret (r2.1, { ip_info := r2.2.1, ip_mtx := true }, r2.2.2)
                else
                  -- Free the IP for other processes
                  Outcome.ret ((sz : Int), { ip_info := r2.2.1, ip_mtx := false },
                    { r2.2.2 with p_pt := none })

/-- Handler for read operation on /proc entry (`proc_axi_trivium_read`).  Returns the C
return value, the instance after the call and the bytes delivered to the user.  The two
disjuncts of the first check (`sz > buf_sz - ct_idx || !p_ct`) have no side effect and
are taken in the other order. -/
def proc_axi_trivium_read (user_ok : Bool) (p_inst : axi_trivium_inst) (sz : Nat) :
    Int × axi_trivium_inst × List Nat :=
  match p_inst.p_ct with
  | none => (- ENOEXEC, p_inst, [])
  | some ct =>
    -- Check if requested read is possible
    if sz > u32_sub p_inst.buf_sz p_inst.ct_idx then (- ENOEXEC, p_inst, [])
    else
      -- Copy requested number of bytes
      let cp := copy_to_user user_ok (ct.drop p_inst.ct_idx) sz
      if cp.1 then (- EFAULT, p_inst, [])
      else
        -- Update index and clear buffer if everything has been read
        let idx := (p_inst.ct_idx + sz) % U32
        if idx = p_inst.buf_sz then
          ((sz : Int), { p_inst with p_ct := none, ct_idx := 0 }, cp.2)
        else ((sz : Int), { p_inst with ct_idx := idx }, cp.2)

/-! ## Bare-metal helpers (`trivium_helpers.c`)

The helpers access the registers through the macros `REG_WR`, `REG_RD`, `REG_SET` and
`REG_GET` of `trivium_helpers.h`.  The header that goes with the bare-metal helpers
(the one defining `BIT_BUSY` and `BIT_IDONE`) is not among the sources; the positions
of the three status bits are therefore parameters. -/

/-- Xilinx status code for success (`xstatus.h`). -/
def XST_SUCCESS : Int := 0

/-- Xilinx status code for failure (`xstatus.h`). -/
def XST_FAILURE : Int := 1

/-- Pulse bit: initialize. -/
def BIT_INIT : Nat := 0

/-- Pulse bit: stop. -/
def BIT_STOP : Nat := 1

/-- Pulse bit: process. -/
def BIT_PROC : Nat := 2

/-- Positions of the read-only status bits used by the helpers. -/
structure StatusBits where
  BIT_BUSY : Nat
  BIT_IDONE : Nat
  BIT_OVAL : Nat

/-- Macro `REG_WR(IDX, DAT)`: `*(BASE_ADDR + IDX) = DAT`. -/
def REG_WR (D : Device σ) (c : core_info σ) (idx dat : Nat) : core_info σ :=
  bus_wr D c idx dat

/-- Macro `REG_RD(IDX)`: `*(BASE_ADDR + IDX)`. -/
def REG_RD (D : Device σ) (c : core_info σ) (idx : Nat) : Nat × core_info σ :=
  bus_rd D c idx

/-- Macro `REG_SET(IDX, BIT)`: `*(BASE_ADDR + IDX) |= 1 << BIT`. -/
def REG_SET (D : Device σ) (c : core_info σ) (idx bit : Nat) : core_info σ :=
  let r := bus_rd D c idx
  bus_wr D r.2 idx (r.1 ||| (1 <<< bit))

/-- Macro `REG_GET(IDX, BIT)`: `(*(BASE_ADDR + IDX) & (1 << BIT)) >> BIT`. -/
def REG_GET (D : Device σ) (c : core_info σ) (idx bit : Nat) : Nat × core_info σ :=
  let r := bus_rd D c idx
  ((r.1 &&& (1 <<< bit)) >>> bit, r.2)

/-- The loop `while (0 == REG_GET(REG_CONFIG, bit));` with `fuel` iterations. -/
def WAIT_GET (D : Device σ) (bit : Nat) : Nat → core_info σ → Option (core_info σ)
  | 0, _ => none
  | fuel + 1, c =>
    let r := REG_GET D c REG_CONFIG bit
    if r.1 = 0 then WAIT_GET D bit fuel r.2 else some r.2

/-- Create a new Trivium instance based on the specified key and IV (`new_instance`).
The arguments are the word arrays behind `p_key` and `p_iv` (`none` for a null
pointer). -/
def new_instance (D : Device σ) (B : StatusBits) (fuel : Nat) (c : core_info σ)
    (p_key p_iv : Option (List Nat)) : Outcome (Int × core_info σ) :=
  match p_key, p_iv with
  | some key, some iv =>
    -- Make sure the core is ready
    let b := REG_GET D c REG_CONFIG B.BIT_BUSY
    if b.1 = 1 then Outcome.ret (XST_FAILURE, b.2)
    else
      -- Write key to core
      let c1 := REG_WR D b.2 REG_KEY_LO (key.getD 0 0)
      let c2 := REG_WR D c1 REG_KEY_MID (key.getD 1 0)
      let c3 := REG_WR D c2 REG_KEY_HI (key.getD 2 0)
      -- Write IV to core
      let c4 := REG_WR D c3 REG_IV_LO (iv.getD 0 0)
      let c5 := REG_WR D c4 REG_IV_MID (iv.getD 1 0)
      let c6 := REG_WR D c5 REG_IV_HI (iv.getD 2 0)
      -- Initialize the cipher
      let c7 := REG_SET D c6 REG_CONFIG BIT_INIT
      -- Wait until initialization complete
      match WAIT_GET D B.BIT_IDONE fuel c7 with
      | none => Outcome.spinning
      | some c8 => Outcome.ret (XST_SUCCESS, c8)
  | _, _ => Outcome.ret (XST_FAILURE, c)

/-- Delete the current instance (`delete_instance`). -/
def delete_instance (D : Device σ) (c : core_info σ) : Int × core_info σ :=
  (XST_SUCCESS, REG_SET D c REG_CONFIG BIT_STOP)

/-- Encrypt word and store in specified ciphertext buffer (`encrypt_word`).  `p_pt` is
the word behind the input pointer, `p_ct` the content of the output word (`none` for a
null pointer); the result carries the content of the output word afterwards. -/
def encrypt_word (D : Device σ) (B : StatusBits) (fuel : Nat) (c : core_info σ)
    (p_pt p_ct : Option Nat) : Outcome (Int × Option Nat × core_info σ) :=
  match p_pt, p_ct with
  | some pt, some ct =>
    -- Make sure the core is ready
    let b := REG_GET D c REG_CONFIG B.BIT_BUSY
    if b.1 = 1 then Outcome.ret (XST_FAILURE, some ct, b.2)
    else
      -- Write plaintext to core
      let c1 := REG_WR D b.2 REG_DAT_I pt
      -- Start computation and wait until output valid
      let c2 := REG_SET D c1 REG_CONFIG BIT_PROC
      match WAIT_GET D B.BIT_OVAL fuel c2 with
      | none => Outcome.spinning
      | some c3 =>
        -- Read result into output buffer
        let o := REG_RD D c3 REG_DAT_O
        Outcome.ret (XST_SUCCESS, some o.1, o.2)
  | _, _ => Outcome.ret (XST_FAILURE, p_ct, c)

/-! ## The bare-metal test (`axi_trivium_test_main.c`)

The test data of `test_data.h` is not among the sources; it is a parameter.  Printing
is not modelled. -/

/-- The tables of `test_data.h`: the number of tests and, for each test, the key and IV
word arrays, the number of words and the plaintext and reference ciphertext words. -/
structure TestData where
  NUM_TESTS : Nat
  keys : Nat → List Nat
  ivs : Nat → List Nat
  block_sizes : Nat → Nat
  pt_blocks : Nat → Nat → Nat
  ct_blocks : Nat → Nat → Nat

/-- The inner loop of `main` for test `i`: `todo` words are left, the next word index is
`j`, `ct` is the content of the local variable `ct`.  The first component is `false`
when `main` returns `XST_FAILURE` from inside the loop. -/
def main_words (D : Device σ) (B : StatusBits) (fuel : Nat) (T : TestData) (i : Nat) :
    Nat → Nat → core_info σ → Nat → Outcome (Bool × core_info σ × Nat)
  | 0, _, c, ct => Outcome.ret (true, c, ct)
  | todo + 1, j, c, ct =>
    -- Encrypt block and compare to reference CT
    (encrypt_word D B fuel c (some (T.pt_blocks i j)) (some ct)).bind fun r =>
      if r.1 ≠ 0 then Outcome.ret (false, r.2.2, r.2.1.getD ct)
      else if r.2.1.getD ct ≠ T.ct_blocks i j then Outcome.ret (false, r.2.2, r.2.1.getD ct)
      else main_words D B fuel T i todo (j + 1) r.2.2 (r.2.1.getD ct)

/-- The outer loop of `main`: `todo` tests are left, the next test index is `i`. -/
def main_tests (D : Device σ) (B : StatusBits) (fuel : Nat) (T : TestData) :
    Nat → Nat → core_info σ → Nat → Outcome (Int × core_info σ)
  | 0, _, c, _ => Outcome.ret (XST_SUCCESS, c)
  | todo + 1, i, c, ct =>
    (new_instance D B fuel c (some (T.keys i)) (some (T.ivs i))).bind fun r =>
      if r.1 ≠ 0 then Outcome.ret (XST_FAILURE, r.2)
      else
        (main_words D B fuel T i (T.block_sizes i) 0 r.2 ct).bind fun w =>
          if w.1 = false then Outcome.ret (XST_FAILURE, w.2.1)
          else
            if (delete_instance D w.2.1).1 ≠ 0 then
              Outcome.ret (XST_FAILURE, (delete_instance D w.2.1).2)
            else main_tests D B fuel T todo (i + 1) (delete_instance D w.2.1).2 w.2.2

/-- Main function of the bare-metal test (`main`); `ct` is the indeterminate initial
content of the local variable `ct`. -/
def main (D : Device σ) (B : StatusBits) (fuel : Nat) (T : TestData) (c : core_info σ)
    (ct : Nat) : Outcome (Int × core_info σ) :=
  main_tests D B fuel T T.NUM_TESTS 0 c ct

/-! ## A simulated core

The hardware description of the core is not part of the software sources.  The
following simulated core follows the register file contract: nine 32-bit slots
(configuration/status, key low/mid/high, IV low/mid/high, data-in, data-out), the
write-side self-clearing pulses init, stop and process and the read-only status bits
busy, init-done and output-valid.  The cipher itself stays abstract. -/

/-- The stream cipher inside the core: how the three key words and the three IV words
are turned into an internal state, and how one input word is turned into one output
word while the keystream advances by one word. -/
structure Cipher (κ : Type) where
  load : Nat → Nat → Nat → Nat → Nat → Nat → κ
  step : κ → Nat → Nat × κ

/-- Modelled from the spec: the state of the hardware core, which the software sources
only access through its registers.  `regs` holds slots 1 to 8, `core` the loaded
context (`none` after a stop), `idone`/`oval` the completion flags, `pending` the
number of status polls before a completion flag becomes visible (`none`: never).
`latency` and `busy` belong to the surroundings: the latency of an init or process
pulse, counted in status polls (`none`: the core is wedged and never completes), and
the value of the busy bit at each bus access, numbered by `clock`. -/
structure Engine (κ : Type) where
  regs : Nat → Nat
  core : Option κ
  idone : Bool
  oval : Bool
  pending : Option Nat
  latency : Option Nat
  busy : Nat → Bool
  clock : Nat

variable {κ : Type}

/-- Modelled from the spec: the value read from the configuration/status slot.  The
three pulse bits are self-clearing and read as zero. -/
def Engine.status (e : Engine κ) : Nat :=
  (if e.busy e.clock then 256 else 0)
    + (if e.idone && e.pending == some 0 then 512 else 0)
    + (if e.oval && e.pending == some 0 then 1024 else 0)

/-- Modelled from the spec: the stop/reset pulse drops the loaded context. -/
def Engine.stop (e : Engine κ) : Engine κ :=
  { e with core := none, idone := false, oval := false, pending := some 0 }

/-- Modelled from the spec: the init pulse loads the context held in the key and IV
slots; init-done shows after the latency. -/
def Engine.init (C : Cipher κ) (e : Engine κ) : Engine κ :=
  { e with
    core := some (C.load (e.regs REG_KEY_LO) (e.regs REG_KEY_MID) (e.regs REG_KEY_HI)
      (e.regs REG_IV_LO) (e.regs REG_IV_MID) (e.regs REG_IV_HI))
    idone := true, oval := false, pending := e.latency }

/-- Modelled from the spec: the process pulse runs one encryption step on the data-in
slot and puts the result word into the data-out slot; output-valid shows after the
latency.  Without a loaded context the pulse has no effect. -/
def Engine.proc (C : Cipher κ) (e : Engine κ) : Engine κ :=
  match e.core with
  | none => e
  | some k =>
    let r := C.step k (e.regs REG_DAT_I)
    { e with
      regs := fun j => if j = REG_DAT_O then r.1 % U32 else e.regs j
      core := some r.2, oval := true, pending := e.latency }

/-- Modelled from the spec: a bus read.  Every access advances the clock; a read of the
status slot is one poll. -/
def Engine.read (e : Engine κ) (reg : Nat) : Nat × Engine κ :=
  if reg = REG_CONFIG then
    (e.status, { e with clock := e.clock + 1, pending := e.pending.map Nat.pred })
  else (e.regs reg, { e with clock := e.clock + 1 })

/-- Modelled from the spec: a bus write.  A write to the configuration slot fires the
pulses whose bits are set (stop, then init, then process); the data-out slot is
read-only; any other slot stores the word. -/
def Engine.write (C : Cipher κ) (e : Engine κ) (reg v : Nat) : Engine κ :=
  let e0 := { e with clock := e.clock + 1 }
  if reg = REG_CONFIG then
    let e1 := if v.testBit REG_CONFIG_BIT_STOP then e0.stop else e0
    let e2 := if v.testBit REG_CONFIG_BIT_INIT then e1.init C else e1
    if v.testBit REG_CONFIG_BIT_PROC then e2.proc C else e2
  else if reg = REG_DAT_O then e0
  else { e0 with regs := fun j => if j = reg then v else e0.regs j }

/-- Modelled from the spec: the simulated core as a device on the bus. -/
def Engine.device (C : Cipher κ) : Device (Engine κ) :=
  { ioread32 := Engine.read, iowrite32 := Engine.write C }

/-- The simulated core never reports busy, completes every pulse after `d` polls and
holds the context `k`. -/
structure Engine.Loaded (d : Nat) (k : κ) (e : Engine κ) : Prop where
  idle : ∀ t, e.busy t = false
  lat : e.latency = some d
  core : e.core = some k

/-- The output words of the cipher for the input words `ws`, starting in state `k`. -/
def Cipher.run (C : Cipher κ) : κ → List Nat → List Nat
  | _, [] => []
  | k, w :: ws => (C.step k w).1 % U32 :: C.run (C.step k w).2 ws

/-- The 32-bit words of a byte buffer, in order. -/
def words_of (buf : List Nat) : List Nat :=
  (List.range (buf.length / 4)).map fun i => load32 buf i % U32

/-- The bytes of a list of words, in order. -/
def bytes_of (ws : List Nat) : List Nat :=
  ws.flatMap le_bytes

/-- The key (or IV) buffer of an instance: `(10/3)*4 = 12` zeroed bytes of which the
first ten are overwritten. -/
def pad12 (k : List Nat) : List Nat := k.take 10 ++ [0, 0]

/-- The ciphertext of the plaintext bytes `p` for the 12-byte key and IV buffers `key`
and `iv` of an instance, as the cipher alone determines it: load the context of the
three key words and the three IV words, then process the words of `p` in order. -/
def Cipher.of_buffers (C : Cipher κ) (key iv p : List Nat) : List Nat :=
  bytes_of (C.run
    (C.load (load32 key 0 % U32) (load32 key 1 % U32) (load32 key 2 % U32)
      (load32 iv 0 % U32) (load32 iv 1 % U32) (load32 iv 2 % U32))
    (words_of p))

/-- The ciphertext of the plaintext bytes `p` under the ten key bytes `k` and the ten IV
bytes `v`, as the cipher alone determines it. -/
def Cipher.ciphertext (C : Cipher κ) (k v p : List Nat) : List Nat :=
  C.of_buffers (pad12 k) (pad12 v) p

/-! ## Session phases and the data invariant -/

/-- Phase of a session. -/
inductive Phase where
  | Empty
  | HasKey
  | Ready
  deriving DecidableEq, Repr

/-- The phase the write handler dispatches on: no key yet, key but no IV, both. -/
def phase (i : axi_trivium_inst) : Phase :=
  match i.p_key, i.p_iv with
  | none, _ => Phase.Empty
  | some _, none => Phase.HasKey
  | some _, some _ => Phase.Ready

/-- Data invariant of an instance: the fields `buf_sz` and `ct_idx` are in the range of
`unsigned int`; a ciphertext buffer has `buf_sz` bytes and the cursor is inside it; the
cursor is zero when there is no ciphertext buffer; a ciphertext buffer only exists once
key and IV are set, and an IV only once the key is set. -/
def inst_wf (i : axi_trivium_inst) : Prop :=
  i.buf_sz < U32 ∧
  (match i.p_ct with
    | none => i.ct_idx = 0
    | some ct => ct.length = i.buf_sz ∧ i.ct_idx ≤ i.buf_sz) ∧
  (i.p_ct.isSome = true → phase i = Phase.Ready) ∧
  (i.p_iv.isSome = true → i.p_key.isSome = true)

/-! ## Call sequences on a session -/

/-- The states a session can be in: the state after `open`, and the state after any
`write` or `read` call that returns, accepted or rejected, made in a reachable state.
Each `write` runs in arbitrary surroundings `e` (allocator, user buffer) and arbitrary
globals `g` (other sessions may have used the core and the mutex in between); its
count is in the range of `size_t`. -/
inductive Reachable (D : Device σ) (fuel : Nat) : axi_trivium_inst → Prop where
  | opened : Reachable D fuel proc_axi_trivium_open
  | write (e : Env) (g g1 : Global σ) (inst i1 : axi_trivium_inst) (p_buf : List Nat)
      (r : Int) :
      Reachable D fuel inst → p_buf.length < U32 →
      proc_axi_trivium_write D fuel e g inst p_buf = Outcome.ret (r, g1, i1) →
      Reachable D fuel i1
  | read (user_ok : Bool) (inst : axi_trivium_inst) (sz : Nat) :
      Reachable D fuel inst → Reachable D fuel (proc_axi_trivium_read user_ok inst sz).2.1

/-! ## Ghost functions: what is observed of a call -/

/-- What a caller and an observer see of a `write` call: the return value, whether the
mutex is held afterwards, the bus trace and the instance. -/
def observe (o : Outcome (Int × Global σ × axi_trivium_inst)) :
    Outcome (Int × Bool × List Access × axi_trivium_inst) :=
  o.bind fun r => Outcome.ret (r.1, r.2.1.ip_mtx, r.2.1.ip_info.trace, r.2.2)

/-- The values read from the data-out slot along a trace, in order. -/
def dat_o_reads (l : List Access) : List Nat :=
  l.filterMap fun a =>
    match a with
    | Access.rd reg v => if reg = REG_DAT_O then some v else none
    | Access.wr _ _ => none

/-- Store the words `os` into a byte buffer at word indices `i`, `i + 1`, ... -/
def store_all : List Nat → Nat → List Nat → List Nat
  | ct, _, [] => ct
  | ct, i, o :: os => store_all (store32 ct i o) (i + 1) os

/-- A status poll: a read of the configuration slot in which bit `bit` is clear. -/
def is_idle_poll (bit : Nat) (a : Access) : Prop :=
  ∃ v, a = Access.rd REG_CONFIG v ∧ (v &&& (1 <<< bit)) >>> bit = 0

/-- The core after a sequence of plain register writes `(slot, word)`, in order. -/
def after_writes (D : Device σ) (c : core_info σ) (ws : List (Nat × Nat)) : core_info σ :=
  ws.foldl (fun c1 p => bus_wr D c1 p.1 p.2) c

/-- The instance as the write handler has prepared it at the moment it asks for the
core: the plaintext copied in, a zeroed ciphertext buffer of the same length, the
cursor reset when an earlier ciphertext buffer was dropped. -/
def staged (inst : axi_trivium_inst) (p : List Nat) : axi_trivium_inst :=
  { inst with
    p_pt := some p, p_ct := some (List.replicate p.length 0), buf_sz := p.length,
    ct_idx := if inst.p_ct.isSome then 0 else inst.ct_idx }

/-- The part of a bus trace made by the loop of `encrypt` for the plaintext words `j`,
`j + 1`, ... of `p`, with the output words `outs`: for each word a busy check that does
not read busy, the write of that plaintext word to data-in, the process pulse, status
polls until output-valid shows, and the read of the output word from data-out. -/
def word_rounds (p : List Nat) : Nat → List Nat → List Access → Prop
  | _, [], l => l = []
  | j, o :: os, l =>
    ∃ v0 v1 polls v2 rest,
      l = [Access.rd REG_CONFIG v0, Access.wr REG_DAT_I (load32 p j % U32),
            Access.rd REG_CONFIG v1, Access.wr REG_CONFIG ((v1 ||| 4) % U32)]
          ++ polls ++ [Access.rd REG_CONFIG v2, Access.rd REG_DAT_O o] ++ rest ∧
      (v0 &&& (1 <<< REG_CONFIG_BIT_BUSY)) >>> REG_CONFIG_BIT_BUSY ≠ 1 ∧
      (∀ a ∈ polls, is_idle_poll REG_CONFIG_BIT_OVAL a) ∧
      (v2 &&& (1 <<< REG_CONFIG_BIT_OVAL)) >>> REG_CONFIG_BIT_OVAL = 1 ∧
      word_rounds p (j + 1) os rest

/-- The reference ciphertext words of the tests `i`, `i + 1`, ..., `i + n - 1`, in the
order in which `main` compares them. -/
def reference_words (T : TestData) (i n : Nat) : List Nat :=
  (List.range' i n).flatMap fun t => (List.range' 0 (T.block_sizes t)).map (T.ct_blocks t)

/-- The core behind a returned pair, or `dflt` when the call did not return. -/
def core_of {α : Type} (o : Outcome (α × core_info σ)) (dflt : core_info σ) : core_info σ :=
  match o with
  | Outcome.ret r => r.2
  | _ => dflt

/-- The core behind a returned triple, or `dflt` when the call did not return. -/
def core_of3 {α β : Type} (o : Outcome (α × core_info σ × β)) (dflt : core_info σ) :
    core_info σ :=
  match o with
  | Outcome.ret r => r.2.1
  | _ => dflt

/-- The buffer behind a returned triple, or `[]` when the call did not return. -/
def buf_of3 {α : Type} (o : Outcome (α × core_info σ × List Nat)) : List Nat :=
  match o with
  | Outcome.ret r => r.2.2
  | _ => []

/-- The globals behind a returned write, or `dflt` when the call did not return. -/
def global_of (o : Outcome (Int × Global σ × axi_trivium_inst)) (dflt : Global σ) :
    Global σ :=
  match o with
  | Outcome.ret r => r.2.1
  | _ => dflt

/-- The instance behind a returned write, or `dflt` when the call did not return. -/
def inst_of (o : Outcome (Int × Global σ × axi_trivium_inst)) (dflt : axi_trivium_inst) :
    axi_trivium_inst :=
  match o with
  | Outcome.ret r => r.2.2
  | _ => dflt

/-! ## Sample data

A small cipher, simulated cores and sessions on which the definitions are run. -/

/-- The status bits as the driver header `axi_trivium.h` lays them out. -/
def driverBits : StatusBits := { BIT_BUSY := 8, BIT_IDONE := 9, BIT_OVAL := 10 }

/-- A small cipher used to run the definitions on concrete data. -/
def toyCipher : Cipher Nat :=
  { load := fun k0 k1 k2 v0 v1 v2 => (k0 + 3 * k1 + 5 * k2 + 7 * v0 + 11 * v1 + 13 * v2) % U32
    step := fun k w => ((w + k) % U32, (5 * k + 1) % U32) }

/-- A simulated core in some arbitrary earlier state: registers holding `r`, a context
loaded and advanced, completion latency `lat`, busy bit given by `busy`. -/
def toyEngine (r : Nat) (lat : Option Nat) (busy : Nat → Bool) : Engine Nat :=
  { regs := fun _ => r, core := some 99, idone := true, oval := true, pending := some 0,
    latency := lat, busy := busy, clock := 0 }

/-- A sample key of ten bytes. -/
def sampleKey : List Nat := [1, 2, 3, 4, 5, 6, 7, 8, 9, 10]

/-- A sample IV of ten bytes. -/
def sampleIV : List Nat := [11, 12, 13, 14, 15, 16, 17, 18, 19, 20]

/-- A sample plaintext of two words. -/
def samplePlain : List Nat := [1, 0, 0, 0, 2, 0, 0, 0]

/-- A sample plaintext of three different words. -/
def samplePlain3 : List Nat := [1, 0, 0, 0, 2, 0, 0, 0, 3, 0, 0, 0]

/-- A session in phase Ready with the sample key and IV and nothing pending. -/
def readyInst : axi_trivium_inst :=
  { p_key := some (pad12 sampleKey), p_iv := some (pad12 sampleIV), p_pt := none,
    p_ct := none, buf_sz := 0, ct_idx := 0 }

/-- The Ready sample session holding an unread ciphertext buffer of 8 bytes. -/
def bufferedInst : axi_trivium_inst :=
  { readyInst with p_ct := some [39, 80, 48, 69, 193, 144, 241, 89], buf_sz := 8 }

/-- Globals with a free mutex, an empty trace and a simulated core that is never busy
and completes after two polls. -/
def idleGlobal : Global (Engine Nat) :=
  { ip_info := { dev := toyEngine 7 (some 2) (fun _ => false), trace := [] },
    ip_mtx := false }

/-- The mapped simulated core of `idleGlobal`. -/
def idleCore : core_info (Engine Nat) := idleGlobal.ip_info

/-- Globals with a free mutex and a simulated core of latency 0 that reports busy at bus
access number `t` only. -/
def busyGlobal (t : Nat) : Global (Engine Nat) :=
  { ip_info := { dev := toyEngine 7 (some 0) (fun n => n == t), trace := [] },
    ip_mtx := false }

/-- The globals after the 4-byte write of the Ready sample session on a simulated core
that reports busy at the busy check of the context swap (bus access number 2). -/
def wedgedGlobal : Global (Engine Nat) :=
  global_of (proc_axi_trivium_write (Engine.device toyCipher) 1 Env.nominal (busyGlobal 2)
    readyInst [1, 0, 0, 0]) idleGlobal

/-- The globals after the Ready sample session has encrypted the sample plaintext on
`idleGlobal`, with the bus trace cleared. -/
def afterFirstGlobal : Global (Engine Nat) :=
  { ip_info :=
      { dev := (global_of (proc_axi_trivium_write (Engine.device toyCipher) 3 Env.nominal
          idleGlobal readyInst samplePlain) idleGlobal).ip_info.dev,
        trace := [] },
    ip_mtx := (global_of (proc_axi_trivium_write (Engine.device toyCipher) 3 Env.nominal
      idleGlobal readyInst samplePlain) idleGlobal).ip_mtx }

/-- The Ready sample session after it has encrypted the sample plaintext on
`idleGlobal`. -/
def afterFirstInst : axi_trivium_inst :=
  inst_of (proc_axi_trivium_write (Engine.device toyCipher) 3 Env.nominal idleGlobal readyInst
    samplePlain) readyInst

/-- A test table for the small cipher: one test with the key and IV words of the sample
key and IV, the two words of the sample plaintext and their ciphertext words. -/
def toyTest : TestData :=
  { NUM_TESTS := 1
    keys := fun _ => [67305985, 134678021, 2569]
    ivs := fun _ => [235736075, 303108111, 5139]
    block_sizes := fun _ => 2
    pt_blocks := fun _ j => j + 1
    ct_blocks := fun _ j => if j = 0 then 1160794151 else 1509003457 }

/-- The sample session after key and IV were written, the sample plaintext was
encrypted on `idleGlobal` and 4 of the 8 ciphertext bytes were read. -/
def halfReadInst : axi_trivium_inst :=
  (proc_axi_trivium_read true afterFirstInst 4).2.1

/-! # Properties -/

/-! ## Rejected writes -/

/-- C4 (as amended): in phase Ready a write whose length is not a multiple of 4 is
rejected with `-ENOEXEC`; the instance and the globals (mutex, core, bus trace) are
returned unchanged, whatever the allocator, the user buffer and the mutex. -/
theorem write_ready_bad_length (D : Device σ) (fuel : Nat) (e : Env) (g : Global σ)
    (inst : axi_trivium_inst) (p_buf : List Nat)
    (hready : phase inst = Phase.Ready) (hlen : p_buf.length % 4 ≠ 0) :
    proc_axi_trivium_write D fuel e g inst p_buf = Outcome.ret (- ENOEXEC, g, inst) := by
  unfold phase at hready
  unfold proc_axi_trivium_write
  cases hk : inst.p_key <;> cases hv : inst.p_iv <;> simp [hk, hv] at hready ⊢
  simp [DAT_LEN_MUL, hlen]

/-- Witness of `write_ready_bad_length`: a 3-byte write on a Ready session. -/
theorem write_ready_bad_length_witness :
    proc_axi_trivium_write (Engine.device toyCipher) 3 Env.nominal idleGlobal readyInst [1, 2, 3]
      = Outcome.ret (- ENOEXEC, idleGlobal, readyInst) :=
  write_ready_bad_length (Engine.device toyCipher) 3 Env.nominal idleGlobal readyInst [1, 2, 3]
    (by decide) (by decide)

/-- C4 as stated fails for length 0: a zero-length write on a Ready session is not
rejected.  It returns 0, runs the context swap on the bus (stop, key and IV slots,
init, one poll per read of the status slot) and replaces the ciphertext buffer by an
empty one. -/
theorem write_ready_zero_length :
    observe (proc_axi_trivium_write (Engine.device toyCipher) 3 Env.nominal idleGlobal
        readyInst [])
      = Outcome.ret (0, false,
          [Access.rd 0 1536, Access.wr 0 1538, Access.rd 0 0,
           Access.wr 1 67305985, Access.wr 2 134678021, Access.wr 3 2569,
           Access.wr 4 235736075, Access.wr 5 303108111, Access.wr 6 5139,
           Access.rd 0 0, Access.wr 0 1, Access.rd 0 0, Access.rd 0 0, Access.rd 0 512],
          { readyInst with p_ct := some [] }) := by
  decide

/-! ## Key and IV writes -/

/-- C5: in phase Empty (resp. HasKey) a write whose length is not 10 is rejected with
`-ENOEXEC` and returns the globals and the instance unchanged, whatever the
surroundings; a following write of exactly 10 bytes (allocation and user copy
succeeding) returns 10, stores the ten bytes, followed by the two zero bytes of the
12-byte allocation, as the key (resp. IV) and moves the session to HasKey (resp. Ready,
with the key untouched). -/
theorem write_key_iv_retry (D : Device σ) (fuel : Nat) (e : Env) (g : Global σ)
    (inst : axi_trivium_inst) (bad good : List Nat)
    (hbad : bad.length ≠ 10) (hgood : good.length = 10) :
    (inst.p_key = none → inst.p_iv = none →
      phase inst = Phase.Empty ∧
      proc_axi_trivium_write D fuel e g inst bad = Outcome.ret (- ENOEXEC, g, inst) ∧
      ((proc_axi_trivium_write D fuel e g inst bad).bind fun r =>
          proc_axi_trivium_write D fuel Env.nominal r.2.1 r.2.2 good)
        = Outcome.ret (10, g, { inst with p_key := some (good ++ [0, 0]) }) ∧
      phase { inst with p_key := some (good ++ [0, 0]) } = Phase.HasKey) ∧
    (∀ key, inst.p_key = some key → inst.p_iv = none →
      phase inst = Phase.HasKey ∧
      proc_axi_trivium_write D fuel e g inst bad = Outcome.ret (- ENOEXEC, g, inst) ∧
      ((proc_axi_trivium_write D fuel e g inst bad).bind fun r =>
          proc_axi_trivium_write D fuel Env.nominal r.2.1 r.2.2 good)
        = Outcome.ret (10, g, { inst with p_iv := some (good ++ [0, 0]) }) ∧
      phase { inst with p_iv := some (good ++ [0, 0]) } = Phase.Ready ∧
      ({ inst with p_iv := some (good ++ [0, 0]) } : axi_trivium_inst).p_key = some key) := by
  have hcopy : copy_from_user true [0, 0, 0, 0, 0, 0, 0, 0, 0, 0, 0, 0] good 10
      = (false, good ++ [0, 0]) := by
    have : List.take 10 good = good := List.take_of_length_le (by omega)
    simp [copy_from_user, this]
  constructor
  · intro hk hv
    have hrej : proc_axi_trivium_write D fuel e g inst bad
        = Outcome.ret (- ENOEXEC, g, inst) := by
      simp [proc_axi_trivium_write, hk, KEY_LEN, hbad]
    refine ⟨by simp [phase, hk], hrej, ?_, by simp [phase, hv]⟩
    rw [hrej]
    simp [Outcome.bind, proc_axi_trivium_write, hk, KEY_LEN, hgood, kzalloc, Env.nominal,
      hcopy]
  · intro key hk hv
    have hrej : proc_axi_trivium_write D fuel e g inst bad
        = Outcome.ret (- ENOEXEC, g, inst) := by
      simp [proc_axi_trivium_write, hk, hv, IV_LEN, hbad]
    refine ⟨by simp [phase, hk, hv], hrej, ?_, by simp [phase, hk], hk⟩
    rw [hrej]
    simp [Outcome.bind, proc_axi_trivium_write, hk, hv, IV_LEN, hgood, kzalloc,
      Env.nominal, hcopy]

/-- Witness of `write_key_iv_retry`: a fresh session rejects 3 bytes and then takes the
sample key; the session holding that key rejects 3 bytes and then takes the sample IV. -/
theorem write_key_iv_retry_witness :
    (proc_axi_trivium_write (Engine.device toyCipher) 3 Env.nominal idleGlobal
        proc_axi_trivium_open [1, 2, 3]
      = Outcome.ret (- ENOEXEC, idleGlobal, proc_axi_trivium_open)) ∧
    (proc_axi_trivium_write (Engine.device toyCipher) 3 Env.nominal idleGlobal
        { readyInst with p_iv := none } [1, 2, 3]
      = Outcome.ret (- ENOEXEC, idleGlobal, { readyInst with p_iv := none })) ∧
    phase { proc_axi_trivium_open with p_key := some (sampleKey ++ [0, 0]) } = Phase.HasKey ∧
    phase { readyInst with p_iv := some (sampleIV ++ [0, 0]) } = Phase.Ready :=
  ⟨((write_key_iv_retry (Engine.device toyCipher) 3 Env.nominal idleGlobal
      proc_axi_trivium_open [1, 2, 3] sampleKey (by decide) (by decide)).1 rfl rfl).2.1,
   ((write_key_iv_retry (Engine.device toyCipher) 3 Env.nominal idleGlobal
      { readyInst with p_iv := none } [1, 2, 3] sampleIV (by decide) (by decide)).2
        (pad12 sampleKey) rfl rfl).2.1,
   ((write_key_iv_retry (Engine.device toyCipher) 3 Env.nominal idleGlobal
      proc_axi_trivium_open [1, 2, 3] sampleKey (by decide) (by decide)).1 rfl rfl).2.2.2,
   ((write_key_iv_retry (Engine.device toyCipher) 3 Env.nominal idleGlobal
      { readyInst with p_iv := none } [1, 2, 3] sampleIV (by decide) (by decide)).2
        (pad12 sampleKey) rfl rfl).2.2.2.1⟩

/-! ## Reads -/

/-- Under the data invariant the `unsigned int` subtraction in the read handler is the
number of bytes left after the cursor. -/
theorem u32_sub_of_wf (i : axi_trivium_inst) (hwf : inst_wf i) (h : i.p_ct.isSome = true) :
    u32_sub i.buf_sz i.ct_idx = i.buf_sz - i.ct_idx := by
  obtain ⟨h1, h2, -, -⟩ := hwf
  cases hct : i.p_ct with
  | none => simp [hct] at h
  | some ct =>
    simp only [hct] at h2
    unfold u32_sub U32 at *
    omega

/-- A read within the bytes left after the cursor, the user copy succeeding: the return
value, the instance afterwards and the bytes delivered. -/
theorem read_success (inst : axi_trivium_inst) (ct : List Nat) (n : Nat) (hwf : inst_wf inst)
    (hct : inst.p_ct = some ct) (hle : n ≤ inst.buf_sz - inst.ct_idx) :
    proc_axi_trivium_read true inst n
      = ((n : Int),
         (if inst.ct_idx + n = inst.buf_sz then { inst with p_ct := none, ct_idx := 0 }
          else { inst with ct_idx := inst.ct_idx + n }),
         (ct.drop inst.ct_idx).take n) := by
  have hsub := u32_sub_of_wf inst hwf (by simp [hct])
  obtain ⟨h1, h2, -, -⟩ := hwf
  simp only [hct] at h2
  have hn : ¬ (inst.buf_sz - inst.ct_idx < n) := by omega
  have hmod : (inst.ct_idx + n) % U32 = inst.ct_idx + n := by
    apply Nat.mod_eq_of_lt; unfold U32 at *; omega
  have hcp : copy_to_user true (List.drop inst.ct_idx ct) n
      = (false, (List.drop inst.ct_idx ct).take n) := by
    unfold copy_to_user
    by_cases h0 : n = 0
    · simp [h0]
    · simp [h0]
  simp only [proc_axi_trivium_read, hct, hsub, gt_iff_lt, hn, if_false, hmod, hcp]
  by_cases hend : inst.ct_idx + n = inst.buf_sz
  · simp [hend]
  · simp [hend]

/-- C6: under the data invariant, a read of `n` bytes fails with `-ENOEXEC` exactly
when there is no ciphertext buffer or `n` exceeds the bytes left after the cursor; a
read failing that way leaves the instance unchanged and delivers nothing; it always
fails that way before key and IV are both set.  Otherwise (the user copy succeeding) it
returns `n`, delivers exactly the `n` bytes starting at the cursor and advances the
cursor by `n`; when the cursor thereby reaches the end, the buffer is freed and the
cursor is reset to 0. -/
theorem read_contract (ok : Bool) (inst : axi_trivium_inst) (n : Nat) (hwf : inst_wf inst) :
    ((proc_axi_trivium_read ok inst n).1 = - ENOEXEC ↔
      (inst.p_ct = none ∨ inst.buf_sz - inst.ct_idx < n)) ∧
    ((proc_axi_trivium_read ok inst n).1 = - ENOEXEC →
      (proc_axi_trivium_read ok inst n).2 = (inst, [])) ∧
    (phase inst ≠ Phase.Ready → (proc_axi_trivium_read ok inst n).1 = - ENOEXEC) ∧
    (∀ ct, inst.p_ct = some ct → n ≤ inst.buf_sz - inst.ct_idx →
      proc_axi_trivium_read true inst n
        = ((n : Int),
           (if inst.ct_idx + n = inst.buf_sz then { inst with p_ct := none, ct_idx := 0 }
            else { inst with ct_idx := inst.ct_idx + n }),
           (ct.drop inst.ct_idx).take n) ∧
      ((ct.drop inst.ct_idx).take n).length = n) := by
  have hlast : ∀ ct, inst.p_ct = some ct → n ≤ inst.buf_sz - inst.ct_idx →
      proc_axi_trivium_read true inst n
        = ((n : Int),
           (if inst.ct_idx + n = inst.buf_sz then { inst with p_ct := none, ct_idx := 0 }
            else { inst with ct_idx := inst.ct_idx + n }),
           (ct.drop inst.ct_idx).take n) ∧
      ((ct.drop inst.ct_idx).take n).length = n := by
    intro ct hct hle
    refine ⟨read_success inst ct n hwf hct hle, ?_⟩
    obtain ⟨-, h2, -, -⟩ := hwf
    simp only [hct] at h2
    simp [List.length_take, List.length_drop]; omega
  refine ⟨?_, ?_, ?_, hlast⟩
  all_goals
    have hwf0 := hwf
    obtain ⟨h1, h2, h3, -⟩ := hwf
    cases hct : inst.p_ct with
    | none => simp [proc_axi_trivium_read, hct]
    | some ct =>
      have hsub := u32_sub_of_wf inst hwf0 (by simp [hct])
      simp only [hct] at h2
      have hph : phase inst = Phase.Ready := h3 (by simp [hct])
      have hnn : ¬ ((n : Int) = - ENOEXEC) := by unfold ENOEXEC; omega
      have hef : ¬ (- EFAULT = - ENOEXEC) := by unfold EFAULT ENOEXEC; omega
      by_cases hn : inst.buf_sz - inst.ct_idx < n
      · simp [proc_axi_trivium_read, hct, hsub, hn, hph]
      · simp only [proc_axi_trivium_read, hct, hsub, gt_iff_lt, hn, if_false, hph]
        first
          | (constructor
             · intro h
               exfalso
               split at h
               · exact hef h
               · split at h <;> exact hnn h
             · intro h
               rcases h with h | h
               · cases h
               · exact h.elim)
          | (intro h
             exfalso
             split at h
             · exact hef h
             · split at h <;> exact hnn h)
          | simp

/-- The sample session with an 8-byte buffer satisfies the data invariant. -/
theorem bufferedInst_wf : inst_wf bufferedInst :=
  ⟨by decide, ⟨rfl, by decide⟩, fun _ => rfl, fun _ => rfl⟩

/-- Witness of `read_contract`: reading 4 of 8 unread bytes. -/
theorem read_contract_witness :
    inst_wf bufferedInst ∧
    proc_axi_trivium_read true bufferedInst 4
      = (4, { bufferedInst with ct_idx := 4 }, [39, 80, 48, 69]) :=
  ⟨bufferedInst_wf,
   ((read_contract true bufferedInst 4 bufferedInst_wf).2.2.2
      [39, 80, 48, 69, 193, 144, 241, 89] rfl (by decide)).1⟩
/-- C7 (as amended): under the data invariant, for a session holding a ciphertext buffer
and `a + b` not exceeding the bytes left after the cursor, provided the second read is
not a zero-length read issued after the first one consumed the whole buffer: `read a`
followed by `read b` both succeed, deliver together the bytes of a single
`read (a + b)`, and end in the same instance state. -/
theorem read_compose (inst : axi_trivium_inst) (ct : List Nat) (a b : Nat)
    (hwf : inst_wf inst) (hct : inst.p_ct = some ct)
    (hab : a + b ≤ inst.buf_sz - inst.ct_idx)
    (hb : b = 0 → a < inst.buf_sz - inst.ct_idx) :
    (proc_axi_trivium_read true inst a).1 = (a : Int) ∧
    (proc_axi_trivium_read true (proc_axi_trivium_read true inst a).2.1 b).1 = (b : Int) ∧
    (proc_axi_trivium_read true inst (a + b)).1 = ((a + b : Nat) : Int) ∧
    (proc_axi_trivium_read true inst a).2.2
        ++ (proc_axi_trivium_read true (proc_axi_trivium_read true inst a).2.1 b).2.2
      = (proc_axi_trivium_read true inst (a + b)).2.2 ∧
    (proc_axi_trivium_read true (proc_axi_trivium_read true inst a).2.1 b).2.1
      = (proc_axi_trivium_read true inst (a + b)).2.1 := by
  have hw := hwf
  obtain ⟨h1, h2, h3, h4⟩ := hw
  simp only [hct] at h2
  have ha := read_success inst ct a hwf hct (by omega)
  have hs := read_success inst ct (a + b) hwf hct hab
  have hnot : ¬ (inst.ct_idx + a = inst.buf_sz) := by
    intro h
    have : b = 0 := by omega
    have := hb this
    omega
  rw [if_neg hnot] at ha
  -- the instance after the first read
  have hwf1 : inst_wf { inst with ct_idx := inst.ct_idx + a } := by
    refine ⟨h1, ?_, ?_, h4⟩
    · simp only [hct]; exact ⟨h2.1, by omega⟩
    · intro h; exact h3 h
  have hb2 := read_success { inst with ct_idx := inst.ct_idx + a } ct b hwf1 hct
    (by show b ≤ inst.buf_sz - (inst.ct_idx + a); omega)
  rw [ha, hs]
  simp only []
  rw [hb2]
  refine ⟨trivial, rfl, trivial, ?_, ?_⟩
  · show List.take a (List.drop inst.ct_idx ct)
      ++ List.take b (List.drop (inst.ct_idx + a) ct)
      = List.take (a + b) (List.drop inst.ct_idx ct)
    rw [List.take_add, List.drop_drop]
  · show (if inst.ct_idx + a + b = inst.buf_sz then _ else _) = (if inst.ct_idx + (a + b) = inst.buf_sz then _ else _)
    by_cases hend : inst.ct_idx + a + b = inst.buf_sz
    · have hend2 : inst.ct_idx + (a + b) = inst.buf_sz := by omega
      simp [hend, hend2]
    · have hend2 : ¬ (inst.ct_idx + (a + b) = inst.buf_sz) := by omega
      simp [hend, hend2, Nat.add_assoc]

/-- Witness of `read_compose`: 4 then 4 bytes from an 8-byte buffer against one 8-byte
read. -/
theorem read_compose_witness :
    inst_wf bufferedInst ∧
    (proc_axi_trivium_read true bufferedInst 4).2.2
        ++ (proc_axi_trivium_read true (proc_axi_trivium_read true bufferedInst 4).2.1 4).2.2
      = (proc_axi_trivium_read true bufferedInst (4 + 4)).2.2 ∧
    (proc_axi_trivium_read true (proc_axi_trivium_read true bufferedInst 4).2.1 4).2.1
      = (proc_axi_trivium_read true bufferedInst (4 + 4)).2.1 :=
  ⟨bufferedInst_wf,
   (read_compose bufferedInst [39, 80, 48, 69, 193, 144, 241, 89] 4 4 bufferedInst_wf rfl
      (by decide) (by decide)).2.2.2⟩

/-- C7 as stated fails for `a = 8`, `b = 0` on an 8-byte buffer: the first read consumes
and frees the buffer, so the zero-length read that follows is rejected with `-ENOEXEC`,
while the single read of `8 + 0` bytes succeeds. -/
theorem read_compose_zero_after_full :
    inst_wf bufferedInst ∧ 8 + 0 ≤ bufferedInst.buf_sz - bufferedInst.ct_idx ∧
    (proc_axi_trivium_read true bufferedInst 8).1 = 8 ∧
    (proc_axi_trivium_read true (proc_axi_trivium_read true bufferedInst 8).2.1 0).1
      = - ENOEXEC ∧
    (proc_axi_trivium_read true bufferedInst (8 + 0)).1 = 8 :=
  ⟨bufferedInst_wf, by decide, by decide, by decide, by decide⟩

/-! ## The register helpers -/

/-- A single extracted bit is 0 or 1. -/
theorem bit_lt_two (v b : Nat) : (v &&& (1 <<< b)) >>> b < 2 := by
  rw [Nat.shiftRight_eq_div_pow, Nat.one_shiftLeft]
  have h1 : v &&& 2 ^ b ≤ 2 ^ b := Nat.and_le_right
  have h2 : 0 < 2 ^ b := Nat.two_pow_pos b
  have : (v &&& 2 ^ b) / 2 ^ b ≤ 2 ^ b / 2 ^ b := Nat.div_le_div_right h1
  rw [Nat.div_self h2] at this
  omega

/-- The cast to `unsigned char` in `reg_get` does not change the extracted bit: the
inline helper and the macro agree. -/
theorem reg_get_eq_REG_GET (D : Device σ) (c : core_info σ) (reg bit : Nat) :
    reg_get D c reg bit = REG_GET D c reg bit := by
  unfold reg_get REG_GET
  have := bit_lt_two (bus_rd D c reg).1 bit
  simp only []
  rw [Nat.mod_eq_of_lt (by omega)]

/-- The two polling loops agree. -/
theorem wait_bit_eq_WAIT_GET (D : Device σ) (bit : Nat) :
    ∀ (fuel : Nat) (c : core_info σ), wait_bit D bit fuel c = WAIT_GET D bit fuel c := by
  intro fuel
  induction fuel with
  | zero => intro c; rfl
  | succ n ih =>
    intro c
    simp only [wait_bit, WAIT_GET, reg_get_eq_REG_GET, ih]

/-- Trace of `REG_GET`: one read of the slot. -/
theorem REG_GET_trace (D : Device σ) (c : core_info σ) (reg bit : Nat) :
    (REG_GET D c reg bit).2.trace = c.trace ++ [Access.rd reg ((D.ioread32 c.dev reg).1 % U32)] ∧
    (REG_GET D c reg bit).1
      = (((D.ioread32 c.dev reg).1 % U32) &&& (1 <<< bit)) >>> bit := by
  simp [REG_GET, bus_rd]

/-- A polling loop that ends has appended status polls with the bit clear, followed by
one status read with the bit set, and nothing else. -/
theorem WAIT_GET_trace (D : Device σ) (bit : Nat) :
    ∀ (fuel : Nat) (c c1 : core_info σ), WAIT_GET D bit fuel c = some c1 →
      ∃ polls v, c1.trace = c.trace ++ polls ++ [Access.rd REG_CONFIG v] ∧
        (∀ a ∈ polls, is_idle_poll bit a) ∧ (v &&& (1 <<< bit)) >>> bit = 1 := by
  intro fuel
  induction fuel with
  | zero => intro c c1 h; simp [WAIT_GET] at h
  | succ n ih =>
    intro c c1 h
    simp only [WAIT_GET] at h
    obtain ⟨ht, hv⟩ := REG_GET_trace D c REG_CONFIG bit
    by_cases h0 : (REG_GET D c REG_CONFIG bit).1 = 0
    · rw [if_pos h0] at h
      obtain ⟨polls, v, h1, h2, h3⟩ := ih _ _ h
      refine ⟨Access.rd REG_CONFIG ((D.ioread32 c.dev REG_CONFIG).1 % U32) :: polls, v, ?_, ?_, h3⟩
      · rw [h1, ht]; simp
      · intro a ha
        rcases List.mem_cons.mp ha with ha | ha
        · exact ⟨_, ha, by rw [← hv]; exact h0⟩
        · exact h2 a ha
    · rw [if_neg h0] at h
      cases h
      refine ⟨[], (D.ioread32 c.dev REG_CONFIG).1 % U32, ?_, ?_, ?_⟩
      · rw [ht]; simp
      · intro a ha; cases ha
      · have := bit_lt_two ((D.ioread32 c.dev REG_CONFIG).1 % U32) bit
        rw [hv] at h0
        omega

/-- Trace of `REG_SET`: one read of the slot and one write of the value read with the
bit set. -/
theorem REG_SET_trace (D : Device σ) (c : core_info σ) (reg bit : Nat) :
    (REG_SET D c reg bit).trace
      = c.trace ++ [Access.rd reg ((D.ioread32 c.dev reg).1 % U32),
          Access.wr reg ((((D.ioread32 c.dev reg).1 % U32) ||| (1 <<< bit)) % U32)] := by
  simp [REG_SET, bus_rd, bus_wr]

/-! ## The encrypt request, generically -/

/-- The context swap only looks at the key and the IV of the instance. -/
theorem context_swap_congr (D : Device σ) (fuel : Nat) (c : core_info σ)
    (i j : axi_trivium_inst) (hk : i.p_key = j.p_key) (hv : i.p_iv = j.p_iv) :
    context_swap D fuel c i = context_swap D fuel c j := by
  unfold context_swap
  rw [hk, hv]

/-- The tail of the write handler after the mutex is taken, on an instance `st` holding
the plaintext `p` and a zeroed ciphertext buffer. -/
theorem write_tail_eq (D : Device σ) (fuel : Nat) (c : core_info σ) (p : List Nat)
    (st inst : axi_trivium_inst) (hk : st.p_key = inst.p_key) (hv : st.p_iv = inst.p_iv)
    (hpt : st.p_pt = some p) (hct : st.p_ct = some (List.replicate p.length 0))
    (hbs : st.buf_sz = p.length) :
    ((context_swap D fuel c st).bind fun r1 =>
        if r1.1 ≠ 0 then
          (Outcome.ret (r1.1, { ip_info := r1.2, ip_mtx := true }, st) :
            Outcome (Int × Global σ × axi_trivium_inst))
        else
          (encrypt D fuel r1.2 st).bind fun r2 =>
            if r2.1 ≠ 0 then
              Outcome.ret (r2.1, { ip_info := r2.2.1, ip_mtx := true }, r2.2.2)
            else
              Outcome.ret ((p.length : Int), { ip_info := r2.2.1, ip_mtx := false },
                { r2.2.2 with p_pt := none }))
      = (context_swap D fuel c inst).bind fun r1 =>
          if r1.1 ≠ 0 then
            Outcome.ret (r1.1, { ip_info := r1.2, ip_mtx := true }, st)
          else
            (encrypt_loop D fuel p (p.length / 4) 0 r1.2 (List.replicate p.length 0)).bind
              fun r2 =>
                if r2.1 ≠ 0 then
                  Outcome.ret (r2.1, { ip_info := r2.2.1, ip_mtx := true },
                    { st with p_ct := some r2.2.2 })
                else
                  Outcome.ret ((p.length : Int), { ip_info := r2.2.1, ip_mtx := false },
                    { st with p_ct := some r2.2.2, p_pt := none }) := by
  rw [context_swap_congr D fuel c st inst hk hv]
  cases hcs : context_swap D fuel c inst with
  | ret r1 =>
    simp only [Outcome.bind]
    by_cases hr : r1.1 = 0
    · simp only [hr, ne_eq, not_true_eq_false, if_false, encrypt, hpt, hct, hbs, DAT_LEN_MUL]
      cases hel : encrypt_loop D fuel p (p.length / 4) 0 r1.2 (List.replicate p.length 0) with
      | ret r2 => simp only [Outcome.bind]
      | spinning => simp [Outcome.bind]
      | blocked => simp [Outcome.bind]
      | oops => simp [Outcome.bind]
    · simp [hr]
  | spinning => simp [Outcome.bind]
  | blocked => simp [Outcome.bind]
  | oops => simp [Outcome.bind]

/-- Normal form of a write in phase Ready whose length is a multiple of 4, with
allocation and user copy succeeding and the mutex free: the context swap, then the
word loop on the staged instance; the mutex is released on the success path only. -/
theorem write_ready_eq (D : Device σ) (fuel : Nat) (g : Global σ) (inst : axi_trivium_inst)
    (p : List Nat) (hready : phase inst = Phase.Ready) (hlen : p.length % 4 = 0)
    (hm : g.ip_mtx = false) :
    proc_axi_trivium_write D fuel Env.nominal g inst p
      = (context_swap D fuel g.ip_info inst).bind fun r1 =>
          if r1.1 ≠ 0 then
            Outcome.ret (r1.1, { ip_info := r1.2, ip_mtx := true }, staged inst p)
          else
            (encrypt_loop D fuel p (p.length / 4) 0 r1.2 (List.replicate p.length 0)).bind
              fun r2 =>
                if r2.1 ≠ 0 then
                  Outcome.ret (r2.1, { ip_info := r2.2.1, ip_mtx := true },
                    { staged inst p with p_ct := some r2.2.2 })
                else
                  Outcome.ret ((p.length : Int), { ip_info := r2.2.1, ip_mtx := false },
                    { staged inst p with p_ct := some r2.2.2, p_pt := none }) := by
  have hcp : copy_from_user true (List.replicate p.length 0) p p.length = (false, p) := by
    unfold copy_from_user
    by_cases h0 : p.length = 0
    · have : p = [] := List.length_eq_zero.mp h0
      subst this
      simp
    · simp [h0]
  have hkz : kzalloc true p.length = some (List.replicate p.length 0) := by
    unfold kzalloc
    by_cases h0 : p.length = 0
    · simp [h0]
    · simp [h0]
  rcases inst with ⟨pk, pv, ppt, pct, bs, ci⟩
  cases pk with
  | none => simp [phase] at hready
  | some key =>
    cases pv with
    | none => simp [phase] at hready
    | some iv =>
      cases pct with
      | none =>
        simp only [proc_axi_trivium_write, DAT_LEN_MUL, hlen, Env.nominal, hkz, hm, staged,
          Option.isSome_none, Option.isSome_some, Bool.false_eq_true, if_false, if_true,
          ne_eq, not_true_eq_false, hcp]
        exact write_tail_eq D fuel g.ip_info p _ _ rfl rfl rfl rfl rfl
      | some old =>
        simp only [proc_axi_trivium_write, DAT_LEN_MUL, hlen, Env.nominal, hkz, hm, staged,
          Option.isSome_none, Option.isSome_some, Bool.false_eq_true, if_false, if_true,
          ne_eq, not_true_eq_false, hcp]
        exact write_tail_eq D fuel g.ip_info p _ _ rfl rfl rfl rfl rfl

/-- The inline helper `reg_set` and the macro `REG_SET` are the same accesses. -/
theorem reg_set_eq_REG_SET (D : Device σ) (c : core_info σ) (reg bit : Nat) :
    reg_set D c reg bit = REG_SET D c reg bit := rfl

/-- Trace of `REG_SET`, with the value read left anonymous. -/
theorem REG_SET_trace_ex (D : Device σ) (c : core_info σ) (reg bit : Nat) :
    ∃ v, (REG_SET D c reg bit).trace
      = c.trace ++ [Access.rd reg v, Access.wr reg ((v ||| (1 <<< bit)) % U32)] :=
  ⟨_, REG_SET_trace D c reg bit⟩

/-- Trace of `reg_wr`: one write of the truncated word. -/
theorem reg_wr_trace (D : Device σ) (c : core_info σ) (reg dat : Nat) :
    (reg_wr D c reg dat).trace = c.trace ++ [Access.wr reg (dat % U32)] := rfl

/-- Trace of `reg_rd`: one read, whose value is the result. -/
theorem reg_rd_trace (D : Device σ) (c : core_info σ) (reg : Nat) :
    (reg_rd D c reg).2.trace = c.trace ++ [Access.rd reg (reg_rd D c reg).1] := rfl

/-- Status polls carry no data-out read. -/
theorem dat_o_reads_polls (bit : Nat) (polls : List Access)
    (h : ∀ a ∈ polls, is_idle_poll bit a) : dat_o_reads polls = [] := by
  induction polls with
  | nil => rfl
  | cons a l ih =>
    obtain ⟨v, ha, -⟩ := h a (List.mem_cons_self a l)
    have := ih (fun x hx => h x (List.mem_cons_of_mem a hx))
    subst ha
    simp [dat_o_reads, REG_CONFIG, REG_DAT_O] at this ⊢
    exact this

/-- The values read from data-out along a concatenated trace. -/
theorem dat_o_reads_append (l1 l2 : List Access) :
    dat_o_reads (l1 ++ l2) = dat_o_reads l1 ++ dat_o_reads l2 := by
  simp [dat_o_reads, List.filterMap_append]

/-- What the context swap does on the bus, for every device.  It always starts with the
stop pulse and the busy check.  When the check reads busy it returns `-EIO` at once;
otherwise, if it returns, it has written the three key words and the three IV words,
fired the init pulse, polled for init-done, and returns 0. -/
theorem context_swap_trace (D : Device σ) (fuel : Nat) (c : core_info σ)
    (inst : axi_trivium_inst) (key iv : List Nat) (hk : inst.p_key = some key)
    (hv : inst.p_iv = some iv) (r : Int) (c1 : core_info σ)
    (h : context_swap D fuel c inst = Outcome.ret (r, c1)) :
    ∃ v0 v1,
      (r = - EIO ∧ (v1 &&& (1 <<< REG_CONFIG_BIT_BUSY)) >>> REG_CONFIG_BIT_BUSY = 1 ∧
        c1.trace = c.trace ++ [Access.rd REG_CONFIG v0, Access.wr REG_CONFIG ((v0 ||| 2) % U32),
          Access.rd REG_CONFIG v1]) ∨
      (r = 0 ∧ (v1 &&& (1 <<< REG_CONFIG_BIT_BUSY)) >>> REG_CONFIG_BIT_BUSY ≠ 1 ∧
        ∃ v2 polls v3,
          c1.trace = c.trace ++ [Access.rd REG_CONFIG v0, Access.wr REG_CONFIG ((v0 ||| 2) % U32),
            Access.rd REG_CONFIG v1,
            Access.wr REG_KEY_LO (load32 key 0 % U32), Access.wr REG_KEY_MID (load32 key 1 % U32),
            Access.wr REG_KEY_HI (load32 key 2 % U32),
            Access.wr REG_IV_LO (load32 iv 0 % U32), Access.wr REG_IV_MID (load32 iv 1 % U32),
            Access.wr REG_IV_HI (load32 iv 2 % U32),
            Access.rd REG_CONFIG v2, Access.wr REG_CONFIG ((v2 ||| 1) % U32)]
            ++ polls ++ [Access.rd REG_CONFIG v3] ∧
          (∀ a ∈ polls, is_idle_poll REG_CONFIG_BIT_IDONE a) ∧
          (v3 &&& (1 <<< REG_CONFIG_BIT_IDONE)) >>> REG_CONFIG_BIT_IDONE = 1) := by
  simp only [context_swap, hk, hv, reg_get_eq_REG_GET, wait_bit_eq_WAIT_GET,
    reg_set_eq_REG_SET] at h
  have hs := REG_SET_trace D c REG_CONFIG REG_CONFIG_BIT_STOP
  have hg := REG_GET_trace D (REG_SET D c REG_CONFIG REG_CONFIG_BIT_STOP) REG_CONFIG
    REG_CONFIG_BIT_BUSY
  refine ⟨(D.ioread32 c.dev REG_CONFIG).1 % U32,
    (D.ioread32 (REG_SET D c REG_CONFIG REG_CONFIG_BIT_STOP).dev REG_CONFIG).1 % U32, ?_⟩
  by_cases hb : (REG_GET D (REG_SET D c REG_CONFIG REG_CONFIG_BIT_STOP) REG_CONFIG
      REG_CONFIG_BIT_BUSY).1 = 1
  · rw [if_pos hb] at h
    left
    cases h
    refine ⟨rfl, ?_, ?_⟩
    · rw [← hg.2]; exact hb
    · rw [hg.1, hs]; simp [REG_CONFIG_BIT_STOP]
  · rw [if_neg hb] at h
    right
    split at h
    · cases h
    · rename_i c9 hw
      cases h
      obtain ⟨polls, v3, ht, hp, hv3⟩ := WAIT_GET_trace D REG_CONFIG_BIT_IDONE fuel _ _ hw
      obtain ⟨v2, h2⟩ := REG_SET_trace_ex D
        (reg_wr D (reg_wr D (reg_wr D (reg_wr D (reg_wr D (reg_wr D
          (REG_GET D (REG_SET D c REG_CONFIG REG_CONFIG_BIT_STOP) REG_CONFIG
            REG_CONFIG_BIT_BUSY).2
          REG_KEY_LO (load32 key 0)) REG_KEY_MID (load32 key 1)) REG_KEY_HI (load32 key 2))
          REG_IV_LO (load32 iv 0)) REG_IV_MID (load32 iv 1)) REG_IV_HI (load32 iv 2))
        REG_CONFIG REG_CONFIG_BIT_INIT
      refine ⟨rfl, ?_, v2, polls, v3, ?_, hp, hv3⟩
      · rw [← hg.2]; exact hb
      · rw [ht, h2]
        simp only [reg_wr_trace, hg.1, hs]
        simp [REG_CONFIG_BIT_STOP, REG_CONFIG_BIT_INIT]

/-- One pass of the loop of `encrypt`, for every device: when the busy check reads busy
the loop returns `-EIO` at once; when the poll for output-valid runs out of fuel the
loop spins; otherwise it goes on with the next word, the word read from data-out
stored at index `i`. -/
theorem encrypt_loop_succ (D : Device σ) (fuel : Nat) (pt : List Nat) (todo i : Nat)
    (c : core_info σ) (ct : List Nat) :
    encrypt_loop D fuel pt (todo + 1) i c ct
      = if (REG_GET D c REG_CONFIG REG_CONFIG_BIT_BUSY).1 = 1 then
          Outcome.ret (- EIO, (REG_GET D c REG_CONFIG REG_CONFIG_BIT_BUSY).2, ct)
        else
          match WAIT_GET D REG_CONFIG_BIT_OVAL fuel
              (REG_SET D (reg_wr D (REG_GET D c REG_CONFIG REG_CONFIG_BIT_BUSY).2 REG_DAT_I
                (load32 pt i)) REG_CONFIG REG_CONFIG_BIT_PROC) with
          | none => Outcome.spinning
          | some c3 =>
            encrypt_loop D fuel pt todo (i + 1) (reg_rd D c3 REG_DAT_O).2
              (store32 ct i (reg_rd D c3 REG_DAT_O).1) := by
  simp only [encrypt_loop, reg_get_eq_REG_GET, wait_bit_eq_WAIT_GET, reg_set_eq_REG_SET]

/-- A run of the loop that returns 0 has stored, at the word indices `i`, `i + 1`, ...,
exactly the `todo` words it read from data-out, in order, and has only appended to the
bus trace. -/
theorem encrypt_loop_ok (D : Device σ) (fuel : Nat) (pt : List Nat) :
    ∀ (todo i : Nat) (c : core_info σ) (ct : List Nat) (c1 : core_info σ) (ct1 : List Nat),
      encrypt_loop D fuel pt todo i c ct = Outcome.ret (0, c1, ct1) →
      ∃ l, c1.trace = c.trace ++ l ∧ ct1 = store_all ct i (dat_o_reads l) ∧
        (dat_o_reads l).length = todo := by
  intro todo
  induction todo with
  | zero =>
    intro i c ct c1 ct1 h
    simp only [encrypt_loop] at h
    cases h
    exact ⟨[], by simp, rfl, rfl⟩
  | succ n ih =>
    intro i c ct c1 ct1 h
    rw [encrypt_loop_succ] at h
    by_cases hb : (REG_GET D c REG_CONFIG REG_CONFIG_BIT_BUSY).1 = 1
    · rw [if_pos hb] at h
      cases h
    · rw [if_neg hb] at h
      split at h
      · cases h
      · rename_i c3 hw
        obtain ⟨l, h1, h2, h3⟩ := ih _ _ _ _ _ h
        obtain ⟨polls, v, ht, hp, -⟩ := WAIT_GET_trace D REG_CONFIG_BIT_OVAL fuel _ _ hw
        obtain ⟨v1, hs⟩ := REG_SET_trace_ex D
          (reg_wr D (REG_GET D c REG_CONFIG REG_CONFIG_BIT_BUSY).2 REG_DAT_I (load32 pt i))
          REG_CONFIG REG_CONFIG_BIT_PROC
        have hg := (REG_GET_trace D c REG_CONFIG REG_CONFIG_BIT_BUSY).1
        refine ⟨[Access.rd REG_CONFIG ((D.ioread32 c.dev REG_CONFIG).1 % U32),
            Access.wr REG_DAT_I (load32 pt i % U32), Access.rd REG_CONFIG v1,
            Access.wr REG_CONFIG ((v1 ||| 1 <<< REG_CONFIG_BIT_PROC) % U32)]
            ++ polls ++ [Access.rd REG_CONFIG v, Access.rd REG_DAT_O (reg_rd D c3 REG_DAT_O).1]
            ++ l, ?_, ?_, ?_⟩
        · rw [h1, reg_rd_trace, ht, hs, reg_wr_trace, hg]
          simp
        · rw [h2]
          simp only [dat_o_reads_append, dat_o_reads_polls _ polls hp]
          simp [dat_o_reads, REG_CONFIG, REG_DAT_O, REG_DAT_I, store_all]
        · simp only [dat_o_reads_append, dat_o_reads_polls _ polls hp]
          simp [dat_o_reads, REG_CONFIG, REG_DAT_O, REG_DAT_I] at h3 ⊢
          omega

/-- When the loop has gone through its first `k` words (returning 0 when cut off after
them) and the busy check then reads busy, the loop over `k + more + 1` words returns
`-EIO` with the buffer of the first `k` words and the core as that busy check left
it. -/
theorem encrypt_loop_busy (D : Device σ) (fuel : Nat) (pt : List Nat) (more : Nat) :
    ∀ (k i : Nat) (c : core_info σ) (ct : List Nat) (ck : core_info σ) (ctk : List Nat),
      encrypt_loop D fuel pt k i c ct = Outcome.ret (0, ck, ctk) →
      (REG_GET D ck REG_CONFIG REG_CONFIG_BIT_BUSY).1 = 1 →
      encrypt_loop D fuel pt (k + more + 1) i c ct
        = Outcome.ret (- EIO, (REG_GET D ck REG_CONFIG REG_CONFIG_BIT_BUSY).2, ctk) := by
  intro k
  induction k with
  | zero =>
    intro i c ct ck ctk h hb
    simp only [encrypt_loop] at h
    cases h
    rw [Nat.zero_add, encrypt_loop_succ, if_pos hb]
  | succ n ih =>
    intro i c ct ck ctk h hb
    rw [encrypt_loop_succ] at h
    have hadd : n + 1 + more + 1 = (n + more + 1) + 1 := by omega
    rw [hadd, encrypt_loop_succ]
    by_cases hb0 : (REG_GET D c REG_CONFIG REG_CONFIG_BIT_BUSY).1 = 1
    · rw [if_pos hb0] at h
      cases h
    · rw [if_neg hb0] at h ⊢
      split at h
      · cases h
      · rename_i c3 hw
        exact ih _ _ _ _ _ h hb

/-- Storing one word into a buffer whose first `4 * i` bytes are `pre` and whose rest is
zero. -/
theorem store32_zeros (pre : List Nat) (i m o : Nat) (hpre : pre.length = 4 * i) :
    store32 (pre ++ List.replicate (4 * (m + 1)) 0) i o
      = (pre ++ le_bytes o) ++ List.replicate (4 * m) 0 := by
  unfold store32
  have h1 : List.take (4 * i) (pre ++ List.replicate (4 * (m + 1)) 0) = pre := by
    rw [← hpre]; simp
  have h2 : List.drop (4 * i + 4) (pre ++ List.replicate (4 * (m + 1)) 0)
      = List.replicate (4 * m) 0 := by
    rw [← hpre, List.drop_append_eq_append_drop]
    have : List.drop (pre.length + 4) pre = [] := List.drop_eq_nil_of_le (by omega)
    simp [this]
    omega
  rw [h1, h2]

/-- Storing words one after the other into a zeroed rest of a buffer writes their bytes
in order and leaves the remaining words zero. -/
theorem store_all_zeros (outs : List Nat) :
    ∀ (pre : List Nat) (i m : Nat), pre.length = 4 * i → outs.length ≤ m →
      store_all (pre ++ List.replicate (4 * m) 0) i outs
        = pre ++ bytes_of outs ++ List.replicate (4 * (m - outs.length)) 0 := by
  induction outs with
  | nil => intro pre i m _ _; simp [store_all, bytes_of]
  | cons o os ih =>
    intro pre i m hpre hm
    obtain ⟨m1, rfl⟩ : ∃ m1, m = m1 + 1 := ⟨m - 1, by simp at hm; omega⟩
    simp only [store_all]
    rw [store32_zeros pre i m1 o hpre]
    rw [ih (pre ++ le_bytes o) (i + 1) m1 (by simp [le_bytes, hpre]; omega)
      (by simp at hm; omega)]
    simp [bytes_of, List.flatMap_cons]

/-! ## Busy in the middle of a buffer -/

/-- The data-out reads along the rounds of the loop are the output words. -/
theorem word_rounds_reads (pt : List Nat) :
    ∀ (outs : List Nat) (i : Nat) (l : List Access),
      word_rounds pt i outs l → dat_o_reads l = outs := by
  intro outs
  induction outs with
  | nil =>
    intro i l h
    simp only [word_rounds] at h
    subst h
    rfl
  | cons o os ih =>
    intro i l h
    obtain ⟨v0, v1, polls, v2, rest, hl, -, hp, -, hr⟩ := h
    subst hl
    simp only [dat_o_reads_append, dat_o_reads_polls _ polls hp, ih _ _ hr]
    simp [dat_o_reads, REG_CONFIG, REG_DAT_O, REG_DAT_I]

/-- A run of the loop that returns 0 has gone, for each of its `todo` words in order,
through one round on the bus (busy check not busy, plaintext word `i`, `i + 1`, ...
written to data-in, process pulse, polls, output word read from data-out) and has stored
the output words at the word indices `i`, `i + 1`, ... -/
theorem encrypt_loop_rounds (D : Device σ) (fuel : Nat) (pt : List Nat) :
    ∀ (todo i : Nat) (c : core_info σ) (ct : List Nat) (c1 : core_info σ) (ct1 : List Nat),
      encrypt_loop D fuel pt todo i c ct = Outcome.ret (0, c1, ct1) →
      ∃ outs l, c1.trace = c.trace ++ l ∧ word_rounds pt i outs l ∧ outs.length = todo ∧
        ct1 = store_all ct i outs := by
  intro todo
  induction todo with
  | zero =>
    intro i c ct c1 ct1 h
    simp only [encrypt_loop] at h
    cases h
    exact ⟨[], [], by simp, rfl, rfl, rfl⟩
  | succ n ih =>
    intro i c ct c1 ct1 h
    rw [encrypt_loop_succ] at h
    by_cases hb : (REG_GET D c REG_CONFIG REG_CONFIG_BIT_BUSY).1 = 1
    · rw [if_pos hb] at h
      cases h
    · rw [if_neg hb] at h
      split at h
      · cases h
      · rename_i c3 hw
        obtain ⟨outs, l, h1, h2, h3, h4⟩ := ih _ _ _ _ _ h
        obtain ⟨polls, v, ht, hp, hv⟩ := WAIT_GET_trace D REG_CONFIG_BIT_OVAL fuel _ _ hw
        obtain ⟨v1, hs⟩ := REG_SET_trace_ex D
          (reg_wr D (REG_GET D c REG_CONFIG REG_CONFIG_BIT_BUSY).2 REG_DAT_I (load32 pt i))
          REG_CONFIG REG_CONFIG_BIT_PROC
        obtain ⟨hg, hgv⟩ := REG_GET_trace D c REG_CONFIG REG_CONFIG_BIT_BUSY
        refine ⟨(reg_rd D c3 REG_DAT_O).1 :: outs,
          [Access.rd REG_CONFIG ((D.ioread32 c.dev REG_CONFIG).1 % U32),
            Access.wr REG_DAT_I (load32 pt i % U32), Access.rd REG_CONFIG v1,
            Access.wr REG_CONFIG ((v1 ||| 4) % U32)]
            ++ polls ++ [Access.rd REG_CONFIG v, Access.rd REG_DAT_O (reg_rd D c3 REG_DAT_O).1]
            ++ l, ?_, ?_, ?_, ?_⟩
        · rw [h1, reg_rd_trace, ht, hs, reg_wr_trace, hg]
          simp [REG_CONFIG_BIT_PROC]
        · exact ⟨_, v1, polls, v, l, rfl, by rw [← hgv]; exact hb, hp, hv, h2⟩
        · simp [h3]
        · rw [h4]
          rfl

/-- C9: for every device, every Ready session and every plaintext of `n` words, if the
context swap went through (`hswap`), the core took the words `0 .. k-1` (`hpre`: cut off
after `k` words the loop returns 0, so no busy check before word `k` read busy and every
wait for output-valid ended) and the busy check at the entry of word `k < n` reads busy
(`hbusy`), then: the loop of `encrypt` returns `-EIO`; up to the entry of word `k` the
bus has seen exactly one round per word `i < k` (a busy check not reading busy, the
plaintext word `i` written to data-in, the process pulse, the polls, the output word
`outs[i]` read from data-out); after the state `ck` so reached the bus sees the one
status read that shows busy and nothing else, so nothing is written and no process
pulse is fired for the words `k .. n-1`; the ciphertext buffer holds the `k` output
words `outs` of the words `0 .. k-1`, in order, followed by the zero bytes of the words
`k .. n-1`; and the write call returns `-EIO` instead of a byte count. -/
theorem encrypt_busy_at_word (D : Device σ) (fuel : Nat) (g : Global σ)
    (inst : axi_trivium_inst) (p : List Nat) (n k : Nat) (c0 ck : core_info σ)
    (ctk : List Nat)
    (hready : phase inst = Phase.Ready) (hlen : p.length = 4 * n) (hk : k < n)
    (hm : g.ip_mtx = false)
    (hswap : context_swap D fuel g.ip_info inst = Outcome.ret (0, c0))
    (hpre : encrypt_loop D fuel p k 0 c0 (List.replicate p.length 0)
      = Outcome.ret (0, ck, ctk))
    (hbusy : (reg_get D ck REG_CONFIG REG_CONFIG_BIT_BUSY).1 = 1) :
    ∃ outs l v,
      ck.trace = c0.trace ++ l ∧ word_rounds p 0 outs l ∧ dat_o_reads l = outs ∧
      outs.length = k ∧
      ctk = bytes_of outs ++ List.replicate (4 * (n - k)) 0 ∧
      (reg_get D ck REG_CONFIG REG_CONFIG_BIT_BUSY).2.trace
        = ck.trace ++ [Access.rd REG_CONFIG v] ∧
      (v &&& (1 <<< REG_CONFIG_BIT_BUSY)) >>> REG_CONFIG_BIT_BUSY = 1 ∧
      encrypt D fuel c0 (staged inst p)
        = Outcome.ret (- EIO, (reg_get D ck REG_CONFIG REG_CONFIG_BIT_BUSY).2,
            { staged inst p with p_ct := some ctk }) ∧
      proc_axi_trivium_write D fuel Env.nominal g inst p
        = Outcome.ret (- EIO,
            { ip_info := (reg_get D ck REG_CONFIG REG_CONFIG_BIT_BUSY).2, ip_mtx := true },
            { staged inst p with p_ct := some ctk }) := by
  obtain ⟨outs, l, h1, hr, h3, h2⟩ := encrypt_loop_rounds D fuel p k 0 c0 _ ck ctk hpre
  rw [reg_get_eq_REG_GET] at hbusy ⊢
  have hfull : encrypt_loop D fuel p (p.length / 4) 0 c0 (List.replicate p.length 0)
      = Outcome.ret (- EIO, (REG_GET D ck REG_CONFIG REG_CONFIG_BIT_BUSY).2, ctk) := by
    have hn : p.length / 4 = k + (n - k - 1) + 1 := by omega
    rw [hn]
    exact encrypt_loop_busy D fuel p (n - k - 1) k 0 c0 _ ck ctk hpre hbusy
  have hneg : ¬ ((- EIO : Int) = 0) := by decide
  obtain ⟨hg, hgv⟩ := REG_GET_trace D ck REG_CONFIG REG_CONFIG_BIT_BUSY
  refine ⟨outs, l, _, h1, hr, word_rounds_reads p outs 0 l hr, h3, ?_, hg, ?_, ?_, ?_⟩
  · rw [h2, hlen]
    have := store_all_zeros outs [] 0 n rfl (by omega)
    simp only [List.nil_append] at this
    rw [this, h3]
  · rw [← hgv]; exact hbusy
  · simp only [encrypt, staged, DAT_LEN_MUL, hfull]
  · rw [write_ready_eq D fuel g inst p hready (by omega) hm, hswap]
    simp only [Outcome.bind, ne_eq, not_true_eq_false, if_false, hfull]
    simp [hneg]

/-- Witness of `encrypt_busy_at_word`: a plaintext of the three words 1, 2, 3 on a
simulated core that reports busy at the entry of word 2 (bus access number 24).  The
write returns `-EIO`; the words 1 and 2, and no other, were written to data-in; the
buffer holds their two output words and four zero bytes; the trace ends with the busy
check of word 2. -/
theorem encrypt_busy_at_word_witness :
    observe (proc_axi_trivium_write (Engine.device toyCipher) 1 Env.nominal (busyGlobal 24)
        readyInst samplePlain3)
      = Outcome.ret (- EIO, true,
          [Access.rd 0 1536, Access.wr 0 1538, Access.rd 0 0,
           Access.wr 1 67305985, Access.wr 2 134678021, Access.wr 3 2569,
           Access.wr 4 235736075, Access.wr 5 303108111, Access.wr 6 5139,
           Access.rd 0 0, Access.wr 0 1, Access.rd 0 512,
           Access.rd 0 512, Access.wr 7 1, Access.rd 0 512, Access.wr 0 516,
           Access.rd 0 1536, Access.rd 8 1160794151,
           Access.rd 0 1536, Access.wr 7 2, Access.rd 0 1536, Access.wr 0 1540,
           Access.rd 0 1536, Access.rd 8 1509003457,
           Access.rd 0 1792],
          { readyInst with
            p_pt := some samplePlain3,
            p_ct := some [39, 80, 48, 69, 193, 144, 241, 89, 0, 0, 0, 0],
            buf_sz := 12 }) := by
  obtain ⟨outs, l, v, -, -, -, -, -, -, -, -, hw⟩ :=
    encrypt_busy_at_word (Engine.device toyCipher) 1 (busyGlobal 24) readyInst samplePlain3 3 2
      (core_of (context_swap (Engine.device toyCipher) 1 (busyGlobal 24).ip_info readyInst)
        idleCore)
      (core_of3 (encrypt_loop (Engine.device toyCipher) 1 samplePlain3 2 0
        (core_of (context_swap (Engine.device toyCipher) 1 (busyGlobal 24).ip_info readyInst)
          idleCore) (List.replicate 12 0)) idleCore)
      (buf_of3 (encrypt_loop (Engine.device toyCipher) 1 samplePlain3 2 0
        (core_of (context_swap (Engine.device toyCipher) 1 (busyGlobal 24).ip_info readyInst)
          idleCore) (List.replicate 12 0)))
      rfl rfl (by decide) rfl rfl rfl rfl
  rw [hw]
  rfl

/-! ## Every encrypt request swaps the context; an error keeps the mutex -/

/-- The loop of `encrypt` only appends to the bus trace, and returns 0 or `-EIO`. -/
theorem encrypt_loop_grows (D : Device σ) (fuel : Nat) (pt : List Nat) :
    ∀ (todo i : Nat) (c : core_info σ) (ct : List Nat) (r : Int) (c1 : core_info σ)
      (ct1 : List Nat),
      encrypt_loop D fuel pt todo i c ct = Outcome.ret (r, c1, ct1) →
      (∃ l, c1.trace = c.trace ++ l) ∧ (r = 0 ∨ r = - EIO) := by
  intro todo
  induction todo with
  | zero =>
    intro i c ct r c1 ct1 h
    simp only [encrypt_loop] at h
    cases h
    exact ⟨⟨[], by simp⟩, Or.inl rfl⟩
  | succ n ih =>
    intro i c ct r c1 ct1 h
    rw [encrypt_loop_succ] at h
    have hg := (REG_GET_trace D c REG_CONFIG REG_CONFIG_BIT_BUSY).1
    by_cases hb : (REG_GET D c REG_CONFIG REG_CONFIG_BIT_BUSY).1 = 1
    · rw [if_pos hb] at h
      cases h
      exact ⟨⟨_, hg⟩, Or.inr rfl⟩
    · rw [if_neg hb] at h
      split at h
      · cases h
      · rename_i c3 hw
        obtain ⟨⟨l, h1⟩, h2⟩ := ih _ _ _ _ _ _ h
        obtain ⟨polls, v, ht, -, -⟩ := WAIT_GET_trace D REG_CONFIG_BIT_OVAL fuel _ _ hw
        obtain ⟨v1, hs⟩ := REG_SET_trace_ex D
          (reg_wr D (REG_GET D c REG_CONFIG REG_CONFIG_BIT_BUSY).2 REG_DAT_I (load32 pt i))
          REG_CONFIG REG_CONFIG_BIT_PROC
        refine ⟨⟨[Access.rd REG_CONFIG ((D.ioread32 c.dev REG_CONFIG).1 % U32),
            Access.wr REG_DAT_I (load32 pt i % U32), Access.rd REG_CONFIG v1,
            Access.wr REG_CONFIG ((v1 ||| 1 <<< REG_CONFIG_BIT_PROC) % U32)]
            ++ polls ++ [Access.rd REG_CONFIG v, Access.rd REG_DAT_O (reg_rd D c3 REG_DAT_O).1]
            ++ l, ?_⟩, h2⟩
        rw [h1, reg_rd_trace, ht, hs, reg_wr_trace, hg]
        simp

/-- A write in phase Ready that finds the mutex held never returns. -/
theorem write_ready_blocked (D : Device σ) (fuel : Nat) (g : Global σ)
    (inst : axi_trivium_inst) (p : List Nat) (hready : phase inst = Phase.Ready)
    (hlen : p.length % 4 = 0) (hm : g.ip_mtx = true) :
    proc_axi_trivium_write D fuel Env.nominal g inst p = Outcome.blocked := by
  have hcp : copy_from_user true (List.replicate p.length 0) p p.length = (false, p) := by
    unfold copy_from_user
    by_cases h0 : p.length = 0
    · have : p = [] := List.length_eq_zero.mp h0
      subst this
      simp
    · simp [h0]
  have hkz : kzalloc true p.length = some (List.replicate p.length 0) := by
    unfold kzalloc
    by_cases h0 : p.length = 0
    · simp [h0]
    · simp [h0]
  rcases inst with ⟨pk, pv, ppt, pct, bs, ci⟩
  cases pk with
  | none => simp [phase] at hready
  | some key =>
    cases pv with
    | none => simp [phase] at hready
    | some iv =>
      cases pct <;>
        simp [proc_axi_trivium_write, DAT_LEN_MUL, hlen, Env.nominal, hkz, hm, hcp]

/-- What a returned write in phase Ready (length a multiple of 4, allocation and copy
succeeding, mutex free) went through: either the context swap failed with `r1 ≠ 0`, or
it returned 0 and the loop returned `r2`. -/
theorem write_ready_cases (D : Device σ) (fuel : Nat) (g : Global σ)
    (inst : axi_trivium_inst) (p : List Nat) (hready : phase inst = Phase.Ready)
    (hlen : p.length % 4 = 0) (hm : g.ip_mtx = false) (r : Int) (g1 : Global σ)
    (i1 : axi_trivium_inst)
    (h : proc_axi_trivium_write D fuel Env.nominal g inst p = Outcome.ret (r, g1, i1)) :
    (∃ c1, context_swap D fuel g.ip_info inst = Outcome.ret (r, c1) ∧ r ≠ 0 ∧
      g1 = { ip_info := c1, ip_mtx := true } ∧ i1 = staged inst p) ∨
    (∃ c1 r2 c2 ct2, context_swap D fuel g.ip_info inst = Outcome.ret (0, c1) ∧
      encrypt_loop D fuel p (p.length / 4) 0 c1 (List.replicate p.length 0)
        = Outcome.ret (r2, c2, ct2) ∧
      ((r2 ≠ 0 ∧ r = r2 ∧ g1 = { ip_info := c2, ip_mtx := true } ∧
          i1 = { staged inst p with p_ct := some ct2 }) ∨
       (r2 = 0 ∧ r = (p.length : Int) ∧ g1 = { ip_info := c2, ip_mtx := false } ∧
          i1 = { staged inst p with p_ct := some ct2, p_pt := none }))) := by
  rw [write_ready_eq D fuel g inst p hready hlen hm] at h
  cases hcs : context_swap D fuel g.ip_info inst with
  | ret r1 =>
    obtain ⟨ra, c1⟩ := r1
    rw [hcs] at h
    simp only [Outcome.bind] at h
    by_cases hr : ra = 0
    · subst hr
      simp only [ne_eq, not_true_eq_false, if_false] at h
      right
      cases hel : encrypt_loop D fuel p (p.length / 4) 0 c1 (List.replicate p.length 0) with
      | ret r2 =>
        obtain ⟨rb, c2, ct2⟩ := r2
        rw [hel] at h
        simp only [Outcome.bind] at h
        refine ⟨c1, rb, c2, ct2, rfl, hel, ?_⟩
        by_cases hr2 : rb = 0
        · subst hr2
          simp only [ne_eq, not_true_eq_false, if_false] at h
          cases h
          exact Or.inr ⟨rfl, rfl, rfl, rfl⟩
        · simp only [ne_eq, hr2, not_false_eq_true, if_true] at h
          cases h
          exact Or.inl ⟨hr2, rfl, rfl, rfl⟩
      | spinning => rw [hel] at h; simp [Outcome.bind] at h
      | blocked => rw [hel] at h; simp [Outcome.bind] at h
      | oops => rw [hel] at h; simp [Outcome.bind] at h
    · simp only [ne_eq, hr, not_false_eq_true, if_true] at h
      cases h
      exact Or.inl ⟨c1, rfl, hr, rfl, rfl⟩
  | spinning => rw [hcs] at h; simp [Outcome.bind] at h
  | blocked => rw [hcs] at h; simp [Outcome.bind] at h
  | oops => rw [hcs] at h; simp [Outcome.bind] at h

/-- C3 (the code departs from the claim): when a plaintext write of a Ready session
returns the engine-busy error `-EIO` (busy at the context swap or at a word of the
loop), the mutex is still held afterwards, and a following encrypt request of any Ready
session, on any later state of the device, never returns: it sleeps in `mutex_lock`. -/
theorem write_busy_keeps_mutex (D : Device σ) (fuel : Nat) (g : Global σ)
    (inst : axi_trivium_inst) (p : List Nat) (r : Int) (g1 : Global σ)
    (i1 : axi_trivium_inst) (hready : phase inst = Phase.Ready) (hlen : p.length % 4 = 0)
    (hm : g.ip_mtx = false)
    (h : proc_axi_trivium_write D fuel Env.nominal g inst p = Outcome.ret (r, g1, i1))
    (hr : r = - EIO) :
    g1.ip_mtx = true ∧
    ∀ (fuel2 : Nat) (c2 : core_info σ) (inst2 : axi_trivium_inst) (p2 : List Nat),
      phase inst2 = Phase.Ready → p2.length % 4 = 0 →
      proc_axi_trivium_write D fuel2 Env.nominal { g1 with ip_info := c2 } inst2 p2
        = Outcome.blocked := by
  have hheld : g1.ip_mtx = true := by
    rcases write_ready_cases D fuel g inst p hready hlen hm r g1 i1 h with
      ⟨c1, -, -, hg, -⟩ | ⟨c1, r2, c2, ct2, -, -, h2⟩
    · rw [hg]
    · rcases h2 with ⟨-, -, hg, -⟩ | ⟨-, hrp, -, -⟩
      · rw [hg]
      · exfalso
        rw [hr] at hrp
        unfold EIO at hrp
        omega
  refine ⟨hheld, ?_⟩
  intro fuel2 c2 inst2 p2 hready2 hlen2
  exact write_ready_blocked D fuel2 _ inst2 p2 hready2 hlen2 hheld

/-- Witness of `write_busy_keeps_mutex`, the failing input of C3: on a simulated core
that reports busy at the busy check of the context swap (bus access number 2), the
4-byte write of a Ready session returns `-EIO` with the mutex held, and the write of
another Ready session on the globals it leaves (even with the core replaced by an idle
one) is blocked. -/
theorem write_busy_keeps_mutex_witness :
    observe (proc_axi_trivium_write (Engine.device toyCipher) 1 Env.nominal (busyGlobal 2)
        readyInst [1, 0, 0, 0])
      = Outcome.ret (- EIO, true,
          [Access.rd 0 1536, Access.wr 0 1538, Access.rd 0 256],
          { readyInst with
            p_pt := some [1, 0, 0, 0], p_ct := some [0, 0, 0, 0], buf_sz := 4 }) ∧
    wedgedGlobal.ip_mtx = true ∧
    proc_axi_trivium_write (Engine.device toyCipher) 1 Env.nominal
        { wedgedGlobal with ip_info := idleCore } bufferedInst [2, 0, 0, 0]
      = Outcome.blocked :=
  ⟨by decide,
   (write_busy_keeps_mutex (Engine.device toyCipher) 1 (busyGlobal 2) readyInst [1, 0, 0, 0]
      (- EIO) wedgedGlobal
      (inst_of (proc_axi_trivium_write (Engine.device toyCipher) 1 Env.nominal (busyGlobal 2)
        readyInst [1, 0, 0, 0]) readyInst) rfl rfl rfl rfl rfl).1,
   (write_busy_keeps_mutex (Engine.device toyCipher) 1 (busyGlobal 2) readyInst [1, 0, 0, 0]
      (- EIO) wedgedGlobal
      (inst_of (proc_axi_trivium_write (Engine.device toyCipher) 1 Env.nominal (busyGlobal 2)
        readyInst [1, 0, 0, 0]) readyInst) rfl rfl rfl rfl rfl).2
      1 idleCore bufferedInst [2, 0, 0, 0] rfl rfl⟩

/-! ## The driver on the simulated core -/

/-- On a simulated core that is never busy, a poll for output-valid (bit 10) or for
init-done (bit 9) whose flag is raised and whose completion is `d` polls away ends
within `d + 1` polls and changes nothing but the clock and the pending count. -/
theorem Engine.wait_done (C : Cipher κ) (bit : Nat) (d : Nat) :
    ∀ (fuel : Nat) (e : Engine κ) (tr : List Access),
      d < fuel → (∀ t, e.busy t = false) → e.pending = some d →
      ((bit = 10 ∧ e.oval = true) ∨ (bit = 9 ∧ e.idone = true)) →
      ∃ tr1 clk, WAIT_GET (Engine.device C) bit fuel { dev := e, trace := tr }
        = some { dev := { e with pending := some 0, clock := clk }, trace := tr1 } := by
  induction d with
  | zero =>
    intro fuel e tr hf hidle hp hbit
    obtain ⟨f, rfl⟩ : ∃ f, fuel = f + 1 := ⟨fuel - 1, by omega⟩
    obtain ⟨regs, core, idone, oval, pending, latency, busy, clock⟩ := e
    simp only at hidle hp hbit
    subst hp
    rcases hbit with ⟨rfl, rfl⟩ | ⟨rfl, rfl⟩
    · cases idone <;>
        simp [WAIT_GET, REG_GET, bus_rd, Engine.device, Engine.read, REG_CONFIG,
          Engine.status, hidle, U32]
    · cases oval <;>
        simp [WAIT_GET, REG_GET, bus_rd, Engine.device, Engine.read, REG_CONFIG,
          Engine.status, hidle, U32]
  | succ n ih =>
    intro fuel e tr hf hidle hp hbit
    obtain ⟨f, rfl⟩ : ∃ f, fuel = f + 1 := ⟨fuel - 1, by omega⟩
    obtain ⟨regs, core, idone, oval, pending, latency, busy, clock⟩ := e
    simp only at hidle hp hbit
    subst hp
    have hstep : WAIT_GET (Engine.device C) bit (f + 1)
        { dev := Engine.mk regs core idone oval (some (n + 1)) latency busy clock,
          trace := tr }
        = WAIT_GET (Engine.device C) bit f
          { dev := Engine.mk regs core idone oval (some n) latency busy (clock + 1),
            trace := tr ++ [Access.rd 0 0] } := by
      simp [WAIT_GET, REG_GET, bus_rd, Engine.device, Engine.read, REG_CONFIG,
        Engine.status, hidle, U32]
    rw [hstep]
    obtain ⟨tr1, clk, h⟩ := ih f
      (Engine.mk regs core idone oval (some n) latency busy (clock + 1))
      (tr ++ [Access.rd 0 0]) (by omega) hidle rfl hbit
    exact ⟨tr1, clk, h⟩

/-- The status word of a simulated core that is never busy. -/
theorem Engine.status_idle (e : Engine κ) (hidle : ∀ t, e.busy t = false) :
    e.status = 0 ∨ e.status = 512 ∨ e.status = 1024 ∨ e.status = 1536 := by
  unfold Engine.status
  rw [hidle]
  cases (e.idone && e.pending == some 0) <;> cases (e.oval && e.pending == some 0) <;> simp

/-- A write to the configuration slot of the status word with the stop bit set fires
the stop pulse alone. -/
theorem Engine.write_stop (C : Cipher κ) (e : Engine κ) (s : Nat)
    (hs : s = 0 ∨ s = 512 ∨ s = 1024 ∨ s = 1536) :
    Engine.write C e REG_CONFIG ((s % U32 ||| 1 <<< REG_CONFIG_BIT_STOP) % U32)
      = ({ e with clock := e.clock + 1 } : Engine κ).stop := by
  rcases hs with rfl | rfl | rfl | rfl <;>
    simp [Engine.write, REG_CONFIG, REG_CONFIG_BIT_STOP, REG_CONFIG_BIT_INIT,
      REG_CONFIG_BIT_PROC, U32, Nat.testBit]

/-- A write to the configuration slot of the status word with the init bit set fires
the init pulse alone. -/
theorem Engine.write_init (C : Cipher κ) (e : Engine κ) (s : Nat)
    (hs : s = 0 ∨ s = 512 ∨ s = 1024 ∨ s = 1536) :
    Engine.write C e REG_CONFIG ((s % U32 ||| 1 <<< REG_CONFIG_BIT_INIT) % U32)
      = ({ e with clock := e.clock + 1 } : Engine κ).init C := by
  rcases hs with rfl | rfl | rfl | rfl <;>
    simp [Engine.write, REG_CONFIG, REG_CONFIG_BIT_STOP, REG_CONFIG_BIT_INIT,
      REG_CONFIG_BIT_PROC, U32, Nat.testBit]

/-- A write to the configuration slot of the status word with the process bit set fires
the process pulse alone. -/
theorem Engine.write_proc (C : Cipher κ) (e : Engine κ) (s : Nat)
    (hs : s = 0 ∨ s = 512 ∨ s = 1024 ∨ s = 1536) :
    Engine.write C e REG_CONFIG ((s % U32 ||| 1 <<< REG_CONFIG_BIT_PROC) % U32)
      = ({ e with clock := e.clock + 1 } : Engine κ).proc C := by
  rcases hs with rfl | rfl | rfl | rfl <;>
    simp [Engine.write, REG_CONFIG, REG_CONFIG_BIT_STOP, REG_CONFIG_BIT_INIT,
      REG_CONFIG_BIT_PROC, U32, Nat.testBit]

/-- The busy check on a simulated core that is never busy reads 0. -/
theorem Engine.busy_check_idle (C : Cipher κ) (c : core_info (Engine κ))
    (hidle : ∀ t, c.dev.busy t = false) :
    (REG_GET (Engine.device C) c REG_CONFIG REG_CONFIG_BIT_BUSY).1 = 0 := by
  have hs := Engine.status_idle c.dev hidle
  simp only [REG_GET, bus_rd, Engine.device, Engine.read, REG_CONFIG, if_true]
  rcases hs with h | h | h | h <;> rw [h] <;> decide

/-- A bus read leaves the surroundings of the simulated core (busy bit, latency), the
registers and the context untouched. -/
theorem Engine.read_fields (e : Engine κ) (reg : Nat) :
    (Engine.read e reg).2.busy = e.busy ∧ (Engine.read e reg).2.latency = e.latency ∧
    (Engine.read e reg).2.core = e.core ∧ (Engine.read e reg).2.regs = e.regs ∧
    (Engine.read e reg).2.idone = e.idone ∧ (Engine.read e reg).2.oval = e.oval := by
  unfold Engine.read
  split <;> simp

/-- The stop pulse as issued by `reg_set` on a simulated core that is never busy. -/
theorem Engine.reg_set_stop (C : Cipher κ) (c : core_info (Engine κ))
    (hidle : ∀ t, c.dev.busy t = false) :
    (REG_SET (Engine.device C) c REG_CONFIG REG_CONFIG_BIT_STOP).dev
      = ({ (Engine.read c.dev REG_CONFIG).2 with
            clock := (Engine.read c.dev REG_CONFIG).2.clock + 1 } : Engine κ).stop := by
  simp only [REG_SET, bus_rd, bus_wr, Engine.device]
  apply Engine.write_stop
  simpa [Engine.read, REG_CONFIG] using Engine.status_idle c.dev hidle

/-- The init pulse as issued by `reg_set` on a simulated core that is never busy. -/
theorem Engine.reg_set_init (C : Cipher κ) (c : core_info (Engine κ))
    (hidle : ∀ t, c.dev.busy t = false) :
    (REG_SET (Engine.device C) c REG_CONFIG REG_CONFIG_BIT_INIT).dev
      = ({ (Engine.read c.dev REG_CONFIG).2 with
            clock := (Engine.read c.dev REG_CONFIG).2.clock + 1 } : Engine κ).init C := by
  simp only [REG_SET, bus_rd, bus_wr, Engine.device]
  apply Engine.write_init
  simpa [Engine.read, REG_CONFIG] using Engine.status_idle c.dev hidle

/-- The process pulse as issued by `reg_set` on a simulated core that is never busy. -/
theorem Engine.reg_set_proc (C : Cipher κ) (c : core_info (Engine κ))
    (hidle : ∀ t, c.dev.busy t = false) :
    (REG_SET (Engine.device C) c REG_CONFIG REG_CONFIG_BIT_PROC).dev
      = ({ (Engine.read c.dev REG_CONFIG).2 with
            clock := (Engine.read c.dev REG_CONFIG).2.clock + 1 } : Engine κ).proc C := by
  simp only [REG_SET, bus_rd, bus_wr, Engine.device]
  apply Engine.write_proc
  simpa [Engine.read, REG_CONFIG] using Engine.status_idle c.dev hidle

/-- On a simulated core that is never busy and completes after `d < fuel` polls, the
context swap returns 0 and leaves the core loaded with the context of the key and IV
words of the instance, whatever the core held before. -/
theorem Engine.swap_loaded (C : Cipher κ) (d fuel : Nat) (c : core_info (Engine κ))
    (inst : axi_trivium_inst) (key iv : List Nat) (hk : inst.p_key = some key)
    (hv : inst.p_iv = some iv) (hf : d < fuel) (hidle : ∀ t, c.dev.busy t = false)
    (hlat : c.dev.latency = some d) :
    ∃ c1, context_swap (Engine.device C) fuel c inst = Outcome.ret (0, c1) ∧
      Engine.Loaded d
        (C.load (load32 key 0 % U32) (load32 key 1 % U32) (load32 key 2 % U32)
          (load32 iv 0 % U32) (load32 iv 1 % U32) (load32 iv 2 % U32)) c1.dev := by
  simp only [context_swap, hk, hv, reg_get_eq_REG_GET, wait_bit_eq_WAIT_GET,
    reg_set_eq_REG_SET]
  have h1 := Engine.reg_set_stop C c hidle
  have hidle1 : ∀ t, (REG_SET (Engine.device C) c REG_CONFIG REG_CONFIG_BIT_STOP).dev.busy t
      = false := by
    rw [h1]; simpa [Engine.stop, (Engine.read_fields c.dev REG_CONFIG).1] using hidle
  rw [if_neg (by rw [Engine.busy_check_idle C _ hidle1]; decide)]
  -- the core after the six key and IV writes
  generalize hc7 : reg_wr (Engine.device C) (reg_wr (Engine.device C)
    (reg_wr (Engine.device C) (reg_wr (Engine.device C) (reg_wr (Engine.device C)
    (reg_wr (Engine.device C)
      (REG_GET (Engine.device C) (REG_SET (Engine.device C) c REG_CONFIG REG_CONFIG_BIT_STOP)
        REG_CONFIG REG_CONFIG_BIT_BUSY).2
      REG_KEY_LO (load32 key 0)) REG_KEY_MID (load32 key 1)) REG_KEY_HI (load32 key 2))
      REG_IV_LO (load32 iv 0)) REG_IV_MID (load32 iv 1)) REG_IV_HI (load32 iv 2) = c7
  have hdev7 : c7.dev = { (Engine.read (REG_SET (Engine.device C) c REG_CONFIG
        REG_CONFIG_BIT_STOP).dev REG_CONFIG).2 with
      regs := fun j =>
        if j = REG_IV_HI then load32 iv 2 % U32
        else if j = REG_IV_MID then load32 iv 1 % U32
        else if j = REG_IV_LO then load32 iv 0 % U32
        else if j = REG_KEY_HI then load32 key 2 % U32
        else if j = REG_KEY_MID then load32 key 1 % U32
        else if j = REG_KEY_LO then load32 key 0 % U32
        else (REG_SET (Engine.device C) c REG_CONFIG REG_CONFIG_BIT_STOP).dev.regs j,
      clock := (Engine.read (REG_SET (Engine.device C) c REG_CONFIG
        REG_CONFIG_BIT_STOP).dev REG_CONFIG).2.clock + 6 } := by
    subst hc7
    simp [reg_wr, bus_wr, REG_GET, bus_rd, Engine.device, Engine.write, Engine.read,
      REG_CONFIG, REG_KEY_LO, REG_KEY_MID, REG_KEY_HI, REG_IV_LO, REG_IV_MID, REG_IV_HI,
      REG_DAT_O]
  have hidle7 : ∀ t, c7.dev.busy t = false := by
    rw [hdev7]; simpa [(Engine.read_fields _ REG_CONFIG).1] using hidle1
  have h8 := Engine.reg_set_init C c7 hidle7
  have hlat1 : (REG_SET (Engine.device C) c REG_CONFIG REG_CONFIG_BIT_STOP).dev.latency
      = some d := by
    rw [h1]; simpa [Engine.stop, (Engine.read_fields c.dev REG_CONFIG).2.1] using hlat
  have hlat7 : c7.dev.latency = some d := by
    rw [hdev7]; simpa [(Engine.read_fields _ REG_CONFIG).2.1] using hlat1
  obtain ⟨tr9, clk, hw⟩ := Engine.wait_done C 9 d fuel
    (REG_SET (Engine.device C) c7 REG_CONFIG REG_CONFIG_BIT_INIT).dev
    (REG_SET (Engine.device C) c7 REG_CONFIG REG_CONFIG_BIT_INIT).trace hf
    (by rw [h8]; simpa [Engine.init, (Engine.read_fields _ REG_CONFIG).1] using hidle7)
    (by rw [h8]; simpa [Engine.init, (Engine.read_fields _ REG_CONFIG).2.1] using hlat7)
    (Or.inr ⟨rfl, by rw [h8]; simp [Engine.init]⟩)
  have hw2 : WAIT_GET (Engine.device C) REG_CONFIG_BIT_IDONE fuel
      (REG_SET (Engine.device C) c7 REG_CONFIG REG_CONFIG_BIT_INIT) = _ := hw
  rw [hw2]
  refine ⟨_, rfl, ?_, ?_, ?_⟩
  · simpa [h8, Engine.init, (Engine.read_fields _ REG_CONFIG).1] using hidle7
  · simpa [h8, Engine.init, (Engine.read_fields _ REG_CONFIG).2.1] using hlat7
  · simp [h8, Engine.init, (Engine.read_fields _ REG_CONFIG).2.2.2.1, hdev7,
      REG_KEY_LO, REG_KEY_MID, REG_KEY_HI, REG_IV_LO, REG_IV_MID, REG_IV_HI]

/-- On a simulated core that is never busy, completes after `d < fuel` polls and holds
the context `k`, the loop of `encrypt` returns 0 and has stored, at the word indices
`i`, `i + 1`, ..., the output words of the cipher for the plaintext words at those
indices, starting from `k`. -/
theorem Engine.loop_run (C : Cipher κ) (d fuel : Nat) (hf : d < fuel) (pt : List Nat) :
    ∀ (todo i : Nat) (c : core_info (Engine κ)) (ct : List Nat) (k : κ),
      Engine.Loaded d k c.dev →
      ∃ c1 k1,
        encrypt_loop (Engine.device C) fuel pt todo i c ct
          = Outcome.ret (0, c1,
              store_all ct i (C.run k ((List.range' i todo).map fun j => load32 pt j % U32))) ∧
        Engine.Loaded d k1 c1.dev := by
  intro todo
  induction todo with
  | zero =>
    intro i c ct k hl
    exact ⟨c, k, by simp [encrypt_loop, Cipher.run, store_all], hl⟩
  | succ n ih =>
    intro i c ct k hl
    rw [encrypt_loop_succ, if_neg (by rw [Engine.busy_check_idle C c hl.idle]; decide)]
    generalize hc1 : reg_wr (Engine.device C)
      (REG_GET (Engine.device C) c REG_CONFIG REG_CONFIG_BIT_BUSY).2 REG_DAT_I (load32 pt i)
      = c1
    have hdev1 : c1.dev = { (Engine.read c.dev REG_CONFIG).2 with
        regs := fun j => if j = REG_DAT_I then load32 pt i % U32 else c.dev.regs j,
        clock := (Engine.read c.dev REG_CONFIG).2.clock + 1 } := by
      subst hc1
      simp [reg_wr, bus_wr, REG_GET, bus_rd, Engine.device, Engine.write, Engine.read,
        REG_CONFIG, REG_DAT_I, REG_DAT_O]
    have hidle1 : ∀ t, c1.dev.busy t = false := by
      rw [hdev1]; simpa [(Engine.read_fields _ REG_CONFIG).1] using hl.idle
    have hlat1 : c1.dev.latency = some d := by
      rw [hdev1]; simpa [(Engine.read_fields _ REG_CONFIG).2.1] using hl.lat
    have hcore1 : c1.dev.core = some k := by
      rw [hdev1]; simpa [(Engine.read_fields _ REG_CONFIG).2.2.1] using hl.core
    have hreg1 : c1.dev.regs REG_DAT_I = load32 pt i % U32 := by
      rw [hdev1]; simp
    have h2 := Engine.reg_set_proc C c1 hidle1
    generalize hc2 : REG_SET (Engine.device C) c1 REG_CONFIG REG_CONFIG_BIT_PROC = c2 at h2 ⊢
    have hproc : c2.dev
        = { (Engine.read c1.dev REG_CONFIG).2 with
            clock := (Engine.read c1.dev REG_CONFIG).2.clock + 1,
            regs := fun j => if j = REG_DAT_O then (C.step k (load32 pt i % U32)).1 % U32
              else c1.dev.regs j,
            core := some (C.step k (load32 pt i % U32)).2, oval := true,
            pending := some d } := by
      rw [h2]
      simp [Engine.proc, (Engine.read_fields c1.dev REG_CONFIG).2.2.1, hcore1,
        (Engine.read_fields c1.dev REG_CONFIG).2.2.2.1, hreg1,
        (Engine.read_fields c1.dev REG_CONFIG).2.1, hlat1]
    have hidle2 : ∀ t, c2.dev.busy t = false := by
      rw [hproc]; simpa [(Engine.read_fields _ REG_CONFIG).1] using hidle1
    have hlat2 : c2.dev.latency = some d := by
      rw [hproc]; simpa [(Engine.read_fields _ REG_CONFIG).2.1] using hlat1
    have hcore2 : c2.dev.core = some (C.step k (load32 pt i % U32)).2 := by rw [hproc]
    have hreg2 : c2.dev.regs REG_DAT_O = (C.step k (load32 pt i % U32)).1 % U32 := by
      rw [hproc]; simp
    obtain ⟨tr3, clk, hw⟩ := Engine.wait_done C 10 d fuel c2.dev c2.trace hf hidle2
      (by rw [hproc]) (Or.inl ⟨rfl, by rw [hproc]⟩)
    have hw2 : WAIT_GET (Engine.device C) REG_CONFIG_BIT_OVAL fuel c2 = _ := hw
    rw [hw2]
    simp only []
    have hout : (reg_rd (Engine.device C)
        { dev := { c2.dev with pending := some 0, clock := clk }, trace := tr3 } REG_DAT_O).1
        = (C.step k (load32 pt i % U32)).1 % U32 := by
      have h8 : c2.dev.regs 8 = (C.step k (load32 pt i % U32)).1 % U32 := hreg2
      simp [reg_rd, bus_rd, Engine.device, Engine.read, REG_DAT_O, REG_CONFIG, h8]
    have hl3 : Engine.Loaded d (C.step k (load32 pt i % U32)).2 (reg_rd (Engine.device C)
        { dev := { c2.dev with pending := some 0, clock := clk }, trace := tr3 }
        REG_DAT_O).2.dev := by
      refine ⟨?_, ?_, ?_⟩
      · simpa [reg_rd, bus_rd, Engine.device, Engine.read, REG_DAT_O, REG_CONFIG] using hidle2
      · simpa [reg_rd, bus_rd, Engine.device, Engine.read, REG_DAT_O, REG_CONFIG] using hlat2
      · simpa [reg_rd, bus_rd, Engine.device, Engine.read, REG_DAT_O, REG_CONFIG] using hcore2
    obtain ⟨c4, k4, h4, hl4⟩ := ih (i + 1) _ (store32 ct i (reg_rd (Engine.device C)
        { dev := { c2.dev with pending := some 0, clock := clk }, trace := tr3 } REG_DAT_O).1)
      (C.step k (load32 pt i % U32)).2 hl3
    refine ⟨c4, k4, ?_, hl4⟩
    rw [h4, hout]
    simp [List.range'_succ, Cipher.run, store_all]

/-- The cipher produces one output word per input word. -/
theorem Cipher.run_length (C : Cipher κ) (ws : List Nat) :
    ∀ k, (C.run k ws).length = ws.length := by
  induction ws with
  | nil => intro k; rfl
  | cons w ws ih => intro k; simp [Cipher.run, ih]

/-- An encrypt request on a simulated core that is never busy and completes after
`d < fuel` polls: the write returns the byte count, releases the mutex and leaves in the
ciphertext buffer the ciphertext that the cipher alone determines from the key and IV
buffers of the instance and the plaintext.  Nothing of the earlier state of the core or
of the earlier ciphertext buffer enters the result. -/
theorem Engine.write_ready (C : Cipher κ) (d fuel : Nat) (g : Global (Engine κ))
    (inst : axi_trivium_inst) (key iv p : List Nat) (hk : inst.p_key = some key)
    (hv : inst.p_iv = some iv) (hlen : p.length % 4 = 0) (hm : g.ip_mtx = false)
    (hf : d < fuel) (hidle : ∀ t, g.ip_info.dev.busy t = false)
    (hlat : g.ip_info.dev.latency = some d) :
    ∃ c2, proc_axi_trivium_write (Engine.device C) fuel Env.nominal g inst p
        = Outcome.ret ((p.length : Int), { ip_info := c2, ip_mtx := false },
            { staged inst p with p_ct := some (C.of_buffers key iv p), p_pt := none }) ∧
      (∀ t, c2.dev.busy t = false) ∧ c2.dev.latency = some d := by
  have hready : phase inst = Phase.Ready := by simp [phase, hk, hv]
  obtain ⟨c1, hsw, hl1⟩ := Engine.swap_loaded C d fuel g.ip_info inst key iv hk hv hf hidle hlat
  obtain ⟨c2, k2, hloop, hl2⟩ := Engine.loop_run C d fuel hf p (p.length / 4) 0 c1
    (List.replicate p.length 0) _ hl1
  refine ⟨c2, ?_, hl2.idle, hl2.lat⟩
  rw [write_ready_eq (Engine.device C) fuel g inst p hready hlen hm, hsw]
  simp only [Outcome.bind, ne_eq, not_true_eq_false, if_false, hloop]
  have hwords : (List.range' 0 (p.length / 4)).map (fun j => load32 p j % U32) = words_of p := by
    simp [words_of, List.range_eq_range']
  have hz : List.replicate p.length 0 = [] ++ List.replicate (4 * (p.length / 4)) 0 := by
    have : 4 * (p.length / 4) = p.length := by omega
    simp [this]
  have hst := store_all_zeros
    (C.run (C.load (load32 key 0 % U32) (load32 key 1 % U32) (load32 key 2 % U32)
      (load32 iv 0 % U32) (load32 iv 1 % U32) (load32 iv 2 % U32)) (words_of p))
    [] 0 (p.length / 4) rfl (by simp [Cipher.run_length, words_of])
  rw [hwords]
  rw [hz, hst]
  simp [Cipher.of_buffers, Cipher.run_length, words_of]

/-! ## Sessions on the simulated core -/

/-- The bytes of `n` words are `4 * n` bytes. -/
theorem bytes_of_length (ws : List Nat) : (bytes_of ws).length = 4 * ws.length := by
  induction ws with
  | nil => rfl
  | cons w ws ih =>
    simp only [bytes_of, List.flatMap_cons, List.length_append, List.length_cons] at ih ⊢
    simp only [le_bytes, List.length_cons, List.length_nil]
    omega

/-- The ciphertext has the length of the plaintext when that is a multiple of 4. -/
theorem Cipher.of_buffers_length (C : Cipher κ) (key iv p : List Nat)
    (hlen : p.length % 4 = 0) : (C.of_buffers key iv p).length = p.length := by
  simp only [Cipher.of_buffers, bytes_of_length, Cipher.run_length, words_of,
    List.length_map, List.length_range]
  omega

/-- The first write of a session, of ten bytes, allocation and copy succeeding. -/
theorem write_key_ok (D : Device σ) (fuel : Nat) (g : Global σ) (inst : axi_trivium_inst)
    (k : List Nat) (hk : inst.p_key = none) (hlen : k.length = 10) :
    proc_axi_trivium_write D fuel Env.nominal g inst k
      = Outcome.ret (10, g, { inst with p_key := some (pad12 k) }) := by
  simp [proc_axi_trivium_write, hk, KEY_LEN, hlen, kzalloc, Env.nominal, copy_from_user,
    pad12]

/-- The second write of a session, of ten bytes, allocation and copy succeeding. -/
theorem write_iv_ok (D : Device σ) (fuel : Nat) (g : Global σ) (inst : axi_trivium_inst)
    (key v : List Nat) (hk : inst.p_key = some key) (hv : inst.p_iv = none)
    (hlen : v.length = 10) :
    proc_axi_trivium_write D fuel Env.nominal g inst v
      = Outcome.ret (10, g, { inst with p_iv := some (pad12 v) }) := by
  simp [proc_axi_trivium_write, hk, hv, IV_LEN, hlen, kzalloc, Env.nominal, copy_from_user,
    pad12]

/-- Reading a whole, unread ciphertext buffer delivers it and frees it. -/
theorem read_all (inst : axi_trivium_inst) (ct : List Nat) (hct : inst.p_ct = some ct)
    (hlen : ct.length = inst.buf_sz) (hidx : inst.ct_idx = 0) (hlt : inst.buf_sz < U32)
    (hready : phase inst = Phase.Ready) :
    proc_axi_trivium_read true inst inst.buf_sz
      = ((inst.buf_sz : Int), { inst with p_ct := none, ct_idx := 0 }, ct) := by
  have hwf : inst_wf inst := by
    refine ⟨hlt, ?_, fun _ => hready, ?_⟩
    · simp only [hct]; exact ⟨hlen, by omega⟩
    · intro _
      unfold phase at hready
      cases hk : inst.p_key <;> simp [hk] at hready ⊢
  rw [read_success inst ct inst.buf_sz hwf hct (by omega)]
  simp [hidx, ← hlen]

/-- Reading back the first word of a buffer that starts with the four bytes of `w`. -/
theorem load32_le_bytes (w : Nat) (rest : List Nat) :
    load32 (le_bytes w ++ rest) 0 % U32 = w % U32 := by
  simp only [load32, le_bytes, List.cons_append, List.nil_append, Nat.mul_zero, Nat.zero_add,
    List.getD_cons_zero, List.getD_cons_succ, U32]
  omega

/-- The words of the bytes of a list of 32-bit words are these words. -/
theorem words_of_bytes_of (ws : List Nat) (h : ∀ w ∈ ws, w < U32) :
    words_of (bytes_of ws) = ws := by
  induction ws with
  | nil => rfl
  | cons w ws ih =>
    have ih2 := ih (fun x hx => h x (List.mem_cons_of_mem w hx))
    have hw : w % U32 = w := Nat.mod_eq_of_lt (h w (List.mem_cons_self w ws))
    have hlen : (bytes_of (w :: ws)).length / 4 = (bytes_of ws).length / 4 + 1 := by
      simp only [bytes_of_length, List.length_cons]; omega
    have hb : bytes_of (w :: ws) = le_bytes w ++ bytes_of ws := by
      simp [bytes_of, List.flatMap_cons]
    unfold words_of at ih2 ⊢
    rw [hlen, List.range_succ_eq_map, List.map_cons, List.map_map, hb, load32_le_bytes, hw]
    congr 1

/-- The output words of the cipher are 32-bit words. -/
theorem Cipher.run_lt (C : Cipher κ) (ws : List Nat) :
    ∀ k, ∀ w ∈ C.run k ws, w < U32 := by
  induction ws with
  | nil => intro k w hw; simp [Cipher.run] at hw
  | cons x xs ih =>
    intro k w hw
    simp only [Cipher.run, List.mem_cons] at hw
    rcases hw with rfl | hw
    · exact Nat.mod_lt _ (by decide)
    · exact ih _ w hw

/-- The words of the ciphertext are the output words of the cipher, one for each word of
the plaintext and in the same order. -/
theorem Cipher.words_of_ciphertext (C : Cipher κ) (k v p : List Nat) :
    words_of (C.ciphertext k v p)
      = C.run
          (C.load (load32 (pad12 k) 0 % U32) (load32 (pad12 k) 1 % U32)
            (load32 (pad12 k) 2 % U32) (load32 (pad12 v) 0 % U32) (load32 (pad12 v) 1 % U32)
            (load32 (pad12 v) 2 % U32))
          (words_of p) :=
  words_of_bytes_of _ (Cipher.run_lt C _ _)

/-- C1: for every 10-byte key `K`, 10-byte IV `V` and plaintext `P` whose length is a
multiple of 4 (and a `size_t`), on a freshly opened session: `write K`, `write V`,
`write P` and `read (len P)` return 10, 10, `len P` and `len P`, and the bytes read are
`C.ciphertext K V P`: the bytes of the words the cipher puts out when the context of
`(K, V)` is loaded and the words of `P` are processed in order.  This holds for every
state of the simulated core at each of the three writes (`gK`, `gV`, `gP`: whatever
other sessions left loaded), provided that at the encrypt request the mutex is free,
the core never reports busy and signals completion after `d < fuel` polls; the bytes
do not depend on those states.  Read as words, the result is the list of output words
of the cipher, word `i` of it being the output for word `i` of `P`. -/
theorem session_roundtrip (C : Cipher κ) (d fuel : Nat) (gK gV gP : Global (Engine κ))
    (K V P : List Nat) (hK : K.length = 10) (hV : V.length = 10)
    (hP : P.length % 4 = 0) (hsz : P.length < U32) (hf : d < fuel)
    (hm : gP.ip_mtx = false) (hidle : ∀ t, gP.ip_info.dev.busy t = false)
    (hlat : gP.ip_info.dev.latency = some d) :
    ∃ i1 i2 g3 i3 i4,
      proc_axi_trivium_write (Engine.device C) fuel Env.nominal gK proc_axi_trivium_open K
        = Outcome.ret (10, gK, i1) ∧
      proc_axi_trivium_write (Engine.device C) fuel Env.nominal gV i1 V
        = Outcome.ret (10, gV, i2) ∧
      proc_axi_trivium_write (Engine.device C) fuel Env.nominal gP i2 P
        = Outcome.ret ((P.length : Int), g3, i3) ∧
      g3.ip_mtx = false ∧
      proc_axi_trivium_read true i3 P.length
        = ((P.length : Int), i4, C.ciphertext K V P) ∧
      words_of (C.ciphertext K V P)
        = C.run
            (C.load (load32 (pad12 K) 0 % U32) (load32 (pad12 K) 1 % U32)
              (load32 (pad12 K) 2 % U32) (load32 (pad12 V) 0 % U32)
              (load32 (pad12 V) 1 % U32) (load32 (pad12 V) 2 % U32))
            (words_of P) := by
  obtain ⟨c2, hw, -, -⟩ := Engine.write_ready C d fuel gP
    { proc_axi_trivium_open with p_key := some (pad12 K), p_iv := some (pad12 V) }
    (pad12 K) (pad12 V) P rfl rfl hP hm hf hidle hlat
  have hlen := Cipher.of_buffers_length C (pad12 K) (pad12 V) P hP
  exact ⟨_, _, _, _, _, write_key_ok _ fuel gK _ K rfl hK,
    write_iv_ok _ fuel gV _ (pad12 K) V rfl rfl hV, hw, rfl,
    read_all _ (C.of_buffers (pad12 K) (pad12 V) P) rfl hlen rfl hsz rfl,
    Cipher.words_of_ciphertext C K V P⟩

/-- Witness of `session_roundtrip`: the sample key, IV and two-word plaintext on the
simulated core with the small cipher (completion after two polls, three polls of
fuel); the eight bytes read are the ciphertext of the small cipher. -/
theorem session_roundtrip_witness :
    ∃ i1 i2 g3 i3 i4,
      proc_axi_trivium_write (Engine.device toyCipher) 3 Env.nominal idleGlobal
          proc_axi_trivium_open sampleKey = Outcome.ret (10, idleGlobal, i1) ∧
      proc_axi_trivium_write (Engine.device toyCipher) 3 Env.nominal idleGlobal i1 sampleIV
        = Outcome.ret (10, idleGlobal, i2) ∧
      proc_axi_trivium_write (Engine.device toyCipher) 3 Env.nominal idleGlobal i2 samplePlain
        = Outcome.ret (8, g3, i3) ∧
      g3.ip_mtx = false ∧
      proc_axi_trivium_read true i3 8 = (8, i4, [39, 80, 48, 69, 193, 144, 241, 89]) ∧
      words_of [39, 80, 48, 69, 193, 144, 241, 89] = [1160794151, 1509003457] :=
  session_roundtrip toyCipher 2 3 idleGlobal idleGlobal idleGlobal sampleKey sampleIV
    samplePlain rfl rfl rfl (by decide) (by decide) rfl (fun _ => rfl) rfl

/-- For every device: an encrypt request does not look at the ciphertext buffer it
replaces, nor at the buffer size and cursor that went with it. -/
theorem write_forgets_old (D : Device σ) (fuel : Nat) (g : Global σ)
    (inst : axi_trivium_inst) (old p : List Nat) (hready : phase inst = Phase.Ready)
    (hold : inst.p_ct = some old) (hlen : p.length % 4 = 0) (hm : g.ip_mtx = false) :
    proc_axi_trivium_write D fuel Env.nominal g
        { inst with p_ct := none, buf_sz := 0, ct_idx := 0 } p
      = proc_axi_trivium_write D fuel Env.nominal g inst p := by
  have hready2 : phase { inst with p_ct := none, buf_sz := 0, ct_idx := 0 } = Phase.Ready :=
    hready
  have hst : staged { inst with p_ct := none, buf_sz := 0, ct_idx := 0 } p = staged inst p := by
    simp [staged, hold]
  rw [write_ready_eq D fuel g _ p hready2 hlen hm, write_ready_eq D fuel g inst p hready hlen hm,
    context_swap_congr D fuel g.ip_info
      { inst with p_ct := none, buf_sz := 0, ct_idx := 0 } inst rfl rfl, hst]

/-- C8: for every Ready session holding a ciphertext buffer `old` (unread or partly
read: any buffer size and cursor) and every plaintext `p2` whose length is a multiple
of 4 (and a `size_t`), on a simulated core that is never busy and completes after
`d < fuel` polls: the write is accepted; afterwards the ciphertext buffer is the
ciphertext of `p2`, of length `len p2`, the buffer size is `len p2` and the cursor is 0;
a following read of `len p2` bytes returns exactly that ciphertext and frees the
buffer; and the write returns the same value, globals and session as on the session
without `old` (buffer absent, size 0, cursor 0), so nothing of the old buffer, its
length or its cursor is left to be seen by any later call. -/
theorem write_replaces_ciphertext (C : Cipher κ) (d fuel : Nat) (g : Global (Engine κ))
    (inst : axi_trivium_inst) (key iv old p2 : List Nat) (hk : inst.p_key = some key)
    (hv : inst.p_iv = some iv) (hold : inst.p_ct = some old) (hlen : p2.length % 4 = 0)
    (hsz : p2.length < U32) (hm : g.ip_mtx = false) (hf : d < fuel)
    (hidle : ∀ t, g.ip_info.dev.busy t = false) (hlat : g.ip_info.dev.latency = some d) :
    ∃ g1 i1 i2,
      proc_axi_trivium_write (Engine.device C) fuel Env.nominal g inst p2
        = Outcome.ret ((p2.length : Int), g1, i1) ∧
      i1.p_ct = some (C.of_buffers key iv p2) ∧
      (C.of_buffers key iv p2).length = p2.length ∧
      i1.buf_sz = p2.length ∧ i1.ct_idx = 0 ∧
      proc_axi_trivium_read true i1 p2.length
        = ((p2.length : Int), i2, C.of_buffers key iv p2) ∧
      i2.p_ct = none ∧
      proc_axi_trivium_write (Engine.device C) fuel Env.nominal g
          { inst with p_ct := none, buf_sz := 0, ct_idx := 0 } p2
        = Outcome.ret ((p2.length : Int), g1, i1) := by
  obtain ⟨c2, hw, -, -⟩ := Engine.write_ready C d fuel g inst key iv p2 hk hv hlen hm hf
    hidle hlat
  have hl := Cipher.of_buffers_length C key iv p2 hlen
  have hw3 := write_forgets_old (Engine.device C) fuel g inst old p2 (by simp [phase, hk, hv])
    hold hlen hm
  rw [hw] at hw3
  exact ⟨_, _, _, hw, rfl, hl, rfl, by simp [staged, hold],
    read_all _ (C.of_buffers key iv p2) rfl hl (by simp [staged, hold]) hsz
      (by simp [phase, staged, hk, hv]), rfl, hw3⟩

/-- Witness of `write_replaces_ciphertext`: the sample session with an 8-byte buffer of
which 4 bytes are read submits a new 4-byte plaintext; the read that follows returns
the 4 bytes of its ciphertext. -/
theorem write_replaces_ciphertext_witness :
    ∃ g1 i1 i2,
      proc_axi_trivium_write (Engine.device toyCipher) 3 Env.nominal idleGlobal
          { bufferedInst with ct_idx := 4 } [5, 0, 0, 0] = Outcome.ret (4, g1, i1) ∧
      i1.p_ct = some [43, 80, 48, 69] ∧
      [43, 80, 48, 69].length = 4 ∧
      i1.buf_sz = 4 ∧ i1.ct_idx = 0 ∧
      proc_axi_trivium_read true i1 4 = (4, i2, [43, 80, 48, 69]) ∧
      i2.p_ct = none ∧
      proc_axi_trivium_write (Engine.device toyCipher) 3 Env.nominal idleGlobal
          { bufferedInst with p_ct := none, buf_sz := 0, ct_idx := 0 } [5, 0, 0, 0]
        = Outcome.ret (4, g1, i1) :=
  write_replaces_ciphertext toyCipher 2 3 idleGlobal { bufferedInst with ct_idx := 4 }
    (pad12 sampleKey) (pad12 sampleIV) [39, 80, 48, 69, 193, 144, 241, 89] [5, 0, 0, 0]
    rfl rfl rfl rfl (by decide) rfl (by decide) (fun _ => rfl) rfl

/-- For every device: an accepted encrypt request (mutex free, allocation and copy
succeeding, return value not negative) has started with the context swap on the bus:
the stop pulse, the busy check, the three key words and the three IV words of the
instance, and the init pulse. -/
theorem write_swap_trace (D : Device σ) (fuel : Nat) (g : Global σ) (inst : axi_trivium_inst)
    (key iv p : List Nat) (r : Int) (g1 : Global σ) (i1 : axi_trivium_inst)
    (hk : inst.p_key = some key) (hv : inst.p_iv = some iv) (hlen : p.length % 4 = 0)
    (hm : g.ip_mtx = false)
    (h : proc_axi_trivium_write D fuel Env.nominal g inst p = Outcome.ret (r, g1, i1))
    (hr : 0 ≤ r) :
    ∃ v0 v1 v2 rest,
      g1.ip_info.trace = g.ip_info.trace ++
        [Access.rd REG_CONFIG v0, Access.wr REG_CONFIG ((v0 ||| 2) % U32),
         Access.rd REG_CONFIG v1,
         Access.wr REG_KEY_LO (load32 key 0 % U32), Access.wr REG_KEY_MID (load32 key 1 % U32),
         Access.wr REG_KEY_HI (load32 key 2 % U32),
         Access.wr REG_IV_LO (load32 iv 0 % U32), Access.wr REG_IV_MID (load32 iv 1 % U32),
         Access.wr REG_IV_HI (load32 iv 2 % U32),
         Access.rd REG_CONFIG v2, Access.wr REG_CONFIG ((v2 ||| 1) % U32)] ++ rest := by
  have hready : phase inst = Phase.Ready := by simp [phase, hk, hv]
  rcases write_ready_cases D fuel g inst p hready hlen hm r g1 i1 h with
    ⟨c1, hcs, hne, -, -⟩ | ⟨c1, r2, c2, ct2, hcs, hel, h2⟩
  · exfalso
    obtain ⟨v0, v1, hx⟩ := context_swap_trace D fuel g.ip_info inst key iv hk hv r c1 hcs
    rcases hx with ⟨hx, -, -⟩ | ⟨hx, -, -⟩
    · rw [hx] at hr; unfold EIO at hr; omega
    · exact hne hx
  · obtain ⟨v0, v1, hx⟩ := context_swap_trace D fuel g.ip_info inst key iv hk hv 0 c1 hcs
    obtain ⟨⟨l, hl⟩, -⟩ := encrypt_loop_grows D fuel p _ _ _ _ _ _ _ hel
    have hg1 : g1.ip_info = c2 := by
      rcases h2 with ⟨-, -, hg, -⟩ | ⟨-, -, hg, -⟩ <;> rw [hg]
    rcases hx with ⟨hx, -, -⟩ | ⟨-, -, v2, polls, v3, ht, -, -⟩
    · exfalso; unfold EIO at hx; omega
    · refine ⟨v0, v1, v2, polls ++ [Access.rd REG_CONFIG v3] ++ l, ?_⟩
      rw [hg1, hl, ht]
      simp

/-- C2 (as amended): the context swap is performed on every encrypt request, whether or
not the context loaded in the core is the one of the requesting session.  On a
simulated core that is never busy and completes after `d < fuel` polls, a Ready session
that submits `pa` and then, with nobody in between, `pb` (lengths multiples of 4): both
writes are accepted; the second one again fires the stop pulse, rewrites the three key
and the three IV slots and fires the init pulse; and its ciphertext is the one of the
keystream restarted from the key and IV, not the continuation of the first buffer. -/
theorem write_always_swaps (C : Cipher κ) (d fuel : Nat) (g : Global (Engine κ))
    (inst : axi_trivium_inst) (key iv pa pb : List Nat) (hk : inst.p_key = some key)
    (hv : inst.p_iv = some iv) (hla : pa.length % 4 = 0) (hlb : pb.length % 4 = 0)
    (hm : g.ip_mtx = false) (hf : d < fuel) (hidle : ∀ t, g.ip_info.dev.busy t = false)
    (hlat : g.ip_info.dev.latency = some d) :
    ∃ ga ia gb ib v0 v1 v2 rest,
      proc_axi_trivium_write (Engine.device C) fuel Env.nominal g inst pa
        = Outcome.ret ((pa.length : Int), ga, ia) ∧
      proc_axi_trivium_write (Engine.device C) fuel Env.nominal ga ia pb
        = Outcome.ret ((pb.length : Int), gb, ib) ∧
      gb.ip_info.trace = ga.ip_info.trace ++
        [Access.rd REG_CONFIG v0, Access.wr REG_CONFIG ((v0 ||| 2) % U32),
         Access.rd REG_CONFIG v1,
         Access.wr REG_KEY_LO (load32 key 0 % U32), Access.wr REG_KEY_MID (load32 key 1 % U32),
         Access.wr REG_KEY_HI (load32 key 2 % U32),
         Access.wr REG_IV_LO (load32 iv 0 % U32), Access.wr REG_IV_MID (load32 iv 1 % U32),
         Access.wr REG_IV_HI (load32 iv 2 % U32),
         Access.rd REG_CONFIG v2, Access.wr REG_CONFIG ((v2 ||| 1) % U32)] ++ rest ∧
      ia.p_ct = some (C.of_buffers key iv pa) ∧
      ib.p_ct = some (C.of_buffers key iv pb) := by
  obtain ⟨ca, hwa, hia, hla2⟩ := Engine.write_ready C d fuel g inst key iv pa hk hv hla hm hf
    hidle hlat
  obtain ⟨cb, hwb, -, -⟩ := Engine.write_ready C d fuel { ip_info := ca, ip_mtx := false }
    { staged inst pa with p_ct := some (C.of_buffers key iv pa), p_pt := none } key iv pb
    (by simp [staged, hk]) (by simp [staged, hv]) hlb rfl hf hia hla2
  obtain ⟨v0, v1, v2, rest, ht⟩ := write_swap_trace (Engine.device C) fuel
    { ip_info := ca, ip_mtx := false }
    { staged inst pa with p_ct := some (C.of_buffers key iv pa), p_pt := none } key iv pb
    _ _ _ (by simp [staged, hk]) (by simp [staged, hv]) hlb rfl hwb (by omega)
  exact ⟨_, _, _, _, v0, v1, v2, rest, hwa, hwb, ht, rfl, rfl⟩

/-- Witness of `write_always_swaps`: the Ready sample session submits the sample
plaintext twice in a row on the simulated core. -/
theorem write_always_swaps_witness :
    ∃ ga ia gb ib v0 v1 v2 rest,
      proc_axi_trivium_write (Engine.device toyCipher) 3 Env.nominal idleGlobal readyInst
          samplePlain = Outcome.ret (8, ga, ia) ∧
      proc_axi_trivium_write (Engine.device toyCipher) 3 Env.nominal ga ia samplePlain
        = Outcome.ret (8, gb, ib) ∧
      gb.ip_info.trace = ga.ip_info.trace ++
        [Access.rd REG_CONFIG v0, Access.wr REG_CONFIG ((v0 ||| 2) % U32),
         Access.rd REG_CONFIG v1,
         Access.wr REG_KEY_LO 67305985, Access.wr REG_KEY_MID 134678021,
         Access.wr REG_KEY_HI 2569,
         Access.wr REG_IV_LO 235736075, Access.wr REG_IV_MID 303108111,
         Access.wr REG_IV_HI 5139,
         Access.rd REG_CONFIG v2, Access.wr REG_CONFIG ((v2 ||| 1) % U32)] ++ rest ∧
      ia.p_ct = some [39, 80, 48, 69, 193, 144, 241, 89] ∧
      ib.p_ct = some [39, 80, 48, 69, 193, 144, 241, 89] :=
  write_always_swaps toyCipher 2 3 idleGlobal readyInst (pad12 sampleKey) (pad12 sampleIV)
    samplePlain samplePlain rfl rfl rfl rfl rfl (by decide) (fun _ => rfl) rfl

/-- C2 as stated fails: the Ready sample session has just encrypted the sample plaintext
(`afterFirstGlobal`, `afterFirstInst`: its key and IV are the loaded context, the trace
is cleared) and submits the same plaintext again with nobody in between.  The second
write sets the stop bit (`wr 0 1538`), rewrites the six key and IV slots and triggers
init (`wr 0 1`); the ciphertext equals that of the first buffer, so the keystream has
restarted instead of continuing. -/
theorem second_write_swaps_again :
    afterFirstInst.p_ct = some [39, 80, 48, 69, 193, 144, 241, 89] ∧
    observe (proc_axi_trivium_write (Engine.device toyCipher) 3 Env.nominal afterFirstGlobal
        afterFirstInst samplePlain)
      = Outcome.ret (8, false,
          [Access.rd 0 1536, Access.wr 0 1538, Access.rd 0 0,
           Access.wr 1 67305985, Access.wr 2 134678021, Access.wr 3 2569,
           Access.wr 4 235736075, Access.wr 5 303108111, Access.wr 6 5139,
           Access.rd 0 0, Access.wr 0 1, Access.rd 0 0, Access.rd 0 0, Access.rd 0 512,
           Access.rd 0 512, Access.wr 7 1, Access.rd 0 512, Access.wr 0 516,
           Access.rd 0 0, Access.rd 0 0, Access.rd 0 1536, Access.rd 8 1160794151,
           Access.rd 0 1536, Access.wr 7 2, Access.rd 0 1536, Access.wr 0 1540,
           Access.rd 0 0, Access.rd 0 0, Access.rd 0 1536, Access.rd 8 1509003457],
          { readyInst with
            p_ct := some [39, 80, 48, 69, 193, 144, 241, 89], buf_sz := 8 }) := by
  decide

/-! ## The bare-metal helpers and their test -/

/-- A returned `encrypt_word` has only appended to the bus trace; on failure it read
nothing from data-out and left the output word alone, on success it read exactly one
word from data-out, which is the result. -/
theorem encrypt_word_ret (D : Device σ) (B : StatusBits) (fuel : Nat) (c : core_info σ)
    (w old : Nat) (st : Int) (out : Option Nat) (c1 : core_info σ)
    (h : encrypt_word D B fuel c (some w) (some old) = Outcome.ret (st, out, c1)) :
    ∃ l, c1.trace = c.trace ++ l ∧
      ((st = XST_FAILURE ∧ out = some old ∧ dat_o_reads l = []) ∨
       (st = XST_SUCCESS ∧ ∃ o, out = some o ∧ dat_o_reads l = [o])) := by
  simp only [encrypt_word] at h
  have hg := (REG_GET_trace D c REG_CONFIG B.BIT_BUSY).1
  by_cases hb : (REG_GET D c REG_CONFIG B.BIT_BUSY).1 = 1
  · rw [if_pos hb] at h
    cases h
    exact ⟨_, hg, Or.inl ⟨rfl, rfl, by simp [dat_o_reads, REG_CONFIG, REG_DAT_O]⟩⟩
  · rw [if_neg hb] at h
    split at h
    · cases h
    · rename_i c3 hw
      cases h
      obtain ⟨polls, v, ht, hp, -⟩ := WAIT_GET_trace D B.BIT_OVAL fuel _ _ hw
      obtain ⟨v1, hs⟩ := REG_SET_trace_ex D (REG_WR D (REG_GET D c REG_CONFIG B.BIT_BUSY).2
        REG_DAT_I w) REG_CONFIG BIT_PROC
      refine ⟨[Access.rd REG_CONFIG ((D.ioread32 c.dev REG_CONFIG).1 % U32),
          Access.wr REG_DAT_I (w % U32), Access.rd REG_CONFIG v1,
          Access.wr REG_CONFIG ((v1 ||| 1 <<< BIT_PROC) % U32)]
          ++ polls ++ [Access.rd REG_CONFIG v, Access.rd REG_DAT_O (REG_RD D c3 REG_DAT_O).1],
        ?_, Or.inr ⟨rfl, _, rfl, ?_⟩⟩
      · have h4 : (REG_RD D c3 REG_DAT_O).2.trace
            = c3.trace ++ [Access.rd REG_DAT_O (REG_RD D c3 REG_DAT_O).1] := rfl
        have h1 : (REG_WR D (REG_GET D c REG_CONFIG B.BIT_BUSY).2 REG_DAT_I w).trace
            = (REG_GET D c REG_CONFIG B.BIT_BUSY).2.trace ++ [Access.wr REG_DAT_I (w % U32)] :=
          rfl
        rw [h4, ht, hs, h1, hg]
        simp
      · simp only [dat_o_reads_append, dat_o_reads_polls _ polls hp]
        simp [dat_o_reads, REG_CONFIG, REG_DAT_O, REG_DAT_I]

/-- A returned `new_instance` has only appended to the bus trace, read nothing from
data-out, and returns `XST_SUCCESS` or `XST_FAILURE`. -/
theorem new_instance_ret (D : Device σ) (B : StatusBits) (fuel : Nat) (c : core_info σ)
    (key iv : List Nat) (st : Int) (c1 : core_info σ)
    (h : new_instance D B fuel c (some key) (some iv) = Outcome.ret (st, c1)) :
    ∃ l, c1.trace = c.trace ++ l ∧ dat_o_reads l = [] ∧
      (st = XST_SUCCESS ∨ st = XST_FAILURE) := by
  simp only [new_instance] at h
  have hg := (REG_GET_trace D c REG_CONFIG B.BIT_BUSY).1
  by_cases hb : (REG_GET D c REG_CONFIG B.BIT_BUSY).1 = 1
  · rw [if_pos hb] at h
    cases h
    exact ⟨_, hg, by simp [dat_o_reads, REG_CONFIG, REG_DAT_O], Or.inr rfl⟩
  · rw [if_neg hb] at h
    split at h
    · cases h
    · rename_i c8 hw
      cases h
      obtain ⟨polls, v, ht, hp, -⟩ := WAIT_GET_trace D B.BIT_IDONE fuel _ _ hw
      obtain ⟨v1, hs⟩ := REG_SET_trace_ex D
        (REG_WR D (REG_WR D (REG_WR D (REG_WR D (REG_WR D (REG_WR D
          (REG_GET D c REG_CONFIG B.BIT_BUSY).2
          REG_KEY_LO (key.getD 0 0)) REG_KEY_MID (key.getD 1 0)) REG_KEY_HI (key.getD 2 0))
          REG_IV_LO (iv.getD 0 0)) REG_IV_MID (iv.getD 1 0)) REG_IV_HI (iv.getD 2 0))
        REG_CONFIG BIT_INIT
      refine ⟨[Access.rd REG_CONFIG ((D.ioread32 c.dev REG_CONFIG).1 % U32),
          Access.wr REG_KEY_LO (key.getD 0 0 % U32), Access.wr REG_KEY_MID (key.getD 1 0 % U32),
          Access.wr REG_KEY_HI (key.getD 2 0 % U32), Access.wr REG_IV_LO (iv.getD 0 0 % U32),
          Access.wr REG_IV_MID (iv.getD 1 0 % U32), Access.wr REG_IV_HI (iv.getD 2 0 % U32),
          Access.rd REG_CONFIG v1, Access.wr REG_CONFIG ((v1 ||| 1 <<< BIT_INIT) % U32)]
          ++ polls ++ [Access.rd REG_CONFIG v], ?_, ?_, Or.inl rfl⟩
      · rw [ht, hs]
        simp only [REG_WR, bus_wr, hg]
        simp
      · simp only [dat_o_reads_append, dat_o_reads_polls _ polls hp]
        simp [dat_o_reads, REG_CONFIG, REG_DAT_O, REG_KEY_LO, REG_KEY_MID, REG_KEY_HI,
          REG_IV_LO, REG_IV_MID, REG_IV_HI]

/-- The inner loop of `main`: a run that returns has only appended to the bus trace, and
a run that goes through all its words has read from data-out exactly the reference
words of those words. -/
theorem main_words_ok (D : Device σ) (B : StatusBits) (fuel : Nat) (T : TestData) (i : Nat) :
    ∀ (todo j : Nat) (c : core_info σ) (ct : Nat) (b : Bool) (c1 : core_info σ) (ct1 : Nat),
      main_words D B fuel T i todo j c ct = Outcome.ret (b, c1, ct1) →
      ∃ l, c1.trace = c.trace ++ l ∧
        (b = true → dat_o_reads l = (List.range' j todo).map (T.ct_blocks i)) := by
  intro todo
  induction todo with
  | zero =>
    intro j c ct b c1 ct1 h
    simp only [main_words] at h
    cases h
    exact ⟨[], by simp, fun _ => rfl⟩
  | succ n ih =>
    intro j c ct b c1 ct1 h
    simp only [main_words] at h
    cases hew : encrypt_word D B fuel c (some (T.pt_blocks i j)) (some ct) with
    | ret r =>
      obtain ⟨st, out, c2⟩ := r
      rw [hew] at h
      simp only [Outcome.bind] at h
      obtain ⟨l, hl, hcase⟩ := encrypt_word_ret D B fuel c _ ct st out c2 hew
      by_cases hst : st = 0
      · subst hst
        simp only [ne_eq, not_true_eq_false, if_false] at h
        rcases hcase with ⟨hf, -, -⟩ | ⟨-, o, ho, hd⟩
        · simp [XST_FAILURE] at hf
        · subst ho
          simp only [Option.getD_some] at h
          by_cases hcmp : o = T.ct_blocks i j
          · simp only [hcmp, not_true_eq_false, if_false] at h
            obtain ⟨l2, hl2, hb2⟩ := ih _ _ _ _ _ _ h
            refine ⟨l ++ l2, by rw [hl2, hl, List.append_assoc], ?_⟩
            intro hb
            rw [dat_o_reads_append, hd, hb2 hb, hcmp]
            simp [List.range'_succ]
          · simp only [hcmp, not_false_eq_true, if_true] at h
            cases h
            exact ⟨l, hl, fun hb => by cases hb⟩
      · simp only [ne_eq, hst, not_false_eq_true, if_true] at h
        cases h
        exact ⟨l, hl, fun hb => by cases hb⟩
    | spinning => rw [hew] at h; simp [Outcome.bind] at h
    | blocked => rw [hew] at h; simp [Outcome.bind] at h
    | oops => rw [hew] at h; simp [Outcome.bind] at h

/-- The outer loop of `main`: a run that returns gives `XST_SUCCESS` or `XST_FAILURE`
and has only appended to the bus trace; when it gives `XST_SUCCESS`, the words read
from data-out during the run are exactly the reference ciphertext words of its tests,
in order. -/
theorem main_tests_ok (D : Device σ) (B : StatusBits) (fuel : Nat) (T : TestData) :
    ∀ (todo i : Nat) (c : core_info σ) (ct : Nat) (r : Int) (c1 : core_info σ),
      main_tests D B fuel T todo i c ct = Outcome.ret (r, c1) →
      (r = XST_SUCCESS ∨ r = XST_FAILURE) ∧
      ∃ l, c1.trace = c.trace ++ l ∧
        (r = XST_SUCCESS → dat_o_reads l = reference_words T i todo) := by
  intro todo
  induction todo with
  | zero =>
    intro i c ct r c1 h
    simp only [main_tests] at h
    cases h
    exact ⟨Or.inl rfl, [], by simp, fun _ => rfl⟩
  | succ n ih =>
    intro i c ct r c1 h
    simp only [main_tests] at h
    have hfail : ¬ (XST_FAILURE = XST_SUCCESS) := by decide
    cases hni : new_instance D B fuel c (some (T.keys i)) (some (T.ivs i)) with
    | ret r1 =>
      obtain ⟨st, c2⟩ := r1
      rw [hni] at h
      simp only [Outcome.bind] at h
      obtain ⟨l1, hl1, hd1, -⟩ := new_instance_ret D B fuel c _ _ st c2 hni
      by_cases hst : st = 0
      · subst hst
        simp only [ne_eq, not_true_eq_false, if_false] at h
        cases hmw : main_words D B fuel T i (T.block_sizes i) 0 c2 ct with
        | ret w =>
          obtain ⟨b, c3, ct3⟩ := w
          rw [hmw] at h
          simp only [Outcome.bind] at h
          obtain ⟨l2, hl2, hd2⟩ := main_words_ok D B fuel T i _ _ _ _ _ _ _ hmw
          cases b with
          | false =>
            simp only [if_true] at h
            cases h
            exact ⟨Or.inr rfl, l1 ++ l2, by rw [hl2, hl1, List.append_assoc],
              fun hr => absurd hr hfail⟩
          | true =>
            have hdel : (delete_instance D c3).1 = 0 := rfl
            simp only [Bool.true_eq_false, if_false, hdel, ne_eq, not_true_eq_false] at h
            obtain ⟨hr, l4, hl4, hd4⟩ := ih _ _ _ _ _ h
            obtain ⟨v, hl3⟩ := REG_SET_trace_ex D c3 REG_CONFIG BIT_STOP
            refine ⟨hr, l1 ++ l2 ++ [Access.rd REG_CONFIG v,
              Access.wr REG_CONFIG ((v ||| 1 <<< BIT_STOP) % U32)] ++ l4, ?_, ?_⟩
            · have h3 : (delete_instance D c3).2.trace = _ := hl3
              rw [hl4, h3, hl2, hl1]
              simp
            · intro hs
              simp only [dat_o_reads_append, hd1, hd2 rfl, hd4 hs]
              simp [dat_o_reads, REG_CONFIG, REG_DAT_O, reference_words, List.range'_succ]
        | spinning => rw [hmw] at h; simp [Outcome.bind] at h
        | blocked => rw [hmw] at h; simp [Outcome.bind] at h
        | oops => rw [hmw] at h; simp [Outcome.bind] at h
      · simp only [ne_eq, hst, not_false_eq_true, if_true] at h
        cases h
        exact ⟨Or.inr rfl, l1, hl1, fun hr => absurd hr hfail⟩
    | spinning => rw [hni] at h; simp [Outcome.bind] at h
    | blocked => rw [hni] at h; simp [Outcome.bind] at h
    | oops => rw [hni] at h; simp [Outcome.bind] at h

/-- C10: the contract of the three bare-metal helpers, for every device, every state
of it, every input word, key and IV.  `b` is the busy check at entry (a single status
read).  When it reads busy, `encrypt_word` and `new_instance` return `XST_FAILURE`
having made that one read only (the output word keeps its content, no slot is written,
no pulse is fired).  Otherwise `encrypt_word` writes the word to data-in and sets the
process bit (`c2`), polls for output-valid, and returns `XST_SUCCESS` with the value
read from data-out stored as the result; `new_instance` writes the key words to slots
1..3 and the IV words to slots 4..6, sets the init bit (`c7`), polls for init-done and
returns `XST_SUCCESS`.  While the awaited bit does not show the helpers do not return.
`delete_instance` sets the stop bit and returns `XST_SUCCESS`.  The test `main`, for
every test table `T`, returns `XST_SUCCESS` or `XST_FAILURE`; when it returns
`XST_SUCCESS` the words read from data-out during the run are exactly the reference
ciphertext words of all tests, in order; when the first `new_instance` finds the core
busy it returns `XST_FAILURE`. -/
theorem helpers_contract (D : Device σ) (B : StatusBits) (fuel : Nat) (c : core_info σ)
    (w old : Nat) (key iv : List Nat) (T : TestData) (ct0 : Nat) :
    let b := REG_GET D c REG_CONFIG B.BIT_BUSY
    let c2 := REG_SET D (REG_WR D b.2 REG_DAT_I w) REG_CONFIG BIT_PROC
    let c7 := REG_SET D (after_writes D b.2
      [(REG_KEY_LO, key.getD 0 0), (REG_KEY_MID, key.getD 1 0), (REG_KEY_HI, key.getD 2 0),
       (REG_IV_LO, iv.getD 0 0), (REG_IV_MID, iv.getD 1 0), (REG_IV_HI, iv.getD 2 0)])
      REG_CONFIG BIT_INIT
    (∃ v, b.2.trace = c.trace ++ [Access.rd REG_CONFIG v]) ∧
    (b.1 = 1 →
      encrypt_word D B fuel c (some w) (some old) = Outcome.ret (XST_FAILURE, some old, b.2) ∧
      new_instance D B fuel c (some key) (some iv) = Outcome.ret (XST_FAILURE, b.2)) ∧
    (b.1 ≠ 1 →
      (∀ c3, WAIT_GET D B.BIT_OVAL fuel c2 = some c3 →
        encrypt_word D B fuel c (some w) (some old)
          = Outcome.ret (XST_SUCCESS, some (REG_RD D c3 REG_DAT_O).1, (REG_RD D c3 REG_DAT_O).2) ∧
        ∃ v0 v1 polls v2,
          (REG_RD D c3 REG_DAT_O).2.trace
            = c.trace ++ [Access.rd REG_CONFIG v0, Access.wr REG_DAT_I (w % U32),
                Access.rd REG_CONFIG v1, Access.wr REG_CONFIG ((v1 ||| 4) % U32)]
              ++ polls ++ [Access.rd REG_CONFIG v2,
                Access.rd REG_DAT_O (REG_RD D c3 REG_DAT_O).1] ∧
          (∀ a ∈ polls, is_idle_poll B.BIT_OVAL a) ∧
          (v2 &&& (1 <<< B.BIT_OVAL)) >>> B.BIT_OVAL = 1) ∧
      (WAIT_GET D B.BIT_OVAL fuel c2 = none →
        encrypt_word D B fuel c (some w) (some old) = Outcome.spinning) ∧
      (∀ c8, WAIT_GET D B.BIT_IDONE fuel c7 = some c8 →
        new_instance D B fuel c (some key) (some iv) = Outcome.ret (XST_SUCCESS, c8) ∧
        ∃ v0 v1 polls v2,
          c8.trace
            = c.trace ++ [Access.rd REG_CONFIG v0,
                Access.wr REG_KEY_LO (key.getD 0 0 % U32),
                Access.wr REG_KEY_MID (key.getD 1 0 % U32),
                Access.wr REG_KEY_HI (key.getD 2 0 % U32),
                Access.wr REG_IV_LO (iv.getD 0 0 % U32),
                Access.wr REG_IV_MID (iv.getD 1 0 % U32),
                Access.wr REG_IV_HI (iv.getD 2 0 % U32),
                Access.rd REG_CONFIG v1, Access.wr REG_CONFIG ((v1 ||| 1) % U32)]
              ++ polls ++ [Access.rd REG_CONFIG v2] ∧
          (∀ a ∈ polls, is_idle_poll B.BIT_IDONE a) ∧
          (v2 &&& (1 <<< B.BIT_IDONE)) >>> B.BIT_IDONE = 1) ∧
      (WAIT_GET D B.BIT_IDONE fuel c7 = none →
        new_instance D B fuel c (some key) (some iv) = Outcome.spinning)) ∧
    (delete_instance D c).1 = XST_SUCCESS ∧
    (∃ v, (delete_instance D c).2.trace
      = c.trace ++ [Access.rd REG_CONFIG v, Access.wr REG_CONFIG ((v ||| 2) % U32)]) ∧
    (∀ r c1, main D B fuel T c ct0 = Outcome.ret (r, c1) →
      (r = XST_SUCCESS ∨ r = XST_FAILURE) ∧
      ∃ l, c1.trace = c.trace ++ l ∧
        (r = XST_SUCCESS → dat_o_reads l = reference_words T 0 T.NUM_TESTS)) ∧
    (b.1 = 1 → 0 < T.NUM_TESTS → main D B fuel T c ct0 = Outcome.ret (XST_FAILURE, b.2)) := by
  intro b c2 c7
  have hb : b.2.trace = c.trace ++ [Access.rd REG_CONFIG ((D.ioread32 c.dev REG_CONFIG).1 % U32)] :=
    (REG_GET_trace D c REG_CONFIG B.BIT_BUSY).1
  have hmain : b.1 = 1 → 0 < T.NUM_TESTS →
      main D B fuel T c ct0 = Outcome.ret (XST_FAILURE, b.2) := by
    intro h1 hn
    obtain ⟨n, hn2⟩ : ∃ n, T.NUM_TESTS = n + 1 := ⟨T.NUM_TESTS - 1, by omega⟩
    have hni : new_instance D B fuel c (some (T.keys 0)) (some (T.ivs 0))
        = Outcome.ret (XST_FAILURE, b.2) := by
      simp only [new_instance]
      rw [if_pos h1]
    simp only [main, hn2, main_tests, hni, Outcome.bind]
    rfl
  refine ⟨⟨_, hb⟩, ?_, ?_, rfl, ⟨_, REG_SET_trace D c REG_CONFIG BIT_STOP⟩,
    fun r c1 h => main_tests_ok D B fuel T _ _ _ _ _ _ h, hmain⟩
  · intro h1
    constructor
    · simp only [encrypt_word]
      rw [if_pos h1]
    · simp only [new_instance]
      rw [if_pos h1]
  · intro h1
    refine ⟨?_, ?_, ?_, ?_⟩
    · intro c3 h3
      constructor
      · simp only [encrypt_word]
        rw [if_neg h1]
        simp only [h3]
      · obtain ⟨polls, v2, ht, hp, hv⟩ := WAIT_GET_trace D B.BIT_OVAL fuel _ _ h3
        refine ⟨(D.ioread32 c.dev REG_CONFIG).1 % U32,
          (D.ioread32 (REG_WR D b.2 REG_DAT_I w).dev REG_CONFIG).1 % U32, polls, v2, ?_, hp, hv⟩
        have h2 : c2.trace = (REG_WR D b.2 REG_DAT_I w).trace ++ _ :=
          REG_SET_trace D (REG_WR D b.2 REG_DAT_I w) REG_CONFIG BIT_PROC
        simp only [REG_RD, bus_rd, ht, h2, REG_WR, bus_wr, hb, BIT_PROC]
        simp
    · intro h3
      simp only [encrypt_word]
      rw [if_neg h1]
      simp only [h3]
    · intro c8 h8
      constructor
      · simp only [new_instance]
        rw [if_neg h1]
        exact (by
          have : WAIT_GET D B.BIT_IDONE fuel c7 = some c8 := h8
          simp only [c7, after_writes, List.foldl, REG_WR] at this ⊢
          simp only [this])
      · obtain ⟨polls, v2, ht, hp, hv⟩ := WAIT_GET_trace D B.BIT_IDONE fuel _ _ h8
        have h2 : c7.trace = _ := REG_SET_trace D _ REG_CONFIG BIT_INIT
        refine ⟨(D.ioread32 c.dev REG_CONFIG).1 % U32,
          (D.ioread32 (after_writes D b.2
            [(REG_KEY_LO, key.getD 0 0), (REG_KEY_MID, key.getD 1 0), (REG_KEY_HI, key.getD 2 0),
             (REG_IV_LO, iv.getD 0 0), (REG_IV_MID, iv.getD 1 0), (REG_IV_HI, iv.getD 2 0)]).dev
            REG_CONFIG).1 % U32, polls, v2, ?_, hp, hv⟩
        rw [ht, h2]
        simp only [after_writes, List.foldl, bus_wr, hb, BIT_INIT]
        simp
    · intro h8
      simp only [new_instance]
      rw [if_neg h1]
      exact (by
        have : WAIT_GET D B.BIT_IDONE fuel c7 = none := h8
        simp only [c7, after_writes, List.foldl, REG_WR] at this ⊢
        simp only [this])

/-- Witness of `helpers_contract`: on the simulated core (context loaded, completion
after two polls, three polls of fuel) `encrypt_word` of the word 5 is not busy at entry,
sees output-valid and returns `XST_SUCCESS` with the result word 104; and `main` on the
one-test table of the small cipher returns `XST_SUCCESS`, having read the two reference
words from data-out. -/
theorem helpers_contract_witness :
    (∃ c4, encrypt_word (Engine.device toyCipher) driverBits 3 idleCore (some 5) (some 0)
      = Outcome.ret (XST_SUCCESS, some 104, c4)) ∧
    (∃ c1, main (Engine.device toyCipher) driverBits 3 toyTest idleCore 0
        = Outcome.ret (XST_SUCCESS, c1) ∧
      dat_o_reads c1.trace = [1160794151, 1509003457]) :=
  ⟨⟨_, ((helpers_contract (Engine.device toyCipher) driverBits 3 idleCore 5 0 [] [] toyTest
      0).2.2.1
      (by decide)).1
      (Option.get (WAIT_GET (Engine.device toyCipher) driverBits.BIT_OVAL 3
        (REG_SET (Engine.device toyCipher)
          (REG_WR (Engine.device toyCipher)
            (REG_GET (Engine.device toyCipher) idleCore REG_CONFIG driverBits.BIT_BUSY).2
            REG_DAT_I 5) REG_CONFIG BIT_PROC)) (by decide))
      (Option.some_get _).symm |>.1⟩,
   ⟨core_of (main (Engine.device toyCipher) driverBits 3 toyTest idleCore 0) idleCore, rfl,
     by decide⟩⟩

/-! ## The data invariant is kept by every call -/

/-- Storing a word inside a buffer keeps its length. -/
theorem store32_length (buf : List Nat) (i w : Nat) (h : 4 * i + 4 ≤ buf.length) :
    (store32 buf i w).length = buf.length := by
  simp only [store32, le_bytes, List.length_append, List.length_take, List.length_drop,
    List.length_cons, List.length_nil]
  omega

/-- The loop of `encrypt` keeps the length of the ciphertext buffer. -/
theorem encrypt_loop_length (D : Device σ) (fuel : Nat) (pt : List Nat) :
    ∀ (todo i : Nat) (c : core_info σ) (ct : List Nat) (r : Int) (c1 : core_info σ)
      (ct1 : List Nat),
      encrypt_loop D fuel pt todo i c ct = Outcome.ret (r, c1, ct1) →
      4 * (i + todo) ≤ ct.length → ct1.length = ct.length := by
  intro todo
  induction todo with
  | zero =>
    intro i c ct r c1 ct1 h _
    simp only [encrypt_loop] at h
    cases h
    rfl
  | succ n ih =>
    intro i c ct r c1 ct1 h hle
    rw [encrypt_loop_succ] at h
    by_cases hb : (REG_GET D c REG_CONFIG REG_CONFIG_BIT_BUSY).1 = 1
    · rw [if_pos hb] at h
      cases h
      rfl
    · rw [if_neg hb] at h
      split at h
      · cases h
      · rename_i c3 _
        have hs := store32_length ct i (reg_rd D c3 REG_DAT_O).1 (by omega)
        rw [ih _ _ _ _ _ _ h (by rw [hs]; omega), hs]

/-- A read keeps the data invariant. -/
theorem read_keeps_wf (ok : Bool) (inst : axi_trivium_inst) (n : Nat) (hwf : inst_wf inst) :
    inst_wf (proc_axi_trivium_read ok inst n).2.1 := by
  have hwf0 := hwf
  obtain ⟨h1, h2, h3, h4⟩ := hwf
  unfold proc_axi_trivium_read
  cases hct : inst.p_ct with
  | none => exact hwf0
  | some ct =>
    have hsub := u32_sub_of_wf inst hwf0 (by simp [hct])
    simp only [hct] at h2
    simp only [hsub]
    by_cases hn : n > inst.buf_sz - inst.ct_idx
    · rw [if_pos hn]; exact hwf0
    · rw [if_neg hn]
      by_cases hcp : (copy_to_user ok (List.drop inst.ct_idx ct) n).1 = true
      · rw [if_pos hcp]; exact hwf0
      · rw [if_neg hcp]
        have hmod : (inst.ct_idx + n) % U32 = inst.ct_idx + n := by
          apply Nat.mod_eq_of_lt; unfold U32 at *; omega
        rw [hmod]
        by_cases hend : inst.ct_idx + n = inst.buf_sz
        · rw [if_pos hend]
          exact ⟨h1, rfl, fun h => by simp at h, h4⟩
        · rw [if_neg hend]
          refine ⟨h1, ?_, ?_, h4⟩
          · simp only [hct]; exact ⟨h2.1, by omega⟩
          · intro h; exact h3 (by simp [hct])

/-- An allocation fails or hands out zeroed memory of the requested size. -/
theorem kzalloc_cases (ok : Bool) (n : Nat) :
    kzalloc ok n = none ∨ kzalloc ok n = some (List.replicate n 0) := by
  unfold kzalloc
  by_cases h0 : n = 0
  · right; simp [h0]
  · cases ok <;> simp [h0]

/-- A Ready instance with cursor 0 whose ciphertext buffer, if any, has `buf_sz` bytes
satisfies the data invariant. -/
theorem wf_ready (key iv : List Nat) (ppt pct : Option (List Nat)) (sz : Nat)
    (hsz : sz < U32) (hct : ∀ ct, pct = some ct → ct.length = sz) :
    inst_wf { p_key := some key, p_iv := some iv, p_pt := ppt, p_ct := pct, buf_sz := sz,
              ct_idx := 0 } := by
  refine ⟨hsz, ?_, fun _ => rfl, fun _ => rfl⟩
  cases pct with
  | none => rfl
  | some ct => exact ⟨hct ct rfl, Nat.zero_le _⟩

/-- The part of the write handler after the buffers are allocated keeps the data
invariant: every instance it can return is Ready, has cursor 0, buffer size `len p` and
a ciphertext buffer that is absent or has `len p` bytes. -/
theorem write_tail_wf (D : Device σ) (fuel : Nat) (e : Env) (g : Global σ)
    (key iv : List Nat) (ppt pct : Option (List Nat)) (p : List Nat) (r : Int)
    (g1 : Global σ) (i1 : axi_trivium_inst) (hsz : p.length < U32)
    (hct : pct = none ∨ pct = some (List.replicate p.length 0))
    (h : (match ppt with
      | none => Outcome.oops
      | some pt =>
        if (copy_from_user e.user_ok pt p p.length).1 = true then
          Outcome.ret (- EFAULT, g,
            ({ p_key := some key, p_iv := some iv,
               p_pt := some (copy_from_user e.user_ok pt p p.length).2, p_ct := pct,
               buf_sz := p.length, ct_idx := 0 } : axi_trivium_inst))
        else if g.ip_mtx = true then Outcome.blocked
        else
          (context_swap D fuel g.ip_info
            { p_key := some key, p_iv := some iv,
              p_pt := some (copy_from_user e.user_ok pt p p.length).2, p_ct := pct,
              buf_sz := p.length, ct_idx := 0 }).bind fun r1 =>
            if r1.1 ≠ 0 then
              Outcome.ret (r1.1, { ip_info := r1.2, ip_mtx := true },
                ({ p_key := some key, p_iv := some iv,
                   p_pt := some (copy_from_user e.user_ok pt p p.length).2, p_ct := pct,
                   buf_sz := p.length, ct_idx := 0 } : axi_trivium_inst))
            else
              (encrypt D fuel r1.2
                { p_key := some key, p_iv := some iv,
                  p_pt := some (copy_from_user e.user_ok pt p p.length).2, p_ct := pct,
                  buf_sz := p.length, ct_idx := 0 }).bind fun r2 =>
                if r2.1 ≠ 0 then
                  Outcome.ret (r2.1, { ip_info := r2.2.1, ip_mtx := true }, r2.2.2)
                else
                  Outcome.ret ((p.length : Int), { ip_info := r2.2.1, ip_mtx := false },
                    { r2.2.2 with p_pt := none })) = Outcome.ret (r, g1, i1)) :
    inst_wf i1 := by
  have hlenct : ∀ ct, pct = some ct → ct.length = p.length := by
    intro ct hc
    rcases hct with h0 | h0
    · rw [h0] at hc; cases hc
    · rw [h0] at hc; cases hc; simp
  cases ppt with
  | none => cases h
  | some pt =>
    simp only at h
    by_cases hcp : (copy_from_user e.user_ok pt p p.length).1 = true
    · rw [if_pos hcp] at h
      cases h
      exact wf_ready key iv _ pct _ hsz hlenct
    · rw [if_neg hcp] at h
      by_cases hm : g.ip_mtx = true
      · rw [if_pos hm] at h; cases h
      · rw [if_neg hm] at h
        cases hcs : context_swap D fuel g.ip_info
            { p_key := some key, p_iv := some iv,
              p_pt := some (copy_from_user e.user_ok pt p p.length).2, p_ct := pct,
              buf_sz := p.length, ct_idx := 0 } with
        | ret r1 =>
          rw [hcs] at h
          simp only [Outcome.bind] at h
          by_cases hr : r1.1 = 0
          · simp only [hr, ne_eq, not_true_eq_false, if_false] at h
            cases pct with
            | none =>
              simp only [encrypt, Outcome.bind] at h
              have hne : (- EINVAL : Int) ≠ 0 := by decide
              simp only [ne_eq, hne, not_false_eq_true, if_true] at h
              cases h
              exact wf_ready key iv _ none _ hsz (fun ct hc => by cases hc)
            | some ct =>
              have hl0 : ct.length = p.length := hlenct ct rfl
              simp only [encrypt, DAT_LEN_MUL] at h
              cases hel : encrypt_loop D fuel (copy_from_user e.user_ok pt p p.length).2
                  (p.length / 4) 0 r1.2 ct with
              | ret r2 =>
                obtain ⟨rb, c2, ct2⟩ := r2
                rw [hel] at h
                simp only [Outcome.bind] at h
                have hl2 : ct2.length = p.length := by
                  rw [encrypt_loop_length D fuel _ _ _ _ _ _ _ _ hel (by omega), hl0]
                by_cases hr2 : rb = 0
                · simp only [hr2, ne_eq, not_true_eq_false, if_false] at h
                  cases h
                  exact wf_ready key iv _ (some ct2) _ hsz (fun x hx => by cases hx; exact hl2)
                · simp only [ne_eq, hr2, not_false_eq_true, if_true] at h
                  cases h
                  exact wf_ready key iv _ (some ct2) _ hsz (fun x hx => by cases hx; exact hl2)
              | spinning => rw [hel] at h; simp [Outcome.bind] at h
              | blocked => rw [hel] at h; simp [Outcome.bind] at h
              | oops => rw [hel] at h; simp [Outcome.bind] at h
          · simp only [ne_eq, hr, not_false_eq_true, if_true] at h
            cases h
            exact wf_ready key iv _ pct _ hsz hlenct
        | spinning => rw [hcs] at h; simp [Outcome.bind] at h
        | blocked => rw [hcs] at h; simp [Outcome.bind] at h
        | oops => rw [hcs] at h; simp [Outcome.bind] at h

/-- A write that returns keeps the data invariant, for every device, whatever the
allocator and the user copy do, whether or not the core is busy. -/
theorem write_keeps_wf (D : Device σ) (fuel : Nat) (e : Env) (g : Global σ)
    (inst : axi_trivium_inst) (p : List Nat) (r : Int) (g1 : Global σ)
    (i1 : axi_trivium_inst) (hwf : inst_wf inst) (hsz : p.length < U32)
    (h : proc_axi_trivium_write D fuel e g inst p = Outcome.ret (r, g1, i1)) :
    inst_wf i1 := by
  have hwf0 := hwf
  rcases inst with ⟨pk, pv, ppt, pct, bs, ci⟩
  obtain ⟨h1, h2, h3, h4⟩ := hwf
  simp only at h1 h2 h3 h4
  cases pk with
  | none =>
    have hpv : pv = none := by
      cases pv with
      | none => rfl
      | some v => simp at h4
    have hpct : pct = none := by
      cases pct with
      | none => rfl
      | some v => simp [phase] at h3
    subst hpv hpct
    simp only at h2
    subst h2
    simp only [proc_axi_trivium_write] at h
    by_cases hlen : p.length ≠ KEY_LEN
    · rw [if_pos hlen] at h; cases h; exact hwf0
    · rw [if_neg hlen] at h
      split at h
      · cases h; exact hwf0
      · split at h <;> cases h <;> exact ⟨h1, rfl, fun hh => by simp at hh, fun hh => by simp at hh⟩
  | some key =>
    cases pv with
    | none =>
      have hpct : pct = none := by
        cases pct with
        | none => rfl
        | some v => simp [phase] at h3
      subst hpct
      simp only at h2
      subst h2
      simp only [proc_axi_trivium_write] at h
      by_cases hlen : p.length ≠ IV_LEN
      · rw [if_pos hlen] at h; cases h; exact hwf0
      · rw [if_neg hlen] at h
        split at h
        · cases h; exact hwf0
        · split at h <;> cases h <;> exact ⟨h1, rfl, fun hh => by simp at hh, fun _ => rfl⟩
    | some iv =>
      simp only [proc_axi_trivium_write] at h
      by_cases hlen : p.length % DAT_LEN_MUL ≠ 0
      · rw [if_pos hlen] at h; cases h; exact hwf0
      · rw [if_neg hlen] at h
        cases pct with
        | none =>
          simp only at h2
          subst h2
          simp only [Option.isSome_none, Bool.false_eq_true, if_false] at h
          exact write_tail_wf D fuel e g key iv _ _ p r g1 i1 hsz
            (kzalloc_cases e.alloc2 p.length) h
        | some old =>
          simp only [Option.isSome_some, if_true] at h
          exact write_tail_wf D fuel e g key iv _ _ p r g1 i1 hsz
            (kzalloc_cases e.alloc2 p.length) h

/-- A freshly opened session satisfies the data invariant. -/
theorem open_wf : inst_wf proc_axi_trivium_open := by
  refine ⟨by decide, ?_, ?_, ?_⟩ <;> simp [proc_axi_trivium_open]

/-! ## A write whose copy from the caller fails -/

/-- C11 (the code departs from the claim): a write of a length valid for the phase
whose `copy_from_user` fails returns `-EFAULT` without touching the globals, but the
session is changed.  In phase Empty the zeroed key buffer stays attached: the session is in
phase HasKey and a following ten-byte write is stored as the IV, not as the key.  In
phase HasKey the zeroed IV buffer stays attached: the session is in phase Ready and a
following ten-byte write is rejected with `-ENOEXEC`.  In phase Ready the earlier
ciphertext buffer is gone, replaced by a zeroed one of the new length with the cursor
at 0, and a read of that length delivers zero bytes. -/
theorem write_copy_fault (D : Device σ) (fuel : Nat) (e : Env) (g : Global σ)
    (inst : axi_trivium_inst) (p : List Nat) (hwf : inst_wf inst) (hu : e.user_ok = false)
    (ha : e.alloc1 = true) (hp : 0 < p.length) :
    (phase inst = Phase.Empty → p.length = 10 →
      proc_axi_trivium_write D fuel e g inst p
        = Outcome.ret (- EFAULT, g, { inst with p_key := some (List.replicate 12 0) }) ∧
      phase { inst with p_key := some (List.replicate 12 0) } = Phase.HasKey ∧
      ∀ k : List Nat, k.length = 10 →
        proc_axi_trivium_write D fuel Env.nominal g
            { inst with p_key := some (List.replicate 12 0) } k
          = Outcome.ret (10, g,
              { inst with p_key := some (List.replicate 12 0), p_iv := some (pad12 k) })) ∧
    (phase inst = Phase.HasKey → p.length = 10 →
      proc_axi_trivium_write D fuel e g inst p
        = Outcome.ret (- EFAULT, g, { inst with p_iv := some (List.replicate 12 0) }) ∧
      phase { inst with p_iv := some (List.replicate 12 0) } = Phase.Ready ∧
      ∀ v : List Nat, v.length = 10 →
        proc_axi_trivium_write D fuel Env.nominal g
            { inst with p_iv := some (List.replicate 12 0) } v
          = Outcome.ret (- ENOEXEC, g, { inst with p_iv := some (List.replicate 12 0) })) ∧
    (phase inst = Phase.Ready → p.length % 4 = 0 → e.alloc2 = true → p.length < U32 →
      proc_axi_trivium_write D fuel e g inst p
        = Outcome.ret (- EFAULT, g,
            { inst with
              p_pt := some (List.replicate p.length 0),
              p_ct := some (List.replicate p.length 0), buf_sz := p.length, ct_idx := 0 }) ∧
      proc_axi_trivium_read true
          { inst with
            p_pt := some (List.replicate p.length 0),
            p_ct := some (List.replicate p.length 0), buf_sz := p.length, ct_idx := 0 }
          p.length
        = ((p.length : Int),
           { inst with
             p_pt := some (List.replicate p.length 0), p_ct := none, buf_sz := p.length,
             ct_idx := 0 },
           List.replicate p.length 0)) := by
  rcases inst with ⟨pk, pv, ppt, pct, bs, ci⟩
  obtain ⟨h1, h2, h3, h4⟩ := hwf
  simp only at h1 h2 h3 h4
  have hp0 : p.length ≠ 0 := by omega
  refine ⟨?_, ?_, ?_⟩
  · intro hph hlen
    have hk : pk = none := by
      cases pk with
      | none => rfl
      | some k => cases pv <;> simp [phase] at hph
    subst hk
    have hv : pv = none := by
      cases pv with
      | none => rfl
      | some v => simp at h4
    subst hv
    refine ⟨?_, rfl, ?_⟩
    · simp [proc_axi_trivium_write, KEY_LEN, hlen, kzalloc, ha, hu, copy_from_user]
    · intro k hk
      exact write_iv_ok D fuel g _ _ k rfl rfl hk
  · intro hph hlen
    cases pk with
    | none => simp [phase] at hph
    | some key =>
      cases pv with
      | some v => simp [phase] at hph
      | none =>
        refine ⟨?_, rfl, ?_⟩
        · simp [proc_axi_trivium_write, IV_LEN, hlen, kzalloc, ha, hu, copy_from_user]
        · intro v hv
          simp [proc_axi_trivium_write, DAT_LEN_MUL, hv]
  · intro hph hlen ha2 hlt
    cases pk with
    | none => simp [phase] at hph
    | some key =>
      cases pv with
      | none => simp [phase] at hph
      | some v =>
        refine ⟨?_, ?_⟩
        · cases pct with
          | none =>
            have hc0 : ci = 0 := by simpa using h2
            subst hc0
            simp [proc_axi_trivium_write, DAT_LEN_MUL, hlen, kzalloc, ha, ha2, hu,
              copy_from_user, hp0]
          | some ct =>
            simp [proc_axi_trivium_write, DAT_LEN_MUL, hlen, kzalloc, ha, ha2, hu,
              copy_from_user, hp0]
        · have hr := read_all
            ({ p_key := some key, p_iv := some v, p_pt := some (List.replicate p.length 0),
               p_ct := some (List.replicate p.length 0), buf_sz := p.length, ct_idx := 0 } :
              axi_trivium_inst)
            (List.replicate p.length 0) rfl (by simp) rfl hlt rfl
          simpa using hr

/-- Witness of `write_copy_fault`.  A freshly opened session whose first write, of ten
bytes, comes with an unreadable buffer: the write returns `-EFAULT`, the session is in
phase HasKey with an all-zero key and the next ten-byte write, the sample key, is stored
as the IV.  The Ready sample session holding 8 unread ciphertext bytes, after a 4-byte
write with an unreadable buffer: a read of 4 bytes delivers four zero bytes. -/
theorem write_copy_fault_witness :
    inst_wf proc_axi_trivium_open ∧
    proc_axi_trivium_write (Engine.device toyCipher) 3 Env.bad_buffer idleGlobal
        proc_axi_trivium_open sampleKey
      = Outcome.ret (- EFAULT, idleGlobal,
          { proc_axi_trivium_open with p_key := some (List.replicate 12 0) }) ∧
    proc_axi_trivium_write (Engine.device toyCipher) 3 Env.nominal idleGlobal
        { proc_axi_trivium_open with p_key := some (List.replicate 12 0) } sampleKey
      = Outcome.ret (10, idleGlobal,
          { proc_axi_trivium_open with
            p_key := some (List.replicate 12 0), p_iv := some (pad12 sampleKey) }) ∧
    proc_axi_trivium_write (Engine.device toyCipher) 3 Env.bad_buffer idleGlobal bufferedInst
        [1, 0, 0, 0]
      = Outcome.ret (- EFAULT, idleGlobal,
          { bufferedInst with
            p_pt := some [0, 0, 0, 0], p_ct := some [0, 0, 0, 0], buf_sz := 4, ct_idx := 0 }) ∧
    (proc_axi_trivium_read true
        { bufferedInst with
          p_pt := some [0, 0, 0, 0], p_ct := some [0, 0, 0, 0], buf_sz := 4, ct_idx := 0 }
        4).2.2 = [0, 0, 0, 0] ∧
    (proc_axi_trivium_read true bufferedInst 4).2.2 = [39, 80, 48, 69] :=
  ⟨open_wf,
   ((write_copy_fault (Engine.device toyCipher) 3 Env.bad_buffer idleGlobal
      proc_axi_trivium_open sampleKey open_wf rfl rfl (by decide)).1 rfl rfl).1,
   ((write_copy_fault (Engine.device toyCipher) 3 Env.bad_buffer idleGlobal
      proc_axi_trivium_open sampleKey open_wf rfl rfl (by decide)).1 rfl rfl).2.2
      sampleKey rfl,
   ((write_copy_fault (Engine.device toyCipher) 3 Env.bad_buffer idleGlobal bufferedInst
      [1, 0, 0, 0] bufferedInst_wf rfl rfl (by decide)).2.2 rfl rfl rfl (by decide)).1,
   congrArg (fun r => r.2.2)
     ((write_copy_fault (Engine.device toyCipher) 3 Env.bad_buffer idleGlobal bufferedInst
        [1, 0, 0, 0] bufferedInst_wf rfl rfl (by decide)).2.2 rfl rfl rfl (by decide)).2,
   by decide⟩

/-! ## The read cursor stays inside the ciphertext buffer -/

/-- Every reachable session state satisfies the data invariant. -/
theorem reachable_wf (D : Device σ) (fuel : Nat) (inst : axi_trivium_inst)
    (h : Reachable D fuel inst) : inst_wf inst := by
  induction h with
  | opened => exact open_wf
  | write e g g1 inst i1 p r _ hsz hw ih =>
    exact write_keeps_wf D fuel e g inst p r g1 i1 ih hsz hw
  | read ok inst n _ ih => exact read_keeps_wf ok inst n ih

/-- C13: in every session state reachable from a freshly opened session by `write` and
`read` calls, accepted or rejected (on every device, so in particular on a core that is
never busy, and whatever the user copies do, so in particular when they succeed): a
ciphertext buffer, when there is one, has `buf_sz` bytes and the cursor is at most
`buf_sz`; the cursor is 0 when there is no ciphertext buffer; hence the `unsigned int`
subtraction `buf_sz - ct_idx` of the read handler is the exact difference and does not
wrap around. -/
theorem cursor_invariant (D : Device σ) (fuel : Nat) (inst : axi_trivium_inst)
    (h : Reachable D fuel inst) :
    (∀ ct, inst.p_ct = some ct → ct.length = inst.buf_sz ∧ inst.ct_idx ≤ inst.buf_sz) ∧
    (inst.p_ct = none → inst.ct_idx = 0) ∧
    inst.ct_idx ≤ inst.buf_sz ∧
    ((u32_sub inst.buf_sz inst.ct_idx : Nat) : Int)
      = (inst.buf_sz : Int) - (inst.ct_idx : Int) := by
  obtain ⟨h1, h2, -, -⟩ := reachable_wf D fuel inst h
  have hle : inst.ct_idx ≤ inst.buf_sz := by
    cases hct : inst.p_ct with
    | none => simp only [hct] at h2; omega
    | some ct => simp only [hct] at h2; exact h2.2
  refine ⟨?_, ?_, hle, ?_⟩
  · intro ct hct
    simpa [hct] using h2
  · intro hct
    simpa [hct] using h2
  · unfold u32_sub U32 at *
    omega

/-- Witness of `cursor_invariant`: the state after `open`, the writes of the sample key,
IV and plaintext on the simulated core and a read of 4 bytes is reachable; its cursor
is 4, its buffer size 8 and the subtraction yields 4. -/
theorem cursor_invariant_witness :
    Reachable (Engine.device toyCipher) 3 halfReadInst ∧
    halfReadInst.ct_idx = 4 ∧ halfReadInst.buf_sz = 8 ∧
    ((u32_sub halfReadInst.buf_sz halfReadInst.ct_idx : Nat) : Int)
      = (halfReadInst.buf_sz : Int) - (halfReadInst.ct_idx : Int) :=
  have hr : Reachable (Engine.device toyCipher) 3 halfReadInst :=
    Reachable.read true afterFirstInst 4
      (Reachable.write Env.nominal idleGlobal
        (global_of (proc_axi_trivium_write (Engine.device toyCipher) 3 Env.nominal idleGlobal
          readyInst samplePlain) idleGlobal)
        readyInst afterFirstInst samplePlain 8
        (Reachable.write Env.nominal idleGlobal idleGlobal
          { proc_axi_trivium_open with p_key := some (pad12 sampleKey) } readyInst sampleIV 10
          (Reachable.write Env.nominal idleGlobal idleGlobal proc_axi_trivium_open
            { proc_axi_trivium_open with p_key := some (pad12 sampleKey) } sampleKey 10
            Reachable.opened (by decide) rfl)
          (by decide) rfl)
        (by decide) rfl)
  ⟨hr, by decide, by decide,
   (cursor_invariant (Engine.device toyCipher) 3 halfReadInst hr).2.2.2⟩

end Trivium
